import Mathlib

/-!
# Cloud upload pipelines of `lib-cloud-audiocom/sync`

A shallow embedding of

* `MissingBlocksUploader.cpp`: the bulk block pipeline (producer threads, ring
  buffer, one consumer thread, bounded number of concurrent uploads);
* `MixdownUploader.cpp`: the export-then-upload state machine.

Threads are embedded as program counters inside one state. Every critical
section of the source (the code run under one mutex) is one atomic step. In the
step functions `step` a blocking `condition_variable::wait` is a step that is
enabled only when its wait predicate holds; the step functions `cvStep` and
`waitStep` built on them spell the waits out (test of the predicate, sleep,
notification), which is what the claims about waking up need. The collaborators
the source calls into (`DataUploader`, the block compressor, the export task,
the UI event queue) are the environment: they choose when a callback runs and
with which result.

The first part of the file holds the definitions, the second part the theorems.
-/

namespace cloud.audiocom.sync

/-! ## Shared data -/

/-- Result codes of `NetworkUtils.h`. The two uploaders name `Success`,
`Cancelled` and `InternalClientError`; every other enumerator is `Other n`. -/
inductive ResponseResultCode where
  | Success
  | Cancelled
  | InternalClientError
  | Other (n : Nat)
  deriving DecidableEq

/-- The `ResponseResult` aggregate: a code and the response body (bytes). -/
structure ResponseResult where
  Code : ResponseResultCode
  Content : List Nat
  deriving DecidableEq

/-- The value-initialised `ResponseResult` written `{}` in the source. -/
instance : Inhabited ResponseResult := ⟨⟨ResponseResultCode.Success, []⟩⟩

/-- Where a thread stands inside `condition_variable::wait(lock, pred)`, which is
`while (!pred()) wait(lock);`. -/
inductive WaitPhase where
  /-- Holding the mutex, about to evaluate the predicate (or not at a wait). -/
  | awake
  /-- The predicate was false; still holding the mutex, about to call
  `wait(lock)`. -/
  | predicateFalse
  /-- Inside `wait(lock)`: the mutex is released and the thread sleeps until the
  condition variable is notified. -/
  | blocked
  deriving DecidableEq

/-- What a notification does to a thread waiting on the condition variable. -/
def WaitPhase.wake : WaitPhase → WaitPhase
  | WaitPhase.blocked => WaitPhase.awake
  | phase => phase

namespace MissingBlocksUploader

/-! ## The bulk pipeline: data model and operations -/

/-- One entry of `mUploadTasks`: the block (by identity) and its upload urls
(by identity). -/
structure BlockUploadTask where
  BlockUrls : Nat
  Block : Nat
  deriving DecidableEq

instance : Inhabited BlockUploadTask := ⟨⟨0, 0⟩⟩

/-- The struct `MissingBlocksUploader::ProducedItem`. -/
structure ProducedItem where
  Task : BlockUploadTask
  CompressedData : List Nat
  deriving DecidableEq

/-- The value-initialised `ProducedItem` written `{}` in `PopBlockFromQueue`. -/
instance : Inhabited ProducedItem := ⟨⟨default, []⟩⟩

/-- The struct `MissingBlocksUploadProgress`. -/
structure MissingBlocksUploadProgress where
  TotalBlocks : Nat
  UploadedBlocks : Nat
  FailedBlocks : Nat
  UploadErrors : List ResponseResult
  deriving DecidableEq

/-- One invocation of `mProgressCallback(progress, block, result)`. -/
structure ProgressCall where
  Progress : MissingBlocksUploadProgress
  Block : Nat
  Result : ResponseResult
  deriving DecidableEq

/-- Compile-time constants of `MissingBlocksUploader.h`, the external block
compressor and what the constructor is handed besides the tasks, taken as
parameters. -/
structure Config where
  RING_BUFFER_SIZE : Nat
  NUM_UPLOADERS : Nat
  NUM_PRODUCERS : Nat
  CompressBlock : Nat → List Nat
  /-- Whether the argument `progress` of the constructor holds a target (`false`:
  the caller passed an empty `std::function`). -/
  progress : Bool

/-- Where a producer thread stands inside `ProducerThread`. -/
inductive ProducerPc where
  /-- About to evaluate the loop condition `mIsRunning.load()`. -/
  | loopHead
  /-- The loop condition held; about to take `mBlocksMutex`. -/
  | lockWait
  /-- Holding `mBlocksMutex` with an item whose payload is empty, about to take
  `mProgressDataMutex`. -/
  | reporting (item : ProducedItem)
  /-- Inside `PushBlockToQueue(item)`, holding `mBlocksMutex`, at the wait. -/
  | pushing (item : ProducedItem)
  /-- Returned from `ProducerThread`. -/
  | exited
  /-- The call of an empty `mProgressCallback` threw `std::bad_function_call`;
  nothing in `ProducerThread` catches it. -/
  | aborted
  deriving DecidableEq

/-- Where the consumer thread stands inside `ConsumerThread`. -/
inductive ConsumerPc where
  /-- About to evaluate the loop condition `mIsRunning.load()`. -/
  | loopHead
  /-- Inside `PopBlockFromQueue`, at the wait. -/
  | popping
  /-- Inside `ConsumeBlock(item)`, at the wait. -/
  | consuming (item : ProducedItem)
  /-- Inside `ConsumeBlock(item)` with a permit taken, about to call
  `DataUploader::Upload`. -/
  | dispatching (item : ProducedItem)
  /-- Returned from `ConsumerThread`. -/
  | exited
  deriving DecidableEq

/-- The members of `MissingBlocksUploader`, the program counters of its threads
and the part of the environment it talks to (`DataUploader`, the progress
callback). -/
structure State where
  mUploadTasks : List BlockUploadTask
  mIsRunning : Bool
  mFirstUnprocessedBlockIndex : Nat
  mRingBuffer : List ProducedItem
  mRingBufferWriteIndex : Nat
  mRingBufferReadIndex : Nat
  /-- Declared in `MissingBlocksUploader.h`; an integer here, so that a decrement
  below zero would show. -/
  mConcurrentUploads : Int
  mProgressData : MissingBlocksUploadProgress
  /-- Whether `mProgressCallback` holds a target. The member is initialised from
  the argument `progress`; the last statement of the constructor replaces an
  empty one, after the threads were started. -/
  mProgressCallback : Bool
  /-- Every call of `mProgressCallback` that ran the callback, oldest first. A
  producer that calls an empty `mProgressCallback` adds nothing here. Completion
  callbacks of uploads are taken to come once the constructor has returned. -/
  progressCalls : List ProgressCall
  /-- Uploads handed to `DataUploader::Upload` whose completion callback has not
  been invoked yet. -/
  inFlight : List ProducedItem
  /-- Completion callbacks that have left their first critical section (progress)
  and not yet run their second one (permit release). -/
  releasing : Nat
  producers : List ProducerPc
  consumer : ConsumerPc
  /-- An exception left a thread function: `std::terminate` was called and the
  process is gone. -/
  terminated : Bool
  deriving DecidableEq

/-- The constructor `MissingBlocksUploader::MissingBlocksUploader` up to and
including the start of the threads; its last statement is the action
`Action.construct`. -/
def State.init (cfg : Config) (uploadTasks : List BlockUploadTask) : State :=
  { mUploadTasks := uploadTasks
    mIsRunning := true
    mFirstUnprocessedBlockIndex := 0
    mRingBuffer := List.replicate cfg.RING_BUFFER_SIZE default
    mRingBufferWriteIndex := 0
    mRingBufferReadIndex := 0
    mConcurrentUploads := 0
    mProgressData :=
      { TotalBlocks := uploadTasks.length, UploadedBlocks := 0, FailedBlocks := 0,
        UploadErrors := [] }
    mProgressCallback := cfg.progress
    progressCalls := []
    inFlight := []
    releasing := 0
    producers := List.replicate cfg.NUM_PRODUCERS ProducerPc.loopHead
    consumer := ConsumerPc.loopHead
    terminated := false }

/-- The function `ProduceBlock`: claims the next index and compresses the block.
`none` stands for the out-of-bounds read `mUploadTasks[index]`. -/
def ProduceBlock (cfg : Config) (s : State) : Option (State × ProducedItem) :=
  let index := s.mFirstUnprocessedBlockIndex
  match s.mUploadTasks[index]? with
  | none => none
  | some task =>
    some ({ s with mFirstUnprocessedBlockIndex := index + 1 },
          { Task := task, CompressedData := cfg.CompressBlock task.Block })

/-- The function `PushBlockToQueue`. `none`: the wait predicate is false, the
caller stays blocked. -/
def PushBlockToQueue (cfg : Config) (s : State) (item : ProducedItem) : Option State :=
  if (s.mRingBufferWriteIndex + 1) % cfg.RING_BUFFER_SIZE ≠ s.mRingBufferReadIndex
      ∨ s.mIsRunning = false then
    if s.mIsRunning = false then
      some s
    else
      some { s with
        mRingBuffer := s.mRingBuffer.set s.mRingBufferWriteIndex item
        mRingBufferWriteIndex := (s.mRingBufferWriteIndex + 1) % cfg.RING_BUFFER_SIZE }
  else
    none

/-- The function `PopBlockFromQueue`. `none`: the wait predicate is false. The
slot read is left in its moved-from state (task kept, payload emptied). -/
def PopBlockFromQueue (cfg : Config) (s : State) : Option (State × ProducedItem) :=
  if s.mRingBufferWriteIndex ≠ s.mRingBufferReadIndex ∨ s.mIsRunning = false then
    if s.mIsRunning = false then
      some (s, default)
    else
      let item := s.mRingBuffer.getD s.mRingBufferReadIndex default
      some ({ s with
              mRingBuffer :=
                s.mRingBuffer.set s.mRingBufferReadIndex { item with CompressedData := [] }
              mRingBufferReadIndex := (s.mRingBufferReadIndex + 1) % cfg.RING_BUFFER_SIZE },
            item)
  else
    none

/-- First part of `ConsumeBlock`, under `mUploadsMutex`: the wait and the
increment. `none`: the wait predicate is false. The flag tells whether a permit
was taken (`false`: the function returned because the pipeline is stopped). -/
def ConsumeBlock_acquire (cfg : Config) (s : State) : Option (State × Bool) :=
  if s.mConcurrentUploads < (cfg.NUM_UPLOADERS : Int) ∨ s.mIsRunning = false then
    if s.mIsRunning = false then
      some (s, false)
    else
      some ({ s with mConcurrentUploads := s.mConcurrentUploads + 1 }, true)
  else
    none

/-- Second part of `ConsumeBlock`: the call `DataUploader::Get().Upload(...)`. -/
def ConsumeBlock_upload (s : State) (item : ProducedItem) : State :=
  { s with inFlight := s.inFlight ++ [item] }

/-- The function `ConsumeBlock`, run without another thread in between. -/
def ConsumeBlock (cfg : Config) (s : State) (item : ProducedItem) : Option State :=
  match ConsumeBlock_acquire cfg s with
  | none => none
  | some (s1, false) => some s1
  | some (s1, true) => some (ConsumeBlock_upload s1 item)

/-- Second critical section of `ConfirmBlock` and of `HandleFailedBlock`:
`--mConcurrentUploads` under `mUploadsMutex`. -/
def releasePermit (s : State) : State :=
  { s with mConcurrentUploads := s.mConcurrentUploads - 1 }

/-- First critical section of `ConfirmBlock`, under `mProgressDataMutex`. -/
def ConfirmBlock_progress (s : State) (item : BlockUploadTask) : State :=
  let progress := { s.mProgressData with UploadedBlocks := s.mProgressData.UploadedBlocks + 1 }
  { s with
    mProgressData := progress
    progressCalls := s.progressCalls ++ [⟨progress, item.Block, default⟩] }

/-- The function `ConfirmBlock`. -/
def ConfirmBlock (s : State) (item : BlockUploadTask) : State :=
  releasePermit (ConfirmBlock_progress s item)

/-- First critical section of `HandleFailedBlock`, under `mProgressDataMutex`. -/
def HandleFailedBlock_progress (s : State) (result : ResponseResult)
    (task : BlockUploadTask) : State :=
  let progress :=
    { s.mProgressData with
      FailedBlocks := s.mProgressData.FailedBlocks + 1
      UploadErrors := s.mProgressData.UploadErrors ++ [result] }
  { s with
    mProgressData := progress
    progressCalls := s.progressCalls ++ [⟨progress, task.Block, result⟩] }

/-- The function `HandleFailedBlock`. -/
def HandleFailedBlock (s : State) (result : ResponseResult) (task : BlockUploadTask) : State :=
  releasePermit (HandleFailedBlock_progress s result task)

/-- First critical section of the completion lambda passed to
`DataUploader::Upload` in `ConsumeBlock`. -/
def uploadCompleted_progress (s : State) (task : BlockUploadTask)
    (result : ResponseResult) : State :=
  if result.Code ≠ ResponseResultCode.Success then
    HandleFailedBlock_progress s result task
  else
    ConfirmBlock_progress s task

/-- The completion lambda passed to `DataUploader::Upload` in `ConsumeBlock`. -/
def uploadCompleted (s : State) (task : BlockUploadTask) (result : ResponseResult) : State :=
  if result.Code ≠ ResponseResultCode.Success then
    HandleFailedBlock s result task
  else
    ConfirmBlock s task

/-- The compression-failure branch of `ProducerThread`, under
`mProgressDataMutex`: the counter goes up and `mProgressCallback` is called. The
call of an empty `mProgressCallback` throws `std::bad_function_call`, which
nothing catches: the thread function is left by an exception and
`std::terminate` ends the process. -/
def reportCompressionFailure (s : State) (item : ProducedItem) : State :=
  let progress := { s.mProgressData with FailedBlocks := s.mProgressData.FailedBlocks + 1 }
  if s.mProgressCallback then
    { s with
      mProgressData := progress
      progressCalls :=
        s.progressCalls ++
          [⟨progress, item.Task.Block, ⟨ResponseResultCode.InternalClientError, []⟩⟩] }
  else
    { s with mProgressData := progress, terminated := true }

/-- Whether a producer holds a produced item, and with it `mBlocksMutex`. -/
def ProducerPc.hasItem : ProducerPc → Bool
  | ProducerPc.reporting _ => true
  | ProducerPc.pushing _ => true
  | _ => false

/-- The mutex `mBlocksMutex` is held from the top of the loop body of
`ProducerThread` to its end, so across steps exactly by a producer that holds a
produced item. -/
def blocksMutexHeld (s : State) : Bool :=
  s.producers.any ProducerPc.hasItem

/-- One step of a producer thread standing at `pc`: the new state and the new
program counter; `none` when the thread is blocked or has exited. -/
def ProducerThread (cfg : Config) (s : State) : ProducerPc → Option (State × ProducerPc)
  | ProducerPc.loopHead =>
    if s.mIsRunning then some (s, ProducerPc.lockWait) else some (s, ProducerPc.exited)
  | ProducerPc.lockWait =>
    if blocksMutexHeld s then none
    else if s.mFirstUnprocessedBlockIndex ≥ s.mUploadTasks.length then
      some (s, ProducerPc.exited)
    else
      match ProduceBlock cfg s with
      | none => none
      | some (s1, item) =>
        if item.CompressedData.isEmpty then
          some (s1, ProducerPc.reporting item)
        else
          some (s1, ProducerPc.pushing item)
  | ProducerPc.reporting item =>
    some (reportCompressionFailure s item,
      if s.mProgressCallback then ProducerPc.loopHead else ProducerPc.aborted)
  | ProducerPc.pushing item =>
    match PushBlockToQueue cfg s item with
    | none => none
    | some s1 => some (s1, ProducerPc.loopHead)
  | ProducerPc.exited => none
  | ProducerPc.aborted => none

/-- One step of the consumer thread. -/
def ConsumerThread (cfg : Config) (s : State) : Option State :=
  match s.consumer with
  | ConsumerPc.loopHead =>
    if s.mIsRunning then some { s with consumer := ConsumerPc.popping }
    else some { s with consumer := ConsumerPc.exited }
  | ConsumerPc.popping =>
    match PopBlockFromQueue cfg s with
    | none => none
    | some (s1, item) => some { s1 with consumer := ConsumerPc.consuming item }
  | ConsumerPc.consuming item =>
    match ConsumeBlock_acquire cfg s with
    | none => none
    | some (s1, false) => some { s1 with consumer := ConsumerPc.loopHead }
    | some (s1, true) => some { s1 with consumer := ConsumerPc.dispatching item }
  | ConsumerPc.dispatching item =>
    some { ConsumeBlock_upload s item with consumer := ConsumerPc.loopHead }
  | ConsumerPc.exited => none

/-- What can happen next in the pipeline. -/
inductive Action where
  /-- The destructor stores `false` into `mIsRunning`. It is called on a
  constructed object, so after the last statement of the constructor. -/
  | destroy
  /-- Producer thread `i` takes its next step. -/
  | producer (i : Nat)
  /-- The consumer thread takes its next step. -/
  | consumer
  /-- The uploader invokes the completion callback of the `k`-th upload in flight
  with `result`; the callback runs its first critical section. -/
  | complete (k : Nat) (result : ResponseResult)
  /-- A completion callback runs its second critical section. -/
  | release
  /-- The last statement of the constructor, which has an effect only while
  `mProgressCallback` is empty: it is replaced by a callback that does nothing. -/
  | construct
  deriving DecidableEq

/-- The step function of a pipeline whose process is alive. -/
def stepAlive (cfg : Config) (s : State) : Action → Option State
  | Action.destroy =>
    if s.mProgressCallback then some { s with mIsRunning := false } else none
  | Action.producer i =>
    match s.producers[i]? with
    | none => none
    | some pc =>
      match ProducerThread cfg s pc with
      | none => none
      | some (s1, pc1) => some { s1 with producers := s1.producers.set i pc1 }
  | Action.consumer => ConsumerThread cfg s
  | Action.complete k result =>
    match s.inFlight[k]? with
    | none => none
    | some item =>
      let s1 := uploadCompleted_progress s item.Task result
      some { s1 with inFlight := s1.inFlight.eraseIdx k, releasing := s1.releasing + 1 }
  | Action.release =>
    if s.releasing = 0 then none
    else some { releasePermit s with releasing := s.releasing - 1 }
  | Action.construct =>
    if s.mProgressCallback then none else some { s with mProgressCallback := true }

/-- The step function of the pipeline; `none` when the action is not enabled.
Nothing happens any more once `std::terminate` was called. -/
def step (cfg : Config) (s : State) (a : Action) : Option State :=
  if s.terminated then none else stepAlive cfg s a

/-- Runs a schedule from a state; `none` when some action was not enabled. -/
def run (cfg : Config) (s : State) : List Action → Option State
  | [] => some s
  | a :: rest =>
    match step cfg s a with
    | none => none
    | some s1 => run cfg s1 rest

/-- The states the pipeline built over `uploadTasks` can be in. -/
def Reachable (cfg : Config) (uploadTasks : List BlockUploadTask) (s : State) : Prop :=
  ∃ schedule, run cfg (State.init cfg uploadTasks) schedule = some s

/-- The destructor has returned: the flag is cleared and every producer and the
consumer have been joined. -/
def destructorReturned (s : State) : Prop :=
  s.mIsRunning = false ∧ (∀ pc ∈ s.producers, pc = ProducerPc.exited) ∧
    s.consumer = ConsumerPc.exited

/-- Number of items the indices say are in the ring buffer. -/
def occupancy (cfg : Config) (s : State) : Nat :=
  (s.mRingBufferWriteIndex + cfg.RING_BUFFER_SIZE - s.mRingBufferReadIndex)
    % cfg.RING_BUFFER_SIZE

/-! ### The ring buffer on its own -/

/-- The ring buffer together with the items admitted into it and the items taken
out of it so far, oldest first. -/
structure RingTrace where
  state : State
  pushed : List ProducedItem
  popped : List ProducedItem
  deriving DecidableEq

/-- A call of `PushBlockToQueue` or of `PopBlockFromQueue`, or the destructor's
store to `mIsRunning`. -/
inductive RingOp where
  | push (item : ProducedItem)
  | pop
  | stop
  deriving DecidableEq

/-- One ring-buffer operation; `none` while the caller is blocked in its wait. -/
def ringStep (cfg : Config) (t : RingTrace) : RingOp → Option RingTrace
  | RingOp.push item =>
    match PushBlockToQueue cfg t.state item with
    | none => none
    | some s1 =>
      some { t with
        state := s1
        pushed := if t.state.mIsRunning then t.pushed ++ [item] else t.pushed }
  | RingOp.pop =>
    match PopBlockFromQueue cfg t.state with
    | none => none
    | some (s1, item) =>
      some { t with
        state := s1
        popped := if t.state.mIsRunning then t.popped ++ [item] else t.popped }
  | RingOp.stop => some { t with state := { t.state with mIsRunning := false } }

/-- Runs a sequence of ring-buffer operations. -/
def ringRun (cfg : Config) (t : RingTrace) : List RingOp → Option RingTrace
  | [] => some t
  | op :: rest =>
    match ringStep cfg t op with
    | none => none
    | some t1 => ringRun cfg t1 rest

/-! ### The step function as a relation, and the invariants -/

/-- The step function read as a relation, one constructor per path through the
source. -/
inductive Step (cfg : Config) (s : State) : Action → State → Prop where
  | destroy (hcb : s.mProgressCallback = true) :
      Step cfg s Action.destroy { s with mIsRunning := false }
  | producerEnter (i : Nat) (hpc : s.producers[i]? = some ProducerPc.loopHead)
      (hrun : s.mIsRunning = true) :
      Step cfg s (Action.producer i) { s with producers := s.producers.set i ProducerPc.lockWait }
  | producerStop (i : Nat) (hpc : s.producers[i]? = some ProducerPc.loopHead)
      (hrun : s.mIsRunning = false) :
      Step cfg s (Action.producer i) { s with producers := s.producers.set i ProducerPc.exited }
  | producerDone (i : Nat) (hpc : s.producers[i]? = some ProducerPc.lockWait)
      (hfree : blocksMutexHeld s = false)
      (hall : s.mFirstUnprocessedBlockIndex ≥ s.mUploadTasks.length) :
      Step cfg s (Action.producer i) { s with producers := s.producers.set i ProducerPc.exited }
  | producerEmpty (i : Nat) (task : BlockUploadTask)
      (hpc : s.producers[i]? = some ProducerPc.lockWait)
      (hfree : blocksMutexHeld s = false)
      (hlt : s.mFirstUnprocessedBlockIndex < s.mUploadTasks.length)
      (htask : s.mUploadTasks[s.mFirstUnprocessedBlockIndex]? = some task)
      (hdata : cfg.CompressBlock task.Block = []) :
      Step cfg s (Action.producer i)
        { s with
          mFirstUnprocessedBlockIndex := s.mFirstUnprocessedBlockIndex + 1
          producers :=
            s.producers.set i (ProducerPc.reporting ⟨task, cfg.CompressBlock task.Block⟩) }
  | producerReport (i : Nat) (item : ProducedItem)
      (hpc : s.producers[i]? = some (ProducerPc.reporting item))
      (hcb : s.mProgressCallback = true) :
      Step cfg s (Action.producer i)
        { s with
          mProgressData :=
            { s.mProgressData with FailedBlocks := s.mProgressData.FailedBlocks + 1 }
          progressCalls :=
            s.progressCalls ++
              [⟨{ s.mProgressData with FailedBlocks := s.mProgressData.FailedBlocks + 1 },
                item.Task.Block, ⟨ResponseResultCode.InternalClientError, []⟩⟩]
          producers := s.producers.set i ProducerPc.loopHead }
  | producerAbort (i : Nat) (item : ProducedItem)
      (hpc : s.producers[i]? = some (ProducerPc.reporting item))
      (hcb : s.mProgressCallback = false) :
      Step cfg s (Action.producer i)
        { s with
          mProgressData :=
            { s.mProgressData with FailedBlocks := s.mProgressData.FailedBlocks + 1 }
          terminated := true
          producers := s.producers.set i ProducerPc.aborted }
  | producerClaim (i : Nat) (task : BlockUploadTask)
      (hpc : s.producers[i]? = some ProducerPc.lockWait)
      (hfree : blocksMutexHeld s = false)
      (hlt : s.mFirstUnprocessedBlockIndex < s.mUploadTasks.length)
      (htask : s.mUploadTasks[s.mFirstUnprocessedBlockIndex]? = some task)
      (hdata : cfg.CompressBlock task.Block ≠ []) :
      Step cfg s (Action.producer i)
        { s with
          mFirstUnprocessedBlockIndex := s.mFirstUnprocessedBlockIndex + 1
          producers :=
            s.producers.set i (ProducerPc.pushing ⟨task, cfg.CompressBlock task.Block⟩) }
  | producerPush (i : Nat) (item : ProducedItem)
      (hpc : s.producers[i]? = some (ProducerPc.pushing item))
      (hrun : s.mIsRunning = true)
      (hroom : (s.mRingBufferWriteIndex + 1) % cfg.RING_BUFFER_SIZE ≠ s.mRingBufferReadIndex) :
      Step cfg s (Action.producer i)
        { s with
          mRingBuffer := s.mRingBuffer.set s.mRingBufferWriteIndex item
          mRingBufferWriteIndex := (s.mRingBufferWriteIndex + 1) % cfg.RING_BUFFER_SIZE
          producers := s.producers.set i ProducerPc.loopHead }
  | producerDrop (i : Nat) (item : ProducedItem)
      (hpc : s.producers[i]? = some (ProducerPc.pushing item))
      (hrun : s.mIsRunning = false) :
      Step cfg s (Action.producer i) { s with producers := s.producers.set i ProducerPc.loopHead }
  | consumerEnter (hpc : s.consumer = ConsumerPc.loopHead) (hrun : s.mIsRunning = true) :
      Step cfg s Action.consumer { s with consumer := ConsumerPc.popping }
  | consumerStop (hpc : s.consumer = ConsumerPc.loopHead) (hrun : s.mIsRunning = false) :
      Step cfg s Action.consumer { s with consumer := ConsumerPc.exited }
  | consumerPop (hpc : s.consumer = ConsumerPc.popping) (hrun : s.mIsRunning = true)
      (hne : s.mRingBufferWriteIndex ≠ s.mRingBufferReadIndex) :
      Step cfg s Action.consumer
        { s with
          mRingBuffer :=
            s.mRingBuffer.set s.mRingBufferReadIndex
              { s.mRingBuffer.getD s.mRingBufferReadIndex default with CompressedData := [] }
          mRingBufferReadIndex := (s.mRingBufferReadIndex + 1) % cfg.RING_BUFFER_SIZE
          consumer := ConsumerPc.consuming (s.mRingBuffer.getD s.mRingBufferReadIndex default) }
  | consumerPopNothing (hpc : s.consumer = ConsumerPc.popping) (hrun : s.mIsRunning = false) :
      Step cfg s Action.consumer { s with consumer := ConsumerPc.consuming default }
  | consumerAcquire (item : ProducedItem) (hpc : s.consumer = ConsumerPc.consuming item)
      (hrun : s.mIsRunning = true)
      (hpermit : s.mConcurrentUploads < (cfg.NUM_UPLOADERS : Int)) :
      Step cfg s Action.consumer
        { s with
          mConcurrentUploads := s.mConcurrentUploads + 1
          consumer := ConsumerPc.dispatching item }
  | consumerUpload (item : ProducedItem) (hpc : s.consumer = ConsumerPc.dispatching item) :
      Step cfg s Action.consumer
        { s with
          inFlight := s.inFlight ++ [item]
          consumer := ConsumerPc.loopHead }
  | consumerDrop (item : ProducedItem) (hpc : s.consumer = ConsumerPc.consuming item)
      (hrun : s.mIsRunning = false) :
      Step cfg s Action.consumer { s with consumer := ConsumerPc.loopHead }
  | completeOk (k : Nat) (result : ResponseResult) (item : ProducedItem)
      (hk : s.inFlight[k]? = some item) (hcode : result.Code = ResponseResultCode.Success) :
      Step cfg s (Action.complete k result)
        { s with
          mProgressData :=
            { s.mProgressData with UploadedBlocks := s.mProgressData.UploadedBlocks + 1 }
          progressCalls :=
            s.progressCalls ++
              [⟨{ s.mProgressData with UploadedBlocks := s.mProgressData.UploadedBlocks + 1 },
                item.Task.Block, default⟩]
          inFlight := s.inFlight.eraseIdx k
          releasing := s.releasing + 1 }
  | completeFailed (k : Nat) (result : ResponseResult) (item : ProducedItem)
      (hk : s.inFlight[k]? = some item) (hcode : result.Code ≠ ResponseResultCode.Success) :
      Step cfg s (Action.complete k result)
        { s with
          mProgressData :=
            { s.mProgressData with
              FailedBlocks := s.mProgressData.FailedBlocks + 1
              UploadErrors := s.mProgressData.UploadErrors ++ [result] }
          progressCalls :=
            s.progressCalls ++
              [⟨{ s.mProgressData with
                  FailedBlocks := s.mProgressData.FailedBlocks + 1
                  UploadErrors := s.mProgressData.UploadErrors ++ [result] },
                item.Task.Block, result⟩]
          inFlight := s.inFlight.eraseIdx k
          releasing := s.releasing + 1 }
  | release (hpos : s.releasing ≠ 0) :
      Step cfg s Action.release
        { s with
          mConcurrentUploads := s.mConcurrentUploads - 1
          releasing := s.releasing - 1 }
  | construct (hcb : s.mProgressCallback = false) :
      Step cfg s Action.construct { s with mProgressCallback := true }

/-- Number of producers holding a produced item. -/
def pushingCount (s : State) : Nat := s.producers.countP ProducerPc.hasItem

/-- Whether the consumer holds a popped item it is still going to dispatch. -/
def holding (s : State) : Nat :=
  match s.consumer with
  | ConsumerPc.consuming _ => if s.mIsRunning then 1 else 0
  | ConsumerPc.dispatching _ => 1
  | _ => 0

/-- Whether the consumer has taken a permit for an upload it has not started. -/
def dispatching (s : State) : Nat :=
  match s.consumer with
  | ConsumerPc.dispatching _ => 1
  | _ => 0

/-- The claimed tasks that are accounted for: finished, in flight, held by the
consumer, in the ring buffer or held by a producer. -/
def accounted (cfg : Config) (s : State) : Nat :=
  s.mProgressData.UploadedBlocks + s.mProgressData.FailedBlocks + s.inFlight.length
    + holding s + occupancy cfg s + pushingCount s

/-- The permit count is the number of uploads in flight, of callbacks that have
not released their permit yet and of uploads about to be started, and is at most
`NUM_UPLOADERS`. -/
def PermitInv (cfg : Config) (s : State) : Prop :=
  s.mConcurrentUploads
      = (s.inFlight.length : Int) + (s.releasing : Int) + (dispatching s : Int) ∧
    s.mConcurrentUploads ≤ (cfg.NUM_UPLOADERS : Int)

/-- Accounting of the claimed tasks: none is counted twice, and while the pipeline
is running none is lost. -/
def CountInv (cfg : Config) (N : Nat) (s : State) : Prop :=
  s.mUploadTasks.length = N ∧ s.mProgressData.TotalBlocks = N ∧
  s.mRingBufferReadIndex < cfg.RING_BUFFER_SIZE ∧
  s.mRingBufferWriteIndex < cfg.RING_BUFFER_SIZE ∧
  accounted cfg s ≤ s.mFirstUnprocessedBlockIndex ∧
  (s.mIsRunning = true → accounted cfg s = s.mFirstUnprocessedBlockIndex) ∧
  s.mFirstUnprocessedBlockIndex ≤ N

/-- The indices are in range and the occupancy is the number of items admitted
and not yet taken out. -/
def RingInv (cfg : Config) (t : RingTrace) : Prop :=
  t.state.mRingBufferReadIndex < cfg.RING_BUFFER_SIZE ∧
    t.state.mRingBufferWriteIndex < cfg.RING_BUFFER_SIZE ∧
    occupancy cfg t.state + t.popped.length = t.pushed.length

/-! ### A concrete pipeline -/

/-- Ring of 4 slots, 3 uploaders, 2 producers; block `0` compresses to nothing. -/
def cfg0 : Config :=
  { RING_BUFFER_SIZE := 4
    NUM_UPLOADERS := 3
    NUM_PRODUCERS := 2
    CompressBlock := fun b => if b = 0 then [] else [b]
    progress := true }

/-- Three tasks; the second one is block `0`. -/
def tasks0 : List BlockUploadTask := [⟨1, 1⟩, ⟨0, 0⟩, ⟨2, 2⟩]

/-- The uploader is destroyed before any thread has run. -/
def destroyedAtOnceSchedule : List Action :=
  [Action.destroy, Action.producer 0, Action.producer 1, Action.consumer]

/-- The state the schedule `destroyedAtOnceSchedule` ends in. -/
def destroyedAtOnce : State :=
  { State.init cfg0 tasks0 with
    mIsRunning := false
    producers := [ProducerPc.exited, ProducerPc.exited]
    consumer := ConsumerPc.exited }

/-- The first block is produced, pushed, popped and handed to the uploader. -/
def oneInFlightSchedule : List Action :=
  [Action.producer 0, Action.producer 0, Action.producer 0,
    Action.consumer, Action.consumer, Action.consumer, Action.consumer]

/-- The state the schedule `oneInFlightSchedule` ends in. -/
def oneInFlight : State :=
  { State.init cfg0 tasks0 with
    mFirstUnprocessedBlockIndex := 1
    mRingBuffer := [⟨⟨1, 1⟩, []⟩, default, default, default]
    mRingBufferWriteIndex := 1
    mRingBufferReadIndex := 1
    mConcurrentUploads := 1
    inFlight := [⟨⟨1, 1⟩, [1]⟩] }

/-- Block `1` is uploaded, block `0` fails to compress, block `2` is claimed and
then the uploader is destroyed: `PushBlockToQueue` drops it. -/
def cancelledMidwaySchedule : List Action :=
  [Action.producer 0, Action.producer 0, Action.producer 0,
    Action.producer 1, Action.producer 1, Action.producer 1,
    Action.consumer, Action.consumer, Action.consumer, Action.consumer,
    Action.complete 0 default, Action.release,
    Action.producer 0, Action.producer 0,
    Action.destroy,
    Action.producer 0, Action.producer 0, Action.producer 1, Action.consumer]

/-- The state the schedule `cancelledMidwaySchedule` ends in. -/
def cancelledMidway : State :=
  { State.init cfg0 tasks0 with
    mIsRunning := false
    mFirstUnprocessedBlockIndex := 3
    mRingBuffer := [⟨⟨1, 1⟩, []⟩, default, default, default]
    mRingBufferWriteIndex := 1
    mRingBufferReadIndex := 1
    mProgressData := { TotalBlocks := 3, UploadedBlocks := 1, FailedBlocks := 1, UploadErrors := [] }
    progressCalls :=
      [⟨{ TotalBlocks := 3, UploadedBlocks := 0, FailedBlocks := 1, UploadErrors := [] }, 0,
          ⟨ResponseResultCode.InternalClientError, []⟩⟩,
        ⟨{ TotalBlocks := 3, UploadedBlocks := 1, FailedBlocks := 1, UploadErrors := [] }, 1,
          default⟩]
    producers := [ProducerPc.exited, ProducerPc.exited]
    consumer := ConsumerPc.exited }

/-- The concrete pipeline handed an empty progress callback. -/
def cfgNoCallback : Config := { cfg0 with progress := false }

/-- Two tasks; the first one is block `0`, which compresses to nothing. -/
def emptyFirst : List BlockUploadTask := [⟨0, 0⟩, ⟨1, 1⟩]

/-- Producer `0` has claimed block `0` and stands before the compression-failure
branch; the constructor has not replaced the empty callback yet. -/
def beforeAbort : State :=
  { State.init cfgNoCallback emptyFirst with
    mFirstUnprocessedBlockIndex := 1
    producers := [ProducerPc.reporting ⟨⟨0, 0⟩, []⟩, ProducerPc.loopHead] }

/-- Producer `0` has called the empty callback. -/
def afterAbort : State :=
  { beforeAbort with
    mProgressData := { TotalBlocks := 2, UploadedBlocks := 0, FailedBlocks := 1, UploadErrors := [] }
    producers := [ProducerPc.aborted, ProducerPc.loopHead]
    terminated := true }

/-- Two pushes and one pop. -/
def ringExampleOps : List RingOp :=
  [RingOp.push ⟨⟨1, 1⟩, [1]⟩, RingOp.push ⟨⟨2, 2⟩, [2]⟩, RingOp.pop]

/-- The trace `ringExampleOps` ends in. -/
def ringExampleTrace : RingTrace :=
  { state :=
      { State.init cfg0 tasks0 with
        mRingBuffer := [⟨⟨1, 1⟩, []⟩, ⟨⟨2, 2⟩, [2]⟩, default, default]
        mRingBufferWriteIndex := 2
        mRingBufferReadIndex := 1 }
    pushed := [⟨⟨1, 1⟩, [1]⟩, ⟨⟨2, 2⟩, [2]⟩]
    popped := [⟨⟨1, 1⟩, [1]⟩] }

/-- The index a step claims from `mFirstUnprocessedBlockIndex`, if it claims
one. -/
def claimedIndex (cfg : Config) (s : State) (a : Action) : Option Nat :=
  match step cfg s a with
  | none => none
  | some s1 =>
    if s1.mFirstUnprocessedBlockIndex = s.mFirstUnprocessedBlockIndex then none
    else some s.mFirstUnprocessedBlockIndex

/-- The indices claimed along a schedule, in the order they are claimed. -/
def claimLog (cfg : Config) (s : State) : List Action → List Nat
  | [] => []
  | a :: rest =>
    match step cfg s a with
    | none => []
    | some s1 => (claimedIndex cfg s a).toList ++ claimLog cfg s1 rest

/-- Whether the action is a producer running the compression-failure branch. -/
def isCompressionFailure (s : State) : Action → Bool
  | Action.producer i =>
    match s.producers[i]? with
    | some (ProducerPc.reporting _) => true
    | _ => false
  | _ => false

/-- Number of compression failures reported along a schedule. -/
def compressionFailures (cfg : Config) (s : State) : List Action → Nat
  | [] => 0
  | a :: rest =>
    match step cfg s a with
    | none => 0
    | some s1 => (if isCompressionFailure s a then 1 else 0) + compressionFailures cfg s1 rest

/-- The task list stays as submitted, no index beyond it is claimed, and while
the pipeline is running a producer has exited only if every index is claimed. -/
def ClaimInv (tasks : List BlockUploadTask) (s : State) : Prop :=
  s.mUploadTasks = tasks ∧ s.mFirstUnprocessedBlockIndex ≤ tasks.length ∧
    (s.mIsRunning = true → ∀ pc ∈ s.producers, pc = ProducerPc.exited →
      tasks.length ≤ s.mFirstUnprocessedBlockIndex)

/-- A stopped pipeline whose ring buffer is full by its indices and whose three
permits are all taken. -/
def stoppedFull : State :=
  { State.init cfg0 tasks0 with
    mIsRunning := false
    mRingBufferWriteIndex := 3
    mConcurrentUploads := 3 }

/-- Both producers have seen the counter at the end of the three tasks. -/
def allClaimedSchedule : List Action :=
  [Action.producer 0, Action.producer 0, Action.producer 0,
    Action.producer 1, Action.producer 1, Action.producer 1,
    Action.producer 0, Action.producer 0, Action.producer 0,
    Action.producer 1, Action.producer 1, Action.producer 0, Action.producer 0]

/-- The state the schedule `allClaimedSchedule` ends in. -/
def allClaimed : State :=
  { State.init cfg0 tasks0 with
    mFirstUnprocessedBlockIndex := 3
    mRingBuffer := [⟨⟨1, 1⟩, [1]⟩, ⟨⟨2, 2⟩, [2]⟩, default, default]
    mRingBufferWriteIndex := 2
    mProgressData := { TotalBlocks := 3, UploadedBlocks := 0, FailedBlocks := 1, UploadErrors := [] }
    progressCalls :=
      [⟨{ TotalBlocks := 3, UploadedBlocks := 0, FailedBlocks := 1, UploadErrors := [] }, 0,
        ⟨ResponseResultCode.InternalClientError, []⟩⟩]
    producers := [ProducerPc.exited, ProducerPc.exited] }

/-- The items in `count` consecutive slots of the ring buffer, from slot `start`
on, wrapping round at `RING_BUFFER_SIZE`. -/
def ringContents (cfg : Config) (buffer : List ProducedItem) : Nat → Nat → List ProducedItem
  | _, 0 => []
  | start, count + 1 =>
    buffer.getD start default ::
      ringContents cfg buffer ((start + 1) % cfg.RING_BUFFER_SIZE) count

/-- The items waiting in the ring buffer: the slots from the read index up to the
write index. -/
def queued (cfg : Config) (s : State) : List ProducedItem :=
  ringContents cfg s.mRingBuffer s.mRingBufferReadIndex (occupancy cfg s)

/-- The items admitted are the items taken out followed by the items waiting. -/
def FifoInv (cfg : Config) (t : RingTrace) : Prop :=
  RingInv cfg t ∧ t.state.mRingBuffer.length = cfg.RING_BUFFER_SIZE ∧
    t.pushed = t.popped ++ queued cfg t.state

/-- An action of a run without cancellation in which every upload succeeds. -/
def Action.succeeds : Action → Bool
  | Action.destroy => false
  | Action.complete _ result => decide (result.Code = ResponseResultCode.Success)
  | _ => true

/-- Every task has been produced, consumed and completed: all indices are
claimed, no producer holds an item, the ring buffer is empty, the consumer holds
no item and no upload is in flight. -/
def drained (s : State) : Prop :=
  s.mFirstUnprocessedBlockIndex = s.mUploadTasks.length ∧
    (∀ pc ∈ s.producers, pc.hasItem = false) ∧
    s.mRingBufferWriteIndex = s.mRingBufferReadIndex ∧
    (s.consumer = ConsumerPc.loopHead ∨ s.consumer = ConsumerPc.popping ∨
      s.consumer = ConsumerPc.exited) ∧
    s.inFlight = []

/-- Nothing has failed and the pipeline is running. -/
def SuccessInv (tasks : List BlockUploadTask) (s : State) : Prop :=
  s.mIsRunning = true ∧ s.mUploadTasks = tasks ∧ s.mProgressData.FailedBlocks = 0 ∧
    s.mProgressData.UploadErrors = [] ∧
    (∀ pc ∈ s.producers, ∀ item, pc ≠ ProducerPc.reporting item)

/-- The scenario of the specification: ring of 4 slots, 3 uploaders, 2 producers;
every block compresses to one byte. -/
def cfg10 : Config :=
  { RING_BUFFER_SIZE := 4
    NUM_UPLOADERS := 3
    NUM_PRODUCERS := 2
    CompressBlock := fun b => [b]
    progress := true }

/-- Ten tasks, blocks `0` to `9`. -/
def tasks10 : List BlockUploadTask := (List.range 10).map (fun i => ⟨i, i⟩)

/-- Producer `p` claims, compresses and pushes a block; the consumer pops it, takes
a permit and starts the upload; the upload succeeds and its callback runs. -/
def oneBlockSchedule (p : Nat) : List Action :=
  [Action.producer p, Action.producer p, Action.producer p,
    Action.consumer, Action.consumer, Action.consumer, Action.consumer,
    Action.complete 0 default, Action.release]

/-- The two producers take turns over the ten tasks. -/
def tenBlocksSchedule : List Action :=
  (List.range 10).flatMap (fun i => oneBlockSchedule (i % 2))

/-- The state `tenBlocksSchedule` ends in. -/
def tenBlocksDone : State :=
  (run cfg10 (State.init cfg10 tasks10) tenBlocksSchedule).getD (State.init cfg10 tasks10)

/-- The destructor stores the flag; the producers and the consumer see it at the
top of their loops and return. -/
def joinSchedule : List Action :=
  [Action.destroy, Action.producer 0, Action.producer 1, Action.consumer]

/-- The state of the ten-block pipeline destroyed after its last upload. -/
def tenBlocksDestroyed : State :=
  (run cfg10 (State.init cfg10 tasks10) (tenBlocksSchedule ++ joinSchedule)).getD
    (State.init cfg10 tasks10)

/-- How far the destructor has come. -/
inductive DestructorPc where
  | notCalled
  /-- After `mIsRunning.store(false)`. -/
  | stored
  /-- After `mRingBufferNotEmpty.notify_all()`. -/
  | notifiedNotEmpty
  /-- After `mRingBufferNotFull.notify_all()`. -/
  | notifiedNotFull
  /-- After `mUploadsNotFull.notify_all()`, inside the `join` calls. -/
  | joining
  /-- Every thread is joined; the destructor has returned. -/
  | returned
  deriving DecidableEq

/-- The pipeline with its condition variables spelt out: the state of the
pipeline, for each thread where it stands in its wait, and the destructor. -/
structure CvState where
  base : State
  producerWait : List WaitPhase
  consumerWait : WaitPhase
  destructor : DestructorPc
  deriving DecidableEq

/-- The pipeline right after construction. -/
def CvState.init (cfg : Config) (uploadTasks : List BlockUploadTask) : CvState :=
  { base := State.init cfg uploadTasks
    producerWait := List.replicate cfg.NUM_PRODUCERS WaitPhase.awake
    consumerWait := WaitPhase.awake
    destructor := DestructorPc.notCalled }

/-- What can happen next. -/
inductive CvAction where
  /-- The destructor runs its next statement. -/
  | destructor
  | producer (i : Nat)
  | consumer
  | complete (k : Nat) (result : ResponseResult)
  | release
  | construct
  deriving DecidableEq

/-- A notification of `mRingBufferNotEmpty`: only the consumer inside
`PopBlockFromQueue` waits on it. -/
def notifyNotEmpty (c : CvState) : CvState :=
  match c.base.consumer with
  | ConsumerPc.popping => { c with consumerWait := c.consumerWait.wake }
  | _ => c

/-- A notification of `mRingBufferNotFull`: only producers inside
`PushBlockToQueue` wait on it, and `mBlocksMutex` lets one producer at a time in. -/
def notifyNotFull (c : CvState) : CvState :=
  { c with producerWait := c.producerWait.map WaitPhase.wake }

/-- A notification of `mUploadsNotFull`: only the consumer inside `ConsumeBlock`
waits on it. -/
def notifyUploads (c : CvState) : CvState :=
  match c.base.consumer with
  | ConsumerPc.consuming _ => { c with consumerWait := c.consumerWait.wake }
  | _ => c

/-- The destructor `~MissingBlocksUploader`, one statement at a time. The store
and the notifications are made without taking any of the mutexes. -/
def destructorStep (cfg : Config) (c : CvState) : Option CvState :=
  match c.destructor with
  | DestructorPc.notCalled =>
    match step cfg c.base Action.destroy with
    | none => none
    | some s1 => some { c with base := s1, destructor := DestructorPc.stored }
  | DestructorPc.stored =>
    some { notifyNotEmpty c with destructor := DestructorPc.notifiedNotEmpty }
  | DestructorPc.notifiedNotEmpty =>
    some { notifyNotFull c with destructor := DestructorPc.notifiedNotFull }
  | DestructorPc.notifiedNotFull =>
    some { notifyUploads c with destructor := DestructorPc.joining }
  | DestructorPc.joining =>
    if c.base.producers.all (fun pc => decide (pc = ProducerPc.exited))
        ∧ c.base.consumer = ConsumerPc.exited then
      some { c with destructor := DestructorPc.returned }
    else none
  | DestructorPc.returned => none

/-- Whether the consumer holds `mRingBufferMutex`: it found the predicate of
`PopBlockFromQueue` false and has not yet called `wait`. -/
def consumerHoldsRingBufferMutex (c : CvState) : Bool :=
  decide (c.base.consumer = ConsumerPc.popping ∧ c.consumerWait = WaitPhase.predicateFalse)

/-- Whether the consumer holds `mUploadsMutex`: it found the predicate of
`ConsumeBlock` false and has not yet called `wait`. -/
def consumerHoldsUploadsMutex (c : CvState) : Bool :=
  match c.base.consumer with
  | ConsumerPc.consuming _ => decide (c.consumerWait = WaitPhase.predicateFalse)
  | _ => false

/-- Whether a producer holds `mRingBufferMutex`: it found the predicate of
`PushBlockToQueue` false and has not yet called `wait`. -/
def producerHoldsRingBufferMutex (c : CvState) : Bool :=
  c.producerWait.any (fun phase => decide (phase = WaitPhase.predicateFalse))

/-- One step of a producer. Inside `PushBlockToQueue` it needs
`mRingBufferMutex` and evaluates the predicate of the wait: when it holds the
function goes on, notifying `mRingBufferNotEmpty` after a push; when it does
not, the thread goes on to block. -/
def cvProducer (cfg : Config) (c : CvState) (i : Nat) : Option CvState :=
  match c.producerWait[i]? with
  | none => none
  | some WaitPhase.blocked => none
  | some WaitPhase.predicateFalse =>
    some { c with producerWait := c.producerWait.set i WaitPhase.blocked }
  | some WaitPhase.awake =>
    match c.base.producers[i]? with
    | some (ProducerPc.pushing _) =>
      if consumerHoldsRingBufferMutex c then none
      else
        match step cfg c.base (Action.producer i) with
        | some s1 =>
          if c.base.mIsRunning then some (notifyNotEmpty { c with base := s1 })
          else some { c with base := s1 }
        | none => some { c with producerWait := c.producerWait.set i WaitPhase.predicateFalse }
    | _ =>
      match step cfg c.base (Action.producer i) with
      | some s1 => some { c with base := s1 }
      | none => none

/-- One step of the consumer. Inside `PopBlockFromQueue` it needs
`mRingBufferMutex`, and there and in `ConsumeBlock` it evaluates the predicate
of the wait: when it holds the function goes on, notifying `mRingBufferNotFull`
after a pop; when it does not, the thread goes on to block. -/
def cvConsumer (cfg : Config) (c : CvState) : Option CvState :=
  match c.consumerWait with
  | WaitPhase.blocked => none
  | WaitPhase.predicateFalse => some { c with consumerWait := WaitPhase.blocked }
  | WaitPhase.awake =>
    match c.base.consumer with
    | ConsumerPc.popping =>
      if producerHoldsRingBufferMutex c then none
      else
        match step cfg c.base Action.consumer with
        | some s1 =>
          if c.base.mIsRunning then some (notifyNotFull { c with base := s1 })
          else some { c with base := s1 }
        | none => some { c with consumerWait := WaitPhase.predicateFalse }
    | ConsumerPc.consuming _ =>
      match step cfg c.base Action.consumer with
      | some s1 => some { c with base := s1 }
      | none => some { c with consumerWait := WaitPhase.predicateFalse }
    | _ =>
      match step cfg c.base Action.consumer with
      | some s1 => some { c with base := s1 }
      | none => none

/-- The step function of the pipeline with its condition variables, while the
process is alive. A completion callback takes `mUploadsMutex` to give its permit
back and then notifies `mUploadsNotFull`. -/
def cvStepAlive (cfg : Config) (c : CvState) : CvAction → Option CvState
  | CvAction.destructor => destructorStep cfg c
  | CvAction.producer i => cvProducer cfg c i
  | CvAction.consumer => cvConsumer cfg c
  | CvAction.complete k result =>
    match step cfg c.base (Action.complete k result) with
    | none => none
    | some s1 => some { c with base := s1 }
  | CvAction.release =>
    if consumerHoldsUploadsMutex c then none
    else
      match step cfg c.base Action.release with
      | none => none
      | some s1 => some (notifyUploads { c with base := s1 })
  | CvAction.construct =>
    match step cfg c.base Action.construct with
    | none => none
    | some s1 => some { c with base := s1 }

/-- The step function of the pipeline with its condition variables; nothing
happens any more once `std::terminate` was called. -/
def cvStep (cfg : Config) (c : CvState) (a : CvAction) : Option CvState :=
  if c.base.terminated then none else cvStepAlive cfg c a

/-- Runs a schedule. -/
def cvRun (cfg : Config) (c : CvState) : List CvAction → Option CvState
  | [] => some c
  | a :: rest =>
    match cvStep cfg c a with
    | none => none
    | some c1 => cvRun cfg c1 rest

/-- The consumer finds the ring buffer empty; the destructor stores the flag and
notifies the three condition variables; then the consumer calls `wait`. -/
def lostWakeupSchedule : List CvAction :=
  [CvAction.consumer, CvAction.consumer,
    CvAction.destructor, CvAction.destructor, CvAction.destructor, CvAction.destructor,
    CvAction.consumer]

/-- The destructor is inside its `join` calls and the consumer sleeps on
`mRingBufferNotEmpty` in a stopped pipeline. -/
def Hung (c : CvState) : Prop :=
  c.base.mIsRunning = false ∧ c.base.consumer = ConsumerPc.popping ∧
    c.consumerWait = WaitPhase.blocked ∧ c.destructor = DestructorPc.joining

/-- The state the schedule `lostWakeupSchedule`, followed by a step of each
producer, ends in for the concrete pipeline. -/
def hungExample : CvState :=
  { base :=
      { State.init cfg0 tasks0 with
        mIsRunning := false
        producers := [ProducerPc.exited, ProducerPc.exited]
        consumer := ConsumerPc.popping }
    producerWait := [WaitPhase.awake, WaitPhase.awake]
    consumerWait := WaitPhase.blocked
    destructor := DestructorPc.joining }

/-- Producer `0` claims, compresses and pushes a block. -/
def pushOneBlock : List CvAction :=
  [CvAction.producer 0, CvAction.producer 0, CvAction.producer 0]

/-- Producer `0` fills the ring buffer with three blocks, claims a fourth one and
finds no room for it in `PushBlockToQueue`; the destructor stores the flag and
notifies the three condition variables; then the producer calls `wait`. -/
def fullRingLostWakeup : List CvAction :=
  pushOneBlock ++ pushOneBlock ++ pushOneBlock ++
    [CvAction.producer 0, CvAction.producer 0, CvAction.producer 0,
      CvAction.destructor, CvAction.destructor, CvAction.destructor, CvAction.destructor,
      CvAction.producer 0]

/-- Producer `i` sleeps on `mRingBufferNotFull` inside `PushBlockToQueue(item)`
in a stopped pipeline whose destructor has made its notifications. -/
def ProducerHung (i : Nat) (item : ProducedItem) (c : CvState) : Prop :=
  c.base.mIsRunning = false ∧ c.base.producers[i]? = some (ProducerPc.pushing item) ∧
    c.producerWait[i]? = some WaitPhase.blocked ∧ c.destructor = DestructorPc.joining

/-- The state the schedule `fullRingLostWakeup` ends in for the ten-block
pipeline. -/
def pushHung : CvState :=
  { base :=
      { State.init cfg10 tasks10 with
        mIsRunning := false
        mFirstUnprocessedBlockIndex := 4
        mRingBuffer := [⟨⟨0, 0⟩, [0]⟩, ⟨⟨1, 1⟩, [1]⟩, ⟨⟨2, 2⟩, [2]⟩, default]
        mRingBufferWriteIndex := 3
        producers := [ProducerPc.pushing ⟨⟨3, 3⟩, [3]⟩, ProducerPc.loopHead] }
    producerWait := [WaitPhase.blocked, WaitPhase.awake]
    consumerWait := WaitPhase.awake
    destructor := DestructorPc.joining }

end MissingBlocksUploader

/-! ## The mixdown uploader: data model and operations -/

/-- The enum `MixdownState`. -/
inductive MixdownState where
  | Exporting
  | WaitingForUrls
  | Uploading
  | Succeeded
  | Failed
  | Cancelled
  deriving DecidableEq

/-- The struct `MixdownResult`. -/
structure MixdownResult where
  State : MixdownState
  UploadResult : ResponseResult
  deriving DecidableEq

/-- The enum `ExportResult` of the export library. -/
inductive ExportResult where
  | Success
  | Error
  | Cancelled
  | Stopped
  deriving DecidableEq

namespace MixdownUploader

/-- A progress value (a `double` in the source, which only stores and forwards
it), in thousandths: `0.0` is `0` and `1.0` is `1000`. -/
abbrev Fraction := Nat

/-- How the call `mTask(*this); future.get()` on the export thread ends: with a
result, or with one of the exceptions `ExportTread` catches. -/
inductive ExportOutcome where
  | returned (result : ExportResult)
  | diskFullError (fileName : Nat)
  | errorException (message : Nat) (helpPage : Nat)
  | exportException (message : Nat)
  | unknownException
  deriving DecidableEq

/-- The closures the source hands to `BasicUI::CallAfter`. -/
inductive UiClosure where
  /-- Posted by `ExportTread`: runs `OnComplete(result)`. -/
  | onComplete (result : ExportResult)
  /-- Posted by `HandleExportDiskFullError`. -/
  | diskFullError (fileName : Nat)
  /-- Posted by `HandleExportError`. -/
  | errorException (message : Nat) (helpPage : Nat)
  /-- Posted by `HandleExportException`. -/
  | exportException (message : Nat)
  /-- Posted by `HandleUnkonwnException`. -/
  | unknownException
  /-- Posted by `ReportProgress` when called off the UI thread; `weakThis` tells
  whether the captured `weak_from_this()` is non-empty. -/
  | progressUpdate (weakThis : Bool)
  deriving DecidableEq

/-- What the user is shown. -/
inductive Dialog where
  | diskFull (fileName : Nat)
  | exportError (message : Nat)
  | messageBox
  deriving DecidableEq

/-- One entry of `ExportPluginRegistry`: a plugin and one of its formats. -/
structure RegistryEntry where
  plugin : Nat
  formatIndex : Nat
  mimeTypes : List Nat
  extension : Nat
  deriving DecidableEq

/-- What `ExportTaskBuilder` is given in `ExportProject`. -/
structure ExportTask where
  parameters : List Nat
  numChannels : Nat
  sampleRate : Nat
  plugin : Nat
  fileName : List Nat
  deriving DecidableEq

/-- The members of `MixdownUploader::DataExporter`. -/
structure DataExporter where
  mTask : ExportTask
  mCancelled : Bool
  mResult : ExportResult
  deriving DecidableEq

/-- The collaborators of a `MixdownUploader`: service configuration, plugin
registry, project, file system and the user's progress callback. -/
structure Env where
  /-- The list `GetPreferredAudioFormats(false)`. -/
  preferredAudioFormats : List Nat
  /-- The function `GetExportConfig(mimeType)`. -/
  GetExportConfig : Nat → Nat
  /-- The registry, in iteration order. -/
  registry : List RegistryEntry
  /-- The call `plugin->ParseConfig(formatIndex, config, parameters)`: `none` for
  `false`, the parameters written for `true`. -/
  ParseConfig : RegistryEntry → Nat → Option (List Nat)
  /-- The function `GenerateTempPath(extension)`; the empty path is its failure. -/
  GenerateTempPath : Nat → List Nat
  /-- The value `CalculateChannels(tracks)`. -/
  nChannels : Nat
  /-- The value `ProjectRate::Get(mProject).GetRate()`. -/
  rate : Nat
  /-- The answer of `mProgressCallback` at its `n`-th call, for a progress value. -/
  progressCallback : Nat → Fraction → Bool

/-- The members of `MixdownUploader`, the state of the threads that run its code
and the part of the environment it writes to. -/
structure State where
  mExportedFilePath : List Nat
  mDataExporter : Option DataExporter
  mUploadUrls : Option Nat
  mUploadCancelled : Bool
  mProgress : Fraction
  mProgressUpdateQueued : Bool
  mFinished : Bool
  /-- Every `mPromise.set_value` call, oldest first. -/
  promiseValues : List MixdownResult
  /-- Every call of `mProgressCallback`, oldest first. -/
  progressDelivered : List Fraction
  /-- The closures posted with `BasicUI::CallAfter` and not run yet, oldest first. -/
  uiQueue : List UiClosure
  /-- Dialogs shown. -/
  dialogs : List Dialog
  /-- How the export thread ended; `none` while it has not. -/
  exportOutcome : Option ExportOutcome
  /-- The UI thread is inside the wait of `UploadMixdown`. -/
  waitingForUrls : Bool
  /-- Every call of `DataUploader::Upload`: urls and file path. -/
  uploads : List (Nat × List Nat)
  /-- An upload was started and its completion callback has not been invoked. -/
  uploadPending : Bool
  /-- A `shared_ptr` owns the uploader: `std::make_shared` in `Upload` has
  returned, so that `weak_from_this()` is no longer empty. The constructor, and
  with it `ExportProject` and the start of the export thread, runs before. -/
  owned : Bool
  deriving DecidableEq

/-- The search `std::find_if(registry.begin(), registry.end(), ...)` of
`ExportProject` for one preferred mime type. -/
def findPlugin (env : Env) (preferredMimeType : Nat) :
    List RegistryEntry → Option (RegistryEntry × List Nat)
  | [] => none
  | t :: rest =>
    if t.mimeTypes.contains preferredMimeType then
      match env.ParseConfig t (env.GetExportConfig preferredMimeType) with
      | some parameters => some (t, parameters)
      | none => findPlugin env preferredMimeType rest
    else
      findPlugin env preferredMimeType rest

/-- The loop of `ExportProject` over the preferred mime types: the path and the
exporter it creates, if any. -/
def selectExport (env : Env) : List Nat → Option (List Nat × DataExporter)
  | [] => none
  | preferredMimeType :: rest =>
    match findPlugin env preferredMimeType env.registry with
    | none => selectExport env rest
    | some (t, parameters) =>
      let path := env.GenerateTempPath t.extension
      if path.isEmpty then selectExport env rest
      else
        some (path,
          { mTask :=
              { parameters := parameters, numChannels := env.nChannels,
                sampleRate := env.rate, plugin := t.plugin, fileName := path }
            mCancelled := false
            mResult := ExportResult.Stopped })

/-- The member initialisers of `MixdownUploader`, before `ExportProject` runs. -/
def State.blank : State :=
  { mExportedFilePath := []
    mDataExporter := none
    mUploadUrls := none
    mUploadCancelled := false
    mProgress := 0
    mProgressUpdateQueued := false
    mFinished := false
    promiseValues := []
    progressDelivered := []
    uiQueue := []
    dialogs := []
    exportOutcome := none
    waitingForUrls := false
    uploads := []
    uploadPending := false
    owned := false }

/-- The function `ExportProject`. -/
def ExportProject (env : Env) (m : State) : State :=
  match selectExport env env.preferredAudioFormats with
  | some (path, exporter) =>
    { m with mExportedFilePath := path, mDataExporter := some exporter }
  | none =>
    { m with
      mFinished := true
      promiseValues := m.promiseValues ++ [⟨MixdownState.Failed, default⟩] }

/-- The constructor of `MixdownUploader`, called by `std::make_shared` in
`Upload`; the action `Action.created` is the return of `std::make_shared`. -/
def State.init (env : Env) : State := ExportProject env State.blank

/-- The function `Cancel`. -/
def Cancel (m : State) : State :=
  match m.mDataExporter with
  | none => m
  | some exporter =>
    { m with
      mDataExporter := some { exporter with mCancelled := true }
      mUploadCancelled := true }

/-- The function `SetUrls`; `none` is the failed `assert(!mUploadUrls)`. -/
def SetUrls (m : State) (urls : Nat) : Option State :=
  match m.mUploadUrls with
  | some _ => none
  | none => some { m with mUploadUrls := some urls }

/-- The test `state == Succeeded || state == Failed || state == Cancelled`. -/
def isTerminal : MixdownState → Bool
  | MixdownState.Succeeded => true
  | MixdownState.Failed => true
  | MixdownState.Cancelled => true
  | _ => false

/-- One call `mProgressCallback(progress)` followed by `Cancel()` when it
answers `false`. -/
def deliverProgress (env : Env) (m : State) (progress : Fraction) : State :=
  let answer := env.progressCallback m.progressDelivered.length progress
  let m1 := { m with progressDelivered := m.progressDelivered ++ [progress] }
  if answer then m1 else Cancel m1

/-- The function `ReportProgress`; `isUiThread` is what `BasicUI::IsUiThread()`
returns for the calling thread. -/
def ReportProgress (env : Env) (m : State) (state : MixdownState) (progress : Fraction)
    (uploadResult : ResponseResult) (isUiThread : Bool) : State :=
  let m1 := { m with mProgress := progress }
  let m2 :=
    if isUiThread then
      deliverProgress env { m1 with mProgressUpdateQueued := false } progress
    else if m1.mProgressUpdateQueued = false then
      { m1 with
        mProgressUpdateQueued := true
        uiQueue := m1.uiQueue ++ [UiClosure.progressUpdate m1.owned] }
    else m1
  if isTerminal state then
    { m2 with
      mFinished := true
      promiseValues := m2.promiseValues ++ [⟨state, uploadResult⟩] }
  else m2

/-- The closure `ReportProgress` posts to the UI thread, run while the uploader
is alive: `weakThis.lock()` fails exactly when the captured `weakThis` is empty,
and the closure then returns at once. -/
def runProgressUpdate (env : Env) (m : State) (weakThis : Bool) : State :=
  if weakThis = false then m
  else if m.mFinished then m
  else
    { deliverProgress env m m.mProgress with mProgressUpdateQueued := false }

/-- The function `UploadMixdown` up to its wait on `mUploadUrlsSet`. -/
def UploadMixdown_begin (env : Env) (m : State) : State :=
  { ReportProgress env m MixdownState.WaitingForUrls 0 default true with
    waitingForUrls := true }

/-- The function `UploadMixdown` from its wait on; `none` while the wait
predicate `mUploadCancelled || mUploadUrls` is false. The lambdas handed to
`DataUploader::Upload` capture `shared_from_this()`: urls are set through the
pointer `Upload` returned, so the uploader has its owner by then. -/
def UploadMixdown_resume (env : Env) (m : State) : Option State :=
  if m.mUploadCancelled then
    some { ReportProgress env m MixdownState.Cancelled 0 default true with
           waitingForUrls := false }
  else
    match m.mUploadUrls with
    | none => none
    | some urls =>
      let m1 := ReportProgress env m MixdownState.Uploading 0 default true
      some { m1 with
        waitingForUrls := false
        uploads := m1.uploads ++ [(urls, m1.mExportedFilePath)]
        uploadPending := true }

/-- The function `DataExporter::OnComplete`. -/
def OnComplete (env : Env) (m : State) (result : ExportResult) : State :=
  let m1 :=
    { m with mDataExporter := m.mDataExporter.map (fun e => { e with mResult := result }) }
  if result = ExportResult.Success then
    UploadMixdown_begin env m1
  else
    ReportProgress env m1
      (if result = ExportResult.Error then MixdownState.Failed else MixdownState.Cancelled)
      1000 default true

/-- The closure posted to the UI thread for each way the export task can end:
by `ExportTread` itself for a result, by `HandleExportDiskFullError`,
`HandleExportError`, `HandleExportException` and `HandleUnkonwnException` for
the exceptions. -/
def handlerClosure : ExportOutcome → UiClosure
  | ExportOutcome.returned result => UiClosure.onComplete result
  | ExportOutcome.diskFullError fileName => UiClosure.diskFullError fileName
  | ExportOutcome.errorException message helpPage => UiClosure.errorException message helpPage
  | ExportOutcome.exportException message => UiClosure.exportException message
  | ExportOutcome.unknownException => UiClosure.unknownException

/-- The function `DataExporter::ExportTread` once the task has ended. -/
def ExportTread (m : State) (outcome : ExportOutcome) : State :=
  { m with uiQueue := m.uiQueue ++ [handlerClosure outcome], exportOutcome := some outcome }

/-- Runs one closure on the UI thread. -/
def runClosure (env : Env) (m : State) : UiClosure → State
  | UiClosure.onComplete result => OnComplete env m result
  | UiClosure.diskFullError fileName =>
    ReportProgress env { m with dialogs := m.dialogs ++ [Dialog.diskFull fileName] }
      MixdownState.Failed 1000 default true
  | UiClosure.errorException message _ =>
    ReportProgress env { m with dialogs := m.dialogs ++ [Dialog.exportError message] }
      MixdownState.Failed 1000 default true
  | UiClosure.exportException message =>
    ReportProgress env { m with dialogs := m.dialogs ++ [Dialog.exportError message] }
      MixdownState.Failed 1000 default true
  | UiClosure.unknownException =>
    { m with dialogs := m.dialogs ++ [Dialog.messageBox] }
  | UiClosure.progressUpdate weakThis => runProgressUpdate env m weakThis

/-- The completion lambda passed to `DataUploader::Upload` in `UploadMixdown`. -/
def uploadCompleted (env : Env) (m : State) (result : ResponseResult)
    (isUiThread : Bool) : State :=
  let state :=
    if result.Code = ResponseResultCode.Success then MixdownState.Succeeded
    else if result.Code = ResponseResultCode.Cancelled then MixdownState.Cancelled
    else MixdownState.Failed
  ReportProgress env m state 1000 result isUiThread

/-- What can happen next to a mixdown uploader. -/
inductive Action where
  /-- The call `std::make_shared` in `Upload` returns: the uploader has an
  owner. -/
  | created
  /-- Some thread calls `Cancel()` through the pointer `Upload` returned. -/
  | cancel
  /-- Some thread calls `SetUrls(urls)` through the pointer `Upload` returned. -/
  | setUrls (urls : Nat)
  /-- The export task calls `OnProgress(value)` on the export thread. -/
  | exportProgress (value : Fraction)
  /-- The export task ends on the export thread. -/
  | exportFinished (outcome : ExportOutcome)
  /-- The UI thread runs the oldest posted closure. -/
  | uiRun
  /-- The wait of `UploadMixdown` is over. -/
  | urlsWaitOver
  /-- The uploader calls the progress lambda of the upload. -/
  | uploadProgress (value : Fraction) (isUiThread : Bool)
  /-- The uploader calls the completion lambda of the upload. -/
  | uploadCompleted (result : ResponseResult) (isUiThread : Bool)
  deriving DecidableEq

/-- The step function of the mixdown uploader; `none` when the action is not
enabled. -/
def step (env : Env) (m : State) : Action → Option State
  | Action.created => if m.owned then none else some { m with owned := true }
  | Action.cancel => if m.owned then some (Cancel m) else none
  | Action.setUrls urls => if m.owned then SetUrls m urls else none
  | Action.exportProgress value =>
    if m.mDataExporter.isSome ∧ m.exportOutcome = none then
      some (ReportProgress env m MixdownState.Exporting value default false)
    else none
  | Action.exportFinished outcome =>
    if m.mDataExporter.isSome ∧ m.exportOutcome = none then
      some (ExportTread m outcome)
    else none
  | Action.uiRun =>
    if m.waitingForUrls then none
    else
      match m.uiQueue with
      | [] => none
      | closure :: rest => some (runClosure env { m with uiQueue := rest } closure)
  | Action.urlsWaitOver =>
    if m.waitingForUrls then UploadMixdown_resume env m else none
  | Action.uploadProgress value isUiThread =>
    if m.uploadPending then
      some (ReportProgress env m MixdownState.Uploading value default isUiThread)
    else none
  | Action.uploadCompleted result isUiThread =>
    if m.uploadPending then
      some (uploadCompleted env { m with uploadPending := false } result isUiThread)
    else none

/-- Runs a schedule from a state; `none` when some action was not enabled. -/
def run (env : Env) (m : State) : List Action → Option State
  | [] => some m
  | a :: rest =>
    match step env m a with
    | none => none
    | some m1 => run env m1 rest

/-- A call of `ReportProgress`, the UI thread running the oldest posted
progress closure, or the return of `std::make_shared` in `Upload`. -/
inductive ProgressOp where
  | report (state : MixdownState) (progress : Fraction) (uploadResult : ResponseResult)
      (isUiThread : Bool)
  | deliver
  | created
  deriving DecidableEq

/-- Whether the closure is one posted by `ReportProgress`. -/
def UiClosure.isProgressUpdate : UiClosure → Bool
  | UiClosure.progressUpdate _ => true
  | _ => false

/-- Number of progress closures posted to the UI thread and not run yet. -/
def pendingDeliveries (m : State) : Nat :=
  m.uiQueue.countP UiClosure.isProgressUpdate

/-- One progress operation; `deliver` needs a progress closure at the head of
the queue. -/
def progressStep (env : Env) (m : State) : ProgressOp → Option State
  | ProgressOp.report state progress uploadResult isUiThread =>
    some (ReportProgress env m state progress uploadResult isUiThread)
  | ProgressOp.deliver =>
    match m.uiQueue with
    | UiClosure.progressUpdate weakThis :: rest =>
      some (runProgressUpdate env { m with uiQueue := rest } weakThis)
    | _ => none
  | ProgressOp.created => if m.owned then none else some { m with owned := true }

/-- Runs a sequence of progress operations. -/
def progressRun (env : Env) (m : State) : List ProgressOp → Option State
  | [] => some m
  | op :: rest =>
    match progressStep env m op with
    | none => none
    | some m1 => progressRun env m1 rest

/-- Every UI-thread call of `ReportProgress` in the sequence is made while no
progress closure is pending. -/
def uiReportsWhenIdle (env : Env) (m : State) : List ProgressOp → Bool
  | [] => true
  | op :: rest =>
    (match op with
      | ProgressOp.report _ _ _ true => decide (pendingDeliveries m = 0)
      | _ => true) &&
    (match progressStep env m op with
      | none => true
      | some m1 => uiReportsWhenIdle env m1 rest)

/-- The progress value of the last `ReportProgress` call of a sequence. -/
def lastReported : List ProgressOp → Option Fraction
  | [] => none
  | op :: rest =>
    match lastReported rest with
    | some p => some p
    | none =>
      match op with
      | ProgressOp.report _ progress _ _ => some progress
      | _ => none

/-- A closure that goes on to resolve the promise (or to the upload). -/
def UiClosure.resolves : UiClosure → Bool
  | UiClosure.unknownException => false
  | UiClosure.progressUpdate _ => false
  | _ => true

/-- The posted closures that go on to resolve the promise. -/
def resolvers (m : State) : List UiClosure :=
  m.uiQueue.filter UiClosure.resolves

/-- Number of places from which the promise is still going to be resolved: the
running export thread, a posted closure, the urls wait, the upload. -/
def pendingResolutions (m : State) : Nat :=
  (if m.mDataExporter.isSome ∧ m.exportOutcome = none then 1 else 0)
    + (resolvers m).length + (if m.waitingForUrls then 1 else 0)
    + (if m.uploadPending then 1 else 0)

/-- The states a mixdown uploader can be in. -/
def Reachable (env : Env) (m : State) : Prop :=
  ∃ schedule, run env (State.init env) schedule = some m

/-- The terminal state the source maps an export outcome to when the upload is
cancelled before it starts; `none` for the unknown exception. -/
def stateAfterCancel : ExportOutcome → Option MixdownState
  | ExportOutcome.returned ExportResult.Error => some MixdownState.Failed
  | ExportOutcome.returned _ => some MixdownState.Cancelled
  | ExportOutcome.unknownException => none
  | _ => some MixdownState.Failed

/-! ### The step function as a relation, and the invariants -/

/-- The step function read as a relation: the state after each action, written
with `ReportProgress`, `Cancel` and `runProgressUpdate`. -/
inductive Step (env : Env) (m : State) : Action → State → Prop where
  | created (hown : m.owned = false) : Step env m Action.created { m with owned := true }
  | cancel (hown : m.owned = true) : Step env m Action.cancel (Cancel m)
  | setUrls (urls : Nat) (hown : m.owned = true) (hnone : m.mUploadUrls = none) :
      Step env m (Action.setUrls urls) { m with mUploadUrls := some urls }
  | exportProgress (value : Fraction) (hexp : m.mDataExporter.isSome = true)
      (hout : m.exportOutcome = none) :
      Step env m (Action.exportProgress value)
        (ReportProgress env m MixdownState.Exporting value default false)
  | exportFinished (outcome : ExportOutcome) (hexp : m.mDataExporter.isSome = true)
      (hout : m.exportOutcome = none) :
      Step env m (Action.exportFinished outcome)
        { m with
          uiQueue := m.uiQueue ++ [handlerClosure outcome]
          exportOutcome := some outcome }
  | completeSuccess (rest : List UiClosure) (hw : m.waitingForUrls = false)
      (hq : m.uiQueue = UiClosure.onComplete ExportResult.Success :: rest) :
      Step env m Action.uiRun
        { ReportProgress env
            { m with
              uiQueue := rest
              mDataExporter :=
                m.mDataExporter.map (fun e => { e with mResult := ExportResult.Success }) }
            MixdownState.WaitingForUrls 0 default true with
          waitingForUrls := true }
  | completeOther (result : ExportResult) (rest : List UiClosure)
      (hw : m.waitingForUrls = false) (hq : m.uiQueue = UiClosure.onComplete result :: rest)
      (hres : result ≠ ExportResult.Success) :
      Step env m Action.uiRun
        (ReportProgress env
          { m with
            uiQueue := rest
            mDataExporter := m.mDataExporter.map (fun e => { e with mResult := result }) }
          (if result = ExportResult.Error then MixdownState.Failed else MixdownState.Cancelled)
          1000 default true)
  | reportFailure (c : UiClosure) (d : Dialog) (rest : List UiClosure)
      (hw : m.waitingForUrls = false) (hq : m.uiQueue = c :: rest)
      (hc : (∃ f, c = UiClosure.diskFullError f) ∨ (∃ msg hp, c = UiClosure.errorException msg hp)
        ∨ (∃ msg, c = UiClosure.exportException msg)) :
      Step env m Action.uiRun
        (ReportProgress env { m with uiQueue := rest, dialogs := m.dialogs ++ [d] }
          MixdownState.Failed 1000 default true)
  | messageBox (rest : List UiClosure) (hw : m.waitingForUrls = false)
      (hq : m.uiQueue = UiClosure.unknownException :: rest) :
      Step env m Action.uiRun
        { m with uiQueue := rest, dialogs := m.dialogs ++ [Dialog.messageBox] }
  | progressUpdate (weakThis : Bool) (rest : List UiClosure) (hw : m.waitingForUrls = false)
      (hq : m.uiQueue = UiClosure.progressUpdate weakThis :: rest) :
      Step env m Action.uiRun (runProgressUpdate env { m with uiQueue := rest } weakThis)
  | waitCancelled (hw : m.waitingForUrls = true) (hc : m.mUploadCancelled = true) :
      Step env m Action.urlsWaitOver
        { ReportProgress env m MixdownState.Cancelled 0 default true with
          waitingForUrls := false }
  | startUpload (urls : Nat) (hw : m.waitingForUrls = true) (hc : m.mUploadCancelled = false)
      (hu : m.mUploadUrls = some urls) :
      Step env m Action.urlsWaitOver
        { ReportProgress env m MixdownState.Uploading 0 default true with
          waitingForUrls := false
          uploads :=
            (ReportProgress env m MixdownState.Uploading 0 default true).uploads ++
              [(urls, (ReportProgress env m MixdownState.Uploading 0 default true).mExportedFilePath)]
          uploadPending := true }
  | uploadProgress (value : Fraction) (ui : Bool) (hp : m.uploadPending = true) :
      Step env m (Action.uploadProgress value ui)
        (ReportProgress env m MixdownState.Uploading value default ui)
  | uploadCompleted (result : ResponseResult) (ui : Bool) (state : MixdownState)
      (hp : m.uploadPending = true) (hterm : isTerminal state = true) :
      Step env m (Action.uploadCompleted result ui)
        (ReportProgress env { m with uploadPending := false } state 1000 result ui)

/-- Exactly one place is still going to resolve the promise, or it is resolved;
after the unknown exception neither. -/
def TokenInv (m : State) : Prop :=
  pendingResolutions m + m.promiseValues.length
    + (if m.exportOutcome = some ExportOutcome.unknownException then 1 else 0) = 1

/-- Posted closures, the urls wait and the upload agree with the way the export
ended, and so does every value the promise was given. -/
def ValueInv (m : State) : Prop :=
  (∀ c ∈ m.uiQueue, c.resolves = true →
      ∃ o, m.exportOutcome = some o ∧ c = handlerClosure o) ∧
  (m.waitingForUrls = true → m.exportOutcome = some (ExportOutcome.returned ExportResult.Success)) ∧
  (m.uploadPending = true →
      m.exportOutcome = some (ExportOutcome.returned ExportResult.Success) ∧ m.uploads ≠ []) ∧
  (m.mDataExporter.isSome = true → ∀ v ∈ m.promiseValues, ∃ o, m.exportOutcome = some o ∧
      ((stateAfterCancel o = some v.State ∧ v.UploadResult = default) ∨
        (o = ExportOutcome.returned ExportResult.Success ∧ m.uploads ≠ [])))

/-- No urls yet, no upload yet. -/
def NoUrlsInv (m : State) : Prop :=
  m.mUploadUrls = none ∧ m.uploads = [] ∧ m.uploadPending = false

/-- Cancelled, no upload yet. -/
def CancelledInv (m : State) : Prop :=
  m.mUploadCancelled = true ∧ m.uploads = [] ∧ m.uploadPending = false

/-- At most one progress closure is posted, the flag is set while it is, and
nothing else is in the queue. -/
def CoalesceInv (m : State) : Prop :=
  pendingDeliveries m ≤ 1 ∧
    (pendingDeliveries m = 1 → m.mProgressUpdateQueued = true) ∧
    (∀ c ∈ m.uiQueue, c.isProgressUpdate = true)

/-- The uploader has an owner and every posted closure captured a non-empty
`weakThis`. -/
def LiveInv (m : State) : Prop :=
  m.owned = true ∧ ∀ c ∈ m.uiQueue, c = UiClosure.progressUpdate true

/-! ### A concrete mixdown -/

/-- Two preferred formats; only plugin `2` parses a configuration, so the first
format `7` is exported by the second registry entry. The user never cancels. -/
def env0 : Env :=
  { preferredAudioFormats := [7, 8]
    GetExportConfig := fun mimeType => mimeType
    registry := [⟨1, 0, [8], 3⟩, ⟨2, 1, [7, 8], 4⟩]
    ParseConfig := fun t config => if t.plugin = 2 then some [config] else none
    GenerateTempPath := fun extension => [extension]
    nChannels := 2
    rate := 44100
    progressCallback := fun _ _ => true }

/-- The export task throws an exception that is not an export exception; the UI
thread then runs the closure posted for it. -/
def unknownExceptionSchedule : List Action :=
  [Action.exportFinished ExportOutcome.unknownException, Action.uiRun]

/-- The state the schedule `unknownExceptionSchedule` ends in. -/
def afterUnknownException : State :=
  { State.init env0 with
    dialogs := [Dialog.messageBox]
    exportOutcome := some ExportOutcome.unknownException }

/-- `Cancel()`, then `SetUrls(3)`, then the export task returns `Error`. -/
def cancelThenErrorSchedule : List Action :=
  [Action.created, Action.cancel, Action.setUrls 3,
    Action.exportFinished (ExportOutcome.returned ExportResult.Error), Action.uiRun]

/-- A report off the UI thread, a report on the UI thread, a report off the UI
thread. -/
def uiReportBetween : List ProgressOp :=
  [ProgressOp.created, ProgressOp.report MixdownState.Exporting 300 default false,
    ProgressOp.report MixdownState.WaitingForUrls 0 default true,
    ProgressOp.report MixdownState.Uploading 600 default false]

/-- A report off the UI thread, a terminal report off the UI thread, then the
posted closure runs. -/
def deliverAfterTerminal : List ProgressOp :=
  [ProgressOp.created, ProgressOp.report MixdownState.Exporting 300 default false,
    ProgressOp.report MixdownState.Failed 1000 default false,
    ProgressOp.deliver]

/-- The uploader of `env0` once `Upload` has returned it. -/
def ownedInit : State := { State.init env0 with owned := true }

/-- Two reports off the UI thread while the UI thread is busy. -/
def twoRapidReports : List ProgressOp :=
  [ProgressOp.report MixdownState.Exporting 300 default false,
    ProgressOp.report MixdownState.Exporting 600 default false]

/-- The state `twoRapidReports` ends in. -/
def afterTwoRapidReports : State :=
  { State.init env0 with
    mProgress := 600
    mProgressUpdateQueued := true
    uiQueue := [UiClosure.progressUpdate true]
    owned := true }

/-- The test of the `find_if` lambda of `ExportProject` on one registry entry:
the parameters `ParseConfig` writes when the entry lists the preferred mime type
and `ParseConfig` returns `true`. -/
def qualifies (env : Env) (preferredMimeType : Nat) (t : RegistryEntry) : Option (List Nat) :=
  if t.mimeTypes.contains preferredMimeType then
    env.ParseConfig t (env.GetExportConfig preferredMimeType)
  else none

/-- Whether `ExportProject` gives up on a preferred mime type: no registry entry
qualifies, or no temporary path could be generated for the one found. -/
def skipped (env : Env) (preferredMimeType : Nat) : Prop :=
  match findPlugin env preferredMimeType env.registry with
  | none => True
  | some (t, _) => env.GenerateTempPath t.extension = []

/-- The selection as the specification words it: the first candidate, in the
order of the preferred formats and then of the registry, whose target accepts
the channel and rate configuration of the project and for which `ParseConfig`
yields parameters. The test `accepts` is not in the source. -/
def specSelect (accepts : RegistryEntry → Nat → Nat → Bool) (env : Env) :
    List Nat → Option (RegistryEntry × List Nat)
  | [] => none
  | preferredMimeType :: rest =>
    match env.registry.findSome? (fun t =>
        if accepts t env.nChannels env.rate then
          (qualifies env preferredMimeType t).map (fun parameters => (t, parameters))
        else none) with
    | some found => some found
    | none => specSelect accepts env rest

/-- A stereo project and two entries for the preferred format `7`; both parse
any configuration. -/
def env1 : Env :=
  { preferredAudioFormats := [7]
    GetExportConfig := fun mimeType => mimeType
    registry := [⟨1, 0, [7], 3⟩, ⟨2, 0, [7], 4⟩]
    ParseConfig := fun _ config => some [config]
    GenerateTempPath := fun extension => [extension]
    nChannels := 2
    rate := 44100
    progressCallback := fun _ _ => true }

/-- The target of plugin `1` takes one channel only, every other target two. -/
def accepts1 (t : RegistryEntry) (channels : Nat) (_rate : Nat) : Bool :=
  decide (channels ≤ if t.plugin = 1 then 1 else 2)

/-- The first entry for the first preferred format has no temporary path. -/
def env2 : Env :=
  { preferredAudioFormats := [7, 8]
    GetExportConfig := fun mimeType => mimeType
    registry := [⟨1, 0, [7], 3⟩, ⟨2, 0, [7, 8], 4⟩]
    ParseConfig := fun _ config => some [config]
    GenerateTempPath := fun extension => if extension = 3 then [] else [extension]
    nChannels := 2
    rate := 44100
    progressCallback := fun _ _ => true }

/-- The exporter `ExportProject` creates for `env2`: the second preferred format,
exported by plugin `2`. -/
def exporter2 : DataExporter :=
  { mTask := { parameters := [8], numChannels := 2, sampleRate := 44100, plugin := 2,
               fileName := [4] }
    mCancelled := false
    mResult := ExportResult.Stopped }

/-- The export thread reports progress while the uploader is still being
constructed; `Upload` returns; the posted closure runs; the export thread
reports again. -/
def reportDuringConstruction : List ProgressOp :=
  [ProgressOp.report MixdownState.Exporting 300 default false, ProgressOp.created,
    ProgressOp.deliver, ProgressOp.report MixdownState.Exporting 600 default false]

/-- The uploader with the wait of `UploadMixdown` spelt out: the state of the
uploader and where the UI thread stands in `mUploadUrlsSet.wait(lock, pred)`. -/
structure WaitState where
  base : State
  urlsWait : WaitPhase
  deriving DecidableEq

/-- The uploader right after its constructor. -/
def WaitState.init (env : Env) : WaitState :=
  { base := State.init env, urlsWait := WaitPhase.awake }

/-- The step function with the wait spelt out. `Cancel()` stores the flag and
notifies `mUploadUrlsSet` without taking `mUploadUrlsMutex`; `SetUrls()` takes
the mutex, which the UI thread holds between its test of the predicate and its
call of `wait`, and notifies under it. At the wait the UI thread tests the
predicate, and goes on or goes to sleep. -/
def waitStep (env : Env) (c : WaitState) : Action → Option WaitState
  | Action.cancel =>
    match step env c.base Action.cancel with
    | none => none
    | some m1 =>
      some { base := m1
             urlsWait := if c.base.mDataExporter.isSome then c.urlsWait.wake else c.urlsWait }
  | Action.setUrls urls =>
    if c.urlsWait = WaitPhase.predicateFalse then none
    else
      match step env c.base (Action.setUrls urls) with
      | none => none
      | some m1 => some { base := m1, urlsWait := c.urlsWait.wake }
  | Action.urlsWaitOver =>
    match c.urlsWait with
    | WaitPhase.blocked => none
    | WaitPhase.predicateFalse => some { c with urlsWait := WaitPhase.blocked }
    | WaitPhase.awake =>
      if c.base.waitingForUrls then
        match step env c.base Action.urlsWaitOver with
        | some m1 => some { c with base := m1 }
        | none => some { c with urlsWait := WaitPhase.predicateFalse }
      else none
  | Action.created =>
    match step env c.base Action.created with
    | none => none
    | some m1 => some { c with base := m1 }
  | Action.exportProgress value =>
    match step env c.base (Action.exportProgress value) with
    | none => none
    | some m1 => some { c with base := m1 }
  | Action.exportFinished outcome =>
    match step env c.base (Action.exportFinished outcome) with
    | none => none
    | some m1 => some { c with base := m1 }
  | Action.uiRun =>
    match step env c.base Action.uiRun with
    | none => none
    | some m1 => some { c with base := m1 }
  | Action.uploadProgress value isUiThread =>
    match step env c.base (Action.uploadProgress value isUiThread) with
    | none => none
    | some m1 => some { c with base := m1 }
  | Action.uploadCompleted result isUiThread =>
    match step env c.base (Action.uploadCompleted result isUiThread) with
    | none => none
    | some m1 => some { c with base := m1 }

/-- Runs a schedule with the wait spelt out. -/
def waitRun (env : Env) (c : WaitState) : List Action → Option WaitState
  | [] => some c
  | a :: rest =>
    match waitStep env c a with
    | none => none
    | some c1 => waitRun env c1 rest

/-- What the proof of settlement carries along once `Cancel()` was called: the
accounting of the promise, the upload is cancelled and not started, the exporter
exists, and the UI thread is awake whenever it is not at the wait. -/
def SettleInv (c : WaitState) : Prop :=
  TokenInv c.base ∧ ValueInv c.base ∧ CancelledInv c.base ∧
    c.base.mDataExporter.isSome = true ∧
    (c.base.waitingForUrls = false → c.urlsWait = WaitPhase.awake)

/-- The export succeeds and the UI thread finds the wait predicate false; then
`Cancel()` stores the flag and notifies; then the UI thread calls `wait`. -/
def cancelInTheWindow : List Action :=
  [Action.created, Action.exportFinished (ExportOutcome.returned ExportResult.Success),
    Action.uiRun, Action.urlsWaitOver, Action.cancel, Action.urlsWaitOver]

/-- The export succeeds, the UI thread comes to the wait, and `Cancel()` is
called. -/
def cancelledAtTheWait : WaitState :=
  { base :=
      { State.init env0 with
        mDataExporter :=
          some { mTask := { parameters := [7], numChannels := 2, sampleRate := 44100,
                            plugin := 2, fileName := [4] }
                 mCancelled := true
                 mResult := ExportResult.Success }
        mUploadCancelled := true
        progressDelivered := [0]
        exportOutcome := some (ExportOutcome.returned ExportResult.Success)
        waitingForUrls := true
        owned := true }
    urlsWait := WaitPhase.awake }

end MixdownUploader

/-! # Theorems -/

namespace MissingBlocksUploader

theorem mod_cases (K x : Nat) (hx : x < 2 * K) :
    x % K = if x < K then x else x - K := by
  split_ifs with h
  · exact Nat.mod_eq_of_lt h
  · have h1 : x = (x - K) + K := by omega
    rw [h1, Nat.add_mod_right, Nat.mod_eq_of_lt (by omega)]
    omega

theorem occ_push (K w r : Nat) (hw : w < K) (hr : r < K) (h : (w + 1) % K ≠ r) :
    ((w + 1) % K + K - r) % K = (w + K - r) % K + 1 := by
  have h1 := mod_cases K (w + 1) (by omega)
  have hlt := Nat.mod_lt (w + 1) (show 0 < K by omega)
  have h2 := mod_cases K ((w + 1) % K + K - r) (by omega)
  have h3 := mod_cases K (w + K - r) (by omega)
  rw [h2, h3]
  generalize (w + 1) % K = a at *
  split_ifs at * <;> omega

theorem occ_pop (K w r : Nat) (hw : w < K) (hr : r < K) (h : w ≠ r) :
    (w + K - (r + 1) % K) % K + 1 = (w + K - r) % K := by
  have h1 := mod_cases K (r + 1) (by omega)
  have hlt := Nat.mod_lt (r + 1) (show 0 < K by omega)
  have h2 := mod_cases K (w + K - (r + 1) % K) (by omega)
  have h3 := mod_cases K (w + K - r) (by omega)
  rw [h2, h3]
  generalize (r + 1) % K = a at *
  split_ifs at * <;> omega

theorem countP_set_add {α : Type} (p : α → Bool) (l : List α) (i : Nat) (old new : α)
    (h : l[i]? = some old) :
    (l.set i new).countP p + (if p old then 1 else 0)
      = l.countP p + (if p new then 1 else 0) := by
  induction l generalizing i with
  | nil => simp at h
  | cons x xs ih =>
    cases i with
    | zero =>
      simp at h
      subst h
      simp [List.countP_cons]
      omega
    | succ j =>
      simp at h
      have := ih j h
      simp [List.countP_cons]
      omega

theorem countP_eq_zero_of_any_false {α : Type} (p : α → Bool) (l : List α)
    (h : l.any p = false) : l.countP p = 0 := by
  induction l with
  | nil => simp
  | cons x xs ih =>
    simp [List.any_cons] at h
    simp [List.countP_cons, h.1]
    exact h.2

theorem stepAlive_sound (cfg : Config) (s : State) (a : Action) (s1 : State)
    (h : stepAlive cfg s a = some s1) : Step cfg s a s1 := by
  cases a with
  | destroy =>
    simp only [stepAlive] at h
    by_cases hcb : s.mProgressCallback = true
    · simp only [hcb, if_true, Option.some.injEq] at h
      subst h
      simpa [hcb] using (show Step cfg s _ _ from Step.destroy hcb)
    · simp [hcb] at h
  | producer i =>
    simp only [stepAlive] at h
    cases hpc : s.producers[i]? with
    | none => simp [hpc] at h
    | some pc =>
      simp only [hpc] at h
      cases pc with
      | loopHead =>
        simp only [ProducerThread] at h
        by_cases hr : s.mIsRunning = true
        · simp [hr] at h
          subst h
          simpa [hr] using (show Step cfg s _ _ from Step.producerEnter i hpc hr)
        · have hr1 : s.mIsRunning = false := by simpa using hr
          simp [hr1] at h
          subst h
          simpa [hr] using (show Step cfg s _ _ from Step.producerStop i hpc (by simpa using hr))
      | lockWait =>
        simp only [ProducerThread] at h
        by_cases hm : blocksMutexHeld s = true
        · simp [hm] at h
        · have hm1 : blocksMutexHeld s = false := by simpa using hm
          by_cases hall : s.mFirstUnprocessedBlockIndex ≥ s.mUploadTasks.length
          · simp only [hm1, hall, if_true, Option.some.injEq] at h
            simp at h
            subst h
            exact Step.producerDone i hpc hm1 hall
          · have hlt : s.mFirstUnprocessedBlockIndex < s.mUploadTasks.length := by omega
            cases ht : s.mUploadTasks[s.mFirstUnprocessedBlockIndex]? with
            | none => simp [hm1, hall, ProduceBlock, ht] at h
            | some task =>
              by_cases hd : cfg.CompressBlock task.Block = []
              · simp [hm1, hall, ProduceBlock, ht, hd] at h
                subst h
                simpa [hd] using
                  (show Step cfg s _ _ from Step.producerEmpty i task hpc hm1 hlt ht hd)
              · simp [hm1, hall, ProduceBlock, ht, hd] at h
                subst h
                exact Step.producerClaim i task hpc hm1 hlt ht hd
      | reporting item =>
        simp only [ProducerThread, reportCompressionFailure] at h
        by_cases hcb : s.mProgressCallback = true
        · simp [hcb] at h
          subst h
          simpa [hcb] using (show Step cfg s _ _ from Step.producerReport i item hpc hcb)
        · have hcb1 : s.mProgressCallback = false := by simpa using hcb
          simp [hcb1] at h
          subst h
          simpa [hcb1] using (show Step cfg s _ _ from Step.producerAbort i item hpc hcb1)
      | pushing item =>
        simp only [ProducerThread, PushBlockToQueue] at h
        by_cases hr : s.mIsRunning = true
        · by_cases hroom :
              (s.mRingBufferWriteIndex + 1) % cfg.RING_BUFFER_SIZE ≠ s.mRingBufferReadIndex
          · simp [hr, hroom] at h
            subst h
            simpa [hr] using (show Step cfg s _ _ from Step.producerPush i item hpc hr hroom)
          · simp [hr, hroom] at h
        · have hr1 : s.mIsRunning = false := by simpa using hr
          simp [hr1] at h
          subst h
          simpa [hr1] using (show Step cfg s _ _ from Step.producerDrop i item hpc hr1)
      | exited => simp [ProducerThread] at h
      | aborted => simp [ProducerThread] at h
  | consumer =>
    simp only [stepAlive, ConsumerThread] at h
    cases hc : s.consumer with
    | loopHead =>
      by_cases hr : s.mIsRunning = true
      · simp [hc, hr] at h
        subst h
        simpa [hr] using (show Step cfg s _ _ from Step.consumerEnter hc hr)
      · have hr1 : s.mIsRunning = false := by simpa using hr
        simp [hc, hr1] at h
        subst h
        simpa [hr1] using (show Step cfg s _ _ from Step.consumerStop hc hr1)
    | popping =>
      by_cases hr : s.mIsRunning = true
      · by_cases hne : s.mRingBufferWriteIndex ≠ s.mRingBufferReadIndex
        · simp [hc, PopBlockFromQueue, hr, hne] at h
          subst h
          simpa [hr] using (show Step cfg s _ _ from Step.consumerPop hc hr hne)
        · simp [hc, PopBlockFromQueue, hr, hne] at h
      · have hr1 : s.mIsRunning = false := by simpa using hr
        simp [hc, PopBlockFromQueue, hr1] at h
        subst h
        simpa [hr1] using (show Step cfg s _ _ from Step.consumerPopNothing hc hr1)
    | consuming item =>
      by_cases hr : s.mIsRunning = true
      · by_cases hp : s.mConcurrentUploads < (cfg.NUM_UPLOADERS : Int)
        · simp [hc, ConsumeBlock_acquire, hr, hp] at h
          subst h
          simpa [hr] using (show Step cfg s _ _ from Step.consumerAcquire item hc hr hp)
        · simp [hc, ConsumeBlock_acquire, hr, hp] at h
      · have hr1 : s.mIsRunning = false := by simpa using hr
        simp [hc, ConsumeBlock_acquire, hr1] at h
        subst h
        simpa [hr1] using (show Step cfg s _ _ from Step.consumerDrop item hc hr1)
    | dispatching item =>
      simp only [hc, ConsumeBlock_upload, Option.some.injEq] at h
      subst h
      exact Step.consumerUpload item hc
    | exited => simp [hc] at h
  | complete k result =>
    simp only [stepAlive] at h
    cases hk : s.inFlight[k]? with
    | none => simp [hk] at h
    | some item =>
      by_cases hcode : result.Code = ResponseResultCode.Success
      · simp [hk, uploadCompleted_progress, hcode, ConfirmBlock_progress] at h
        subst h
        exact Step.completeOk k result item hk hcode
      · simp [hk, uploadCompleted_progress, hcode, HandleFailedBlock_progress] at h
        subst h
        exact Step.completeFailed k result item hk hcode
  | release =>
    simp only [stepAlive] at h
    by_cases hz : s.releasing = 0
    · simp [hz] at h
    · simp [hz, releasePermit] at h
      subst h
      exact Step.release hz
  | construct =>
    simp only [stepAlive] at h
    by_cases hcb : s.mProgressCallback = true
    · simp [hcb] at h
    · have hcb1 : s.mProgressCallback = false := by simpa using hcb
      simp [hcb1] at h
      subst h
      exact Step.construct hcb1

theorem step_alive (cfg : Config) (s : State) (a : Action) (s1 : State)
    (h : step cfg s a = some s1) : s.terminated = false ∧ stepAlive cfg s a = some s1 := by
  unfold step at h
  by_cases ht : s.terminated = true
  · simp [ht] at h
  · have ht1 : s.terminated = false := by simpa using ht
    simp only [ht1, Bool.false_eq_true, if_false] at h
    exact ⟨ht1, h⟩

theorem step_sound (cfg : Config) (s : State) (a : Action) (s1 : State)
    (h : step cfg s a = some s1) : Step cfg s a s1 :=
  stepAlive_sound cfg s a s1 (step_alive cfg s a s1 h).2

theorem run_invariant (cfg : Config) (P : State → Prop)
    (hstep : ∀ s a s1, P s → step cfg s a = some s1 → P s1) :
    ∀ (schedule : List Action) (s s1 : State), P s → run cfg s schedule = some s1 → P s1 := by
  intro schedule
  induction schedule with
  | nil =>
    intro s s1 hs h
    simp [run] at h
    exact h ▸ hs
  | cons a rest ih =>
    intro s s1 hs h
    simp only [run] at h
    cases hst : step cfg s a with
    | none => simp [hst] at h
    | some s2 =>
      simp only [hst] at h
      exact ih s2 s1 (hstep s a s2 hs hst) h

theorem PermitInv_step (cfg : Config) (s : State) (a : Action) (s1 : State)
    (hinv : PermitInv cfg s) (h : step cfg s a = some s1) : PermitInv cfg s1 := by
  obtain ⟨h1, h2⟩ := hinv
  have hs := step_sound cfg s a s1 h
  unfold dispatching at h1
  cases hs with
  | consumerEnter hpc hrun => exact ⟨by simpa [dispatching, hpc] using h1, h2⟩
  | consumerStop hpc hrun => exact ⟨by simpa [dispatching, hpc] using h1, h2⟩
  | consumerPop hpc hrun hne => exact ⟨by simpa [dispatching, hpc] using h1, h2⟩
  | consumerPopNothing hpc hrun => exact ⟨by simpa [dispatching, hpc] using h1, h2⟩
  | consumerDrop item hpc hrun => exact ⟨by simpa [dispatching, hpc] using h1, h2⟩
  | consumerAcquire item hpc hrun hpermit =>
    simp only [hpc] at h1
    constructor
    · simp only [dispatching]; omega
    · simp only; omega
  | consumerUpload item hpc =>
    simp only [hpc] at h1
    constructor
    · simp only [dispatching, List.length_append, List.length_singleton]; omega
    · exact h2
  | completeOk k result item hk hcode =>
    have hlen : k < s.inFlight.length := (List.getElem?_eq_some_iff.mp hk).1
    constructor
    · simp only [dispatching, List.length_eraseIdx, hlen, if_true]; omega
    · exact h2
  | completeFailed k result item hk hcode =>
    have hlen : k < s.inFlight.length := (List.getElem?_eq_some_iff.mp hk).1
    constructor
    · simp only [dispatching, List.length_eraseIdx, hlen, if_true]; omega
    · exact h2
  | release hpos =>
    constructor
    · simp only [dispatching]; omega
    · simp only; omega
  | _ => exact ⟨h1, h2⟩

theorem PermitInv_init (cfg : Config) (tasks : List BlockUploadTask) :
    PermitInv cfg (State.init cfg tasks) := by
  simp [PermitInv, State.init, dispatching]

theorem pushingCount_set (l : List ProducerPc) (i : Nat) (old new : ProducerPc)
    (h : l[i]? = some old) :
    (l.set i new).countP ProducerPc.hasItem + (if old.hasItem then 1 else 0)
      = l.countP ProducerPc.hasItem + (if new.hasItem then 1 else 0) :=
  countP_set_add ProducerPc.hasItem l i old new h

theorem CountInv_step (cfg : Config) (N : Nat) (s : State) (a : Action) (s1 : State)
    (hinv : CountInv cfg N s) (h : step cfg s a = some s1) : CountInv cfg N s1 := by
  obtain ⟨h1, h2, h3, h4, h5, h5e, h6⟩ := hinv
  have hs := step_sound cfg s a s1 h
  simp only [accounted, occupancy, pushingCount, holding] at h5 h5e
  cases hs with
  | destroy =>
    refine ⟨h1, h2, h3, h4, ?_, by simp, h6⟩
    simp only [accounted, occupancy, pushingCount, holding]
    cases hc : s.consumer with
    | consuming item =>
      simp only [hc] at h5
      split_ifs at h5
      · simp only [Bool.false_eq_true, if_false]
        omega
      · simpa using h5
    | dispatching item => simpa [hc] using h5
    | loopHead => simpa [hc] using h5
    | popping => simpa [hc] using h5
    | exited => simpa [hc] using h5
  | producerEnter i hpc hrun =>
    have := pushingCount_set s.producers i _ ProducerPc.lockWait hpc
    simp [ProducerPc.hasItem] at this
    refine ⟨h1, h2, h3, h4, ?_, ?_, h6⟩ <;>
      simp only [accounted, occupancy, pushingCount, holding, this] <;> assumption
  | producerStop i hpc hrun =>
    have := pushingCount_set s.producers i _ ProducerPc.exited hpc
    simp [ProducerPc.hasItem] at this
    refine ⟨h1, h2, h3, h4, ?_, ?_, h6⟩ <;>
      simp only [accounted, occupancy, pushingCount, holding, this] <;> assumption
  | producerDone i hpc hfree hall =>
    have := pushingCount_set s.producers i _ ProducerPc.exited hpc
    simp [ProducerPc.hasItem] at this
    refine ⟨h1, h2, h3, h4, ?_, ?_, h6⟩ <;>
      simp only [accounted, occupancy, pushingCount, holding, this] <;> assumption
  | producerEmpty i task hpc hfree hlt htask hdata =>
    have := pushingCount_set s.producers i _
      (ProducerPc.reporting ⟨task, cfg.CompressBlock task.Block⟩) hpc
    simp [ProducerPc.hasItem] at this
    refine ⟨h1, h2, h3, h4, ?_, ?_, by simp; omega⟩ <;>
      simp only [accounted, occupancy, pushingCount, holding]
    · omega
    · intro hr; have := h5e hr; omega
  | producerReport i item hpc hcb =>
    have := pushingCount_set s.producers i _ ProducerPc.loopHead hpc
    simp [ProducerPc.hasItem] at this
    refine ⟨h1, h2, h3, h4, ?_, ?_, h6⟩ <;>
      simp only [accounted, occupancy, pushingCount, holding]
    · omega
    · intro hr; have := h5e hr; omega
  | producerAbort i item hpc hcb =>
    have := pushingCount_set s.producers i _ ProducerPc.aborted hpc
    simp [ProducerPc.hasItem] at this
    refine ⟨h1, h2, h3, h4, ?_, ?_, h6⟩ <;>
      simp only [accounted, occupancy, pushingCount, holding]
    · omega
    · intro hr; have := h5e hr; omega
  | construct hcb =>
    refine ⟨h1, h2, h3, h4, ?_, ?_, h6⟩ <;>
      simp only [accounted, occupancy, pushingCount, holding] <;> assumption
  | producerClaim i task hpc hfree hlt htask hdata =>
    have := pushingCount_set s.producers i _
      (ProducerPc.pushing ⟨task, cfg.CompressBlock task.Block⟩) hpc
    simp [ProducerPc.hasItem] at this
    refine ⟨h1, h2, h3, h4, ?_, ?_, by simp; omega⟩ <;>
      simp only [accounted, occupancy, pushingCount, holding]
    · omega
    · intro hr; have := h5e hr; omega
  | producerPush i item hpc hrun hroom =>
    have := pushingCount_set s.producers i _ ProducerPc.loopHead hpc
    simp [ProducerPc.hasItem] at this
    have hocc := occ_push cfg.RING_BUFFER_SIZE _ _ h4 h3 hroom
    refine ⟨h1, h2, h3, Nat.mod_lt _ (by omega), ?_, ?_, h6⟩ <;>
      simp only [accounted, occupancy, pushingCount, holding, hocc]
    · omega
    · intro hr; have := h5e hr; omega
  | producerDrop i item hpc hrun =>
    have := pushingCount_set s.producers i _ ProducerPc.loopHead hpc
    simp [ProducerPc.hasItem] at this
    refine ⟨h1, h2, h3, h4, ?_, ?_, h6⟩ <;>
      simp only [accounted, occupancy, pushingCount, holding]
    · omega
    · intro hr; simp [hrun] at hr
  | consumerEnter hpc hrun =>
    simp only [hpc] at h5 h5e
    refine ⟨h1, h2, h3, h4, ?_, ?_, h6⟩ <;>
      simp only [accounted, occupancy, pushingCount, holding] <;> assumption
  | consumerStop hpc hrun =>
    simp only [hpc] at h5 h5e
    refine ⟨h1, h2, h3, h4, ?_, ?_, h6⟩ <;>
      simp only [accounted, occupancy, pushingCount, holding] <;> assumption
  | consumerPop hpc hrun hne =>
    have hocc := occ_pop cfg.RING_BUFFER_SIZE _ _ h4 h3 hne
    simp only [hpc] at h5 h5e
    refine ⟨h1, h2, Nat.mod_lt _ (by omega), h4, ?_, ?_, h6⟩ <;>
      simp only [accounted, occupancy, pushingCount, holding, hrun, if_true]
    · omega
    · intro _; have := h5e hrun; omega
  | consumerPopNothing hpc hrun =>
    simp only [hpc] at h5 h5e
    refine ⟨h1, h2, h3, h4, ?_, ?_, h6⟩ <;>
      simp only [accounted, occupancy, pushingCount, holding, hrun]
    · simpa using h5
    · intro hr; simp at hr
  | consumerAcquire item hpc hrun hpermit =>
    simp only [hpc, hrun, if_true] at h5 h5e
    refine ⟨h1, h2, h3, h4, ?_, ?_, h6⟩ <;>
      simp only [accounted, occupancy, pushingCount, holding]
    · omega
    · intro _; have := h5e trivial; omega
  | consumerUpload item hpc =>
    simp only [hpc] at h5 h5e
    refine ⟨h1, h2, h3, h4, ?_, ?_, h6⟩ <;>
      simp only [accounted, occupancy, pushingCount, holding, List.length_append,
        List.length_singleton]
    · omega
    · intro hr; have := h5e hr; omega
  | consumerDrop item hpc hrun =>
    simp only [hpc, hrun] at h5 h5e
    refine ⟨h1, h2, h3, h4, ?_, ?_, h6⟩ <;>
      simp only [accounted, occupancy, pushingCount, holding]
    · simpa using h5
    · intro hr; simp [hrun] at hr
  | completeOk k result item hk hcode =>
    have hlen : k < s.inFlight.length := (List.getElem?_eq_some_iff.mp hk).1
    refine ⟨h1, h2, h3, h4, ?_, ?_, h6⟩ <;>
      simp only [accounted, occupancy, pushingCount, holding, List.length_eraseIdx, hlen,
        if_true]
    · omega
    · intro hr; have := h5e hr; omega
  | completeFailed k result item hk hcode =>
    have hlen : k < s.inFlight.length := (List.getElem?_eq_some_iff.mp hk).1
    refine ⟨h1, h2, h3, h4, ?_, ?_, h6⟩ <;>
      simp only [accounted, occupancy, pushingCount, holding, List.length_eraseIdx, hlen,
        if_true]
    · omega
    · intro hr; have := h5e hr; omega
  | release hpos =>
    refine ⟨h1, h2, h3, h4, ?_, ?_, h6⟩ <;>
      simp only [accounted, occupancy, pushingCount, holding] <;> assumption

theorem CountInv_init (cfg : Config) (tasks : List BlockUploadTask)
    (hK : 0 < cfg.RING_BUFFER_SIZE) : CountInv cfg tasks.length (State.init cfg tasks) := by
  simp [CountInv, State.init, hK, accounted, holding, occupancy, pushingCount,
    ProducerPc.hasItem]

theorem RingInv_step (cfg : Config) (t : RingTrace) (op : RingOp) (t1 : RingTrace)
    (hinv : RingInv cfg t) (h : ringStep cfg t op = some t1) : RingInv cfg t1 := by
  obtain ⟨h1, h2, h3⟩ := hinv
  unfold occupancy at h3
  cases op with
  | push item =>
    simp only [ringStep, PushBlockToQueue] at h
    by_cases hr : t.state.mIsRunning = true
    · by_cases hroom : (t.state.mRingBufferWriteIndex + 1) % cfg.RING_BUFFER_SIZE
          ≠ t.state.mRingBufferReadIndex
      · simp [hr, hroom] at h
        subst h
        have hocc := occ_push cfg.RING_BUFFER_SIZE _ _ h2 h1 hroom
        refine ⟨h1, Nat.mod_lt _ (by omega), ?_⟩
        simp only [occupancy, hocc, List.length_append, List.length_singleton]
        omega
      · simp [hr, hroom] at h
    · have hr1 : t.state.mIsRunning = false := by simpa using hr
      simp [hr1] at h
      subst h
      exact ⟨h1, h2, h3⟩
  | pop =>
    simp only [ringStep, PopBlockFromQueue] at h
    by_cases hr : t.state.mIsRunning = true
    · by_cases hne : t.state.mRingBufferWriteIndex ≠ t.state.mRingBufferReadIndex
      · simp [hr, hne] at h
        subst h
        have hocc := occ_pop cfg.RING_BUFFER_SIZE _ _ h2 h1 hne
        refine ⟨Nat.mod_lt _ (by omega), h2, ?_⟩
        simp only [occupancy, List.length_append, List.length_singleton]
        omega
      · simp [hr, hne] at h
    · have hr1 : t.state.mIsRunning = false := by simpa using hr
      simp [hr1] at h
      subst h
      exact ⟨h1, h2, h3⟩
  | stop =>
    simp only [ringStep, Option.some.injEq] at h
    subst h
    exact ⟨h1, h2, h3⟩

theorem RingInv_run (cfg : Config) (ops : List RingOp) :
    ∀ (t t1 : RingTrace), RingInv cfg t → ringRun cfg t ops = some t1 → RingInv cfg t1 := by
  induction ops with
  | nil =>
    intro t t1 ht h
    simp [ringRun] at h
    exact h ▸ ht
  | cons op rest ih =>
    intro t t1 ht h
    simp only [ringRun] at h
    cases hst : ringStep cfg t op with
    | none => simp [hst] at h
    | some t2 =>
      simp only [hst] at h
      exact ih t2 t1 (RingInv_step cfg t op t2 ht hst) h

/-! ## The claims about the bulk pipeline -/

/-- C1, as the source has it: an uploader destroyed before its threads have run
ends with every thread joined and no block uploaded or failed, although three
tasks were submitted. -/
theorem destroyed_at_once_counterexample :
    run cfg0 (State.init cfg0 tasks0) destroyedAtOnceSchedule = some destroyedAtOnce ∧
      destructorReturned destroyedAtOnce ∧
      destroyedAtOnce.mProgressData.UploadedBlocks + destroyedAtOnce.mProgressData.FailedBlocks
        = 0 ∧
      tasks0.length = 3 :=
  ⟨by decide, ⟨rfl, by decide, rfl⟩, by decide, rfl⟩

theorem ConstructedInv_run (cfg : Config) (schedule : List Action) :
    ∀ (s s1 : State), (s.mIsRunning = false → s.mProgressCallback = true) →
      run cfg s schedule = some s1 → (s1.mIsRunning = false → s1.mProgressCallback = true) := by
  refine run_invariant cfg (fun s => s.mIsRunning = false → s.mProgressCallback = true) ?_
    schedule
  intro s a s1 hinv h
  have hs := step_sound cfg s a s1 h
  cases hs with
  | destroy hcb => exact fun _ => hcb
  | construct hcb => exact fun _ => rfl
  | _ => exact hinv

theorem outcomes_mono_run (cfg : Config) (schedule : List Action) :
    ∀ (s s1 : State), run cfg s schedule = some s1 →
      s.mProgressData.UploadedBlocks + s.mProgressData.FailedBlocks
        ≤ s1.mProgressData.UploadedBlocks + s1.mProgressData.FailedBlocks := by
  induction schedule with
  | nil =>
    intro s s1 h
    simp only [run, Option.some.injEq] at h
    rw [h]
  | cons a rest ih =>
    intro s s1 h
    simp only [run] at h
    cases hst : step cfg s a with
    | none => simp [hst] at h
    | some s2 =>
      simp only [hst] at h
      have h2 := ih s2 s1 h
      have hs := step_sound cfg s a s2 hst
      have h1 : s.mProgressData.UploadedBlocks + s.mProgressData.FailedBlocks
          ≤ s2.mProgressData.UploadedBlocks + s2.mProgressData.FailedBlocks := by
        cases hs <;> simp only <;> omega
      omega

theorem drained_outcomes (cfg : Config) (N : Nat) (s : State) (hinv : CountInv cfg N s)
    (hr : s.mIsRunning = true) (hdone : drained s) :
    s.mProgressData.UploadedBlocks + s.mProgressData.FailedBlocks = N := by
  obtain ⟨hlen, _, _, _, _, heq, _⟩ := hinv
  obtain ⟨hfirst, hprod, hring, hcons, hflight⟩ := hdone
  have hacc := heq hr
  have hpush : pushingCount s = 0 := by
    unfold pushingCount
    rw [List.countP_eq_zero]
    intro pc hpc
    simp [hprod pc hpc]
  have hhold : holding s = 0 := by
    unfold holding
    rcases hcons with hc | hc | hc <;> simp [hc]
  have hocc : occupancy cfg s = 0 := by
    unfold occupancy
    rw [hring]
    have : s.mRingBufferReadIndex + cfg.RING_BUFFER_SIZE - s.mRingBufferReadIndex
        = cfg.RING_BUFFER_SIZE := by omega
    rw [this, Nat.mod_self]
  unfold accounted at hacc
  rw [hpush, hhold, hocc, hflight, hfirst, hlen] at hacc
  simpa using hacc

/-- C1, amended: once the destructor has returned, `UploadedBlocks + FailedBlocks`
is at most the number `N` of submitted tasks, and it is `N` when the destructor
was called after every task had reached its outcome (every index claimed, no
item held by a thread, ring buffer empty, no upload in flight). More precisely
the finished blocks, the uploads still in flight and the items left in the ring
buffer together are at most the number of claimed tasks, which is at most `N`;
and no producer or consumer step is possible any more, so what was not claimed
or was dropped at cancellation never gets an outcome. -/
theorem outcomes_after_destruction (cfg : Config) (uploadTasks : List BlockUploadTask)
    (s : State) (hK : 0 < cfg.RING_BUFFER_SIZE) (h : Reachable cfg uploadTasks s)
    (hd : destructorReturned s) :
    s.mProgressData.TotalBlocks = uploadTasks.length ∧
      s.mProgressData.UploadedBlocks + s.mProgressData.FailedBlocks + s.inFlight.length
        + occupancy cfg s ≤ s.mFirstUnprocessedBlockIndex ∧
      s.mFirstUnprocessedBlockIndex ≤ uploadTasks.length ∧
      s.mProgressData.UploadedBlocks + s.mProgressData.FailedBlocks ≤ uploadTasks.length ∧
      (∀ before after s0, run cfg (State.init cfg uploadTasks) before = some s0 →
        s0.mIsRunning = true → drained s0 → run cfg s0 after = some s →
        s.mProgressData.UploadedBlocks + s.mProgressData.FailedBlocks = uploadTasks.length) ∧
      ∀ a s1, step cfg s a = some s1 →
        a = Action.destroy ∨ (∃ k result, a = Action.complete k result) ∨ a = Action.release := by
  obtain ⟨schedule, hrun⟩ := h
  obtain ⟨_, h2, _, _, h5, _, h6⟩ :=
    run_invariant cfg (CountInv cfg uploadTasks.length)
      (CountInv_step cfg uploadTasks.length) schedule _ s (CountInv_init cfg uploadTasks hK) hrun
  have hcb := ConstructedInv_run cfg schedule _ s (by simp [State.init]) hrun hd.1
  unfold accounted at h5
  refine ⟨h2, by omega, h6, by omega, ?_, ?_⟩
  · intro before after s0 hbefore hr hdone hafter
    have hinv0 := run_invariant cfg (CountInv cfg uploadTasks.length)
      (CountInv_step cfg uploadTasks.length) before _ s0 (CountInv_init cfg uploadTasks hK)
      hbefore
    have h0 := drained_outcomes cfg uploadTasks.length s0 hinv0 hr hdone
    have hmono := outcomes_mono_run cfg after s0 s hafter
    omega
  intro a s1 hst
  obtain ⟨_, hprod, hcons⟩ := hd
  have hs := step_sound cfg s a s1 hst
  cases hs with
  | destroy => exact Or.inl rfl
  | completeOk k result item hk hcode => exact Or.inr (Or.inl ⟨k, result, rfl⟩)
  | completeFailed k result item hk hcode => exact Or.inr (Or.inl ⟨k, result, rfl⟩)
  | release hpos => exact Or.inr (Or.inr rfl)
  | construct hcb1 => rw [hcb] at hcb1; cases hcb1
  | producerEnter i hpc hrun => exact absurd (hprod _ (List.getElem?_mem hpc)) (by simp)
  | producerStop i hpc hrun => exact absurd (hprod _ (List.getElem?_mem hpc)) (by simp)
  | producerDone i hpc hfree hall => exact absurd (hprod _ (List.getElem?_mem hpc)) (by simp)
  | producerEmpty i task hpc hfree hlt htask hdata =>
    exact absurd (hprod _ (List.getElem?_mem hpc)) (by simp)
  | producerReport i item hpc => exact absurd (hprod _ (List.getElem?_mem hpc)) (by simp)
  | producerAbort i item hpc => exact absurd (hprod _ (List.getElem?_mem hpc)) (by simp)
  | producerClaim i task hpc hfree hlt htask hdata =>
    exact absurd (hprod _ (List.getElem?_mem hpc)) (by simp)
  | producerPush i item hpc hrun hroom => exact absurd (hprod _ (List.getElem?_mem hpc)) (by simp)
  | producerDrop i item hpc hrun => exact absurd (hprod _ (List.getElem?_mem hpc)) (by simp)
  | consumerEnter hpc hrun => simp [hcons] at hpc
  | consumerStop hpc hrun => simp [hcons] at hpc
  | consumerPop hpc hrun hne => simp [hcons] at hpc
  | consumerPopNothing hpc hrun => simp [hcons] at hpc
  | consumerAcquire item hpc hrun hpermit => simp [hcons] at hpc
  | consumerUpload item hpc => simp [hcons] at hpc
  | consumerDrop item hpc hrun => simp [hcons] at hpc

/-- Witness for `outcomes_after_destruction`: ten blocks are uploaded, then the
uploader is destroyed and its threads are joined. -/
theorem outcomes_after_destruction_witness :
    (0 < cfg10.RING_BUFFER_SIZE ∧ Reachable cfg10 tasks10 tenBlocksDestroyed ∧
      destructorReturned tenBlocksDestroyed ∧
      run cfg10 (State.init cfg10 tasks10) tenBlocksSchedule = some tenBlocksDone ∧
      tenBlocksDone.mIsRunning = true ∧ drained tenBlocksDone ∧
      run cfg10 tenBlocksDone joinSchedule = some tenBlocksDestroyed) ∧
    tenBlocksDestroyed.mProgressData.UploadedBlocks
        + tenBlocksDestroyed.mProgressData.FailedBlocks = tasks10.length :=
  ⟨⟨by decide, ⟨tenBlocksSchedule ++ joinSchedule, by decide⟩,
      ⟨by decide, by decide, by decide⟩, by decide, by decide,
      ⟨by decide, by decide, by decide, by decide, by decide⟩, by decide⟩,
    (outcomes_after_destruction cfg10 tasks10 tenBlocksDestroyed (by decide)
      ⟨tenBlocksSchedule ++ joinSchedule, by decide⟩
      ⟨by decide, by decide, by decide⟩).2.2.2.2.1
      tenBlocksSchedule joinSchedule tenBlocksDone (by decide) (by decide)
      ⟨by decide, by decide, by decide, by decide, by decide⟩ (by decide)⟩

/-- C3: in every reachable state `0 ≤ mConcurrentUploads ≤ NUM_UPLOADERS`, and
the count is the number of uploads in flight, of completion callbacks that have
not released their permit yet and of uploads `ConsumeBlock` is about to start. A
step changes it only in two ways: `ConsumeBlock` adds one, while the pipeline is
running and the count is below `NUM_UPLOADERS`, and goes on to start one upload;
the second critical section of `ConfirmBlock` or `HandleFailedBlock` takes one
away. The uploader invokes each completion callback at most once. -/
theorem permit_count_bounded (cfg : Config) (uploadTasks : List BlockUploadTask) (s : State)
    (h : Reachable cfg uploadTasks s) :
    (0 ≤ s.mConcurrentUploads ∧ s.mConcurrentUploads ≤ (cfg.NUM_UPLOADERS : Int) ∧
      s.mConcurrentUploads
        = (s.inFlight.length : Int) + (s.releasing : Int) + (dispatching s : Int)) ∧
    ∀ a s1, step cfg s a = some s1 →
      s1.mConcurrentUploads = s.mConcurrentUploads ∨
      (a = Action.consumer ∧ s.mIsRunning = true ∧
        s.mConcurrentUploads < (cfg.NUM_UPLOADERS : Int) ∧
        s1.mConcurrentUploads = s.mConcurrentUploads + 1 ∧
        dispatching s1 = 1) ∨
      (a = Action.release ∧ 0 < s.releasing ∧
        s1.mConcurrentUploads = s.mConcurrentUploads - 1) := by
  obtain ⟨schedule, hrun⟩ := h
  obtain ⟨h1, h2⟩ := run_invariant cfg (PermitInv cfg) (PermitInv_step cfg) schedule _ s
    (PermitInv_init cfg uploadTasks) hrun
  refine ⟨⟨by omega, h2, h1⟩, ?_⟩
  intro a s1 hst
  have hs := step_sound cfg s a s1 hst
  cases hs with
  | consumerAcquire item hpc hrun hpermit =>
    exact Or.inr (Or.inl ⟨rfl, hrun, hpermit, rfl, rfl⟩)
  | release hpos => exact Or.inr (Or.inr ⟨rfl, by omega, rfl⟩)
  | _ => exact Or.inl rfl

/-- Witness for `permit_count_bounded`: one upload in flight. -/
theorem permit_count_bounded_witness :
    Reachable cfg0 tasks0 oneInFlight ∧
      (0 ≤ oneInFlight.mConcurrentUploads ∧
        oneInFlight.mConcurrentUploads ≤ (cfg0.NUM_UPLOADERS : Int) ∧
        oneInFlight.mConcurrentUploads
          = (oneInFlight.inFlight.length : Int) + (oneInFlight.releasing : Int)
            + (dispatching oneInFlight : Int)) :=
  ⟨⟨oneInFlightSchedule, by decide⟩,
    (permit_count_bounded cfg0 tasks0 oneInFlight ⟨oneInFlightSchedule, by decide⟩).1⟩

/-- C4: after any sequence of `PushBlockToQueue` and `PopBlockFromQueue` calls
(and of the store that stops the pipeline) from the empty buffer, with
`RING_BUFFER_SIZE > 0`, both indices are below `RING_BUFFER_SIZE`; the occupancy
`(write - read) mod RING_BUFFER_SIZE` is the number of items admitted and not yet
popped, and it is at most `RING_BUFFER_SIZE - 1` (a slot always stays unused),
hence at most `RING_BUFFER_SIZE`. -/
theorem ring_occupancy_bounded (cfg : Config) (uploadTasks : List BlockUploadTask)
    (ops : List RingOp) (t : RingTrace) (hK : 0 < cfg.RING_BUFFER_SIZE)
    (h : ringRun cfg ⟨State.init cfg uploadTasks, [], []⟩ ops = some t) :
    t.state.mRingBufferReadIndex < cfg.RING_BUFFER_SIZE ∧
      t.state.mRingBufferWriteIndex < cfg.RING_BUFFER_SIZE ∧
      occupancy cfg t.state + t.popped.length = t.pushed.length ∧
      t.pushed.length ≤ t.popped.length + (cfg.RING_BUFFER_SIZE - 1) ∧
      occupancy cfg t.state ≤ cfg.RING_BUFFER_SIZE - 1 ∧
      occupancy cfg t.state ≤ cfg.RING_BUFFER_SIZE := by
  have h0 : RingInv cfg ⟨State.init cfg uploadTasks, [], []⟩ := by
    simp [RingInv, State.init, occupancy, hK]
  obtain ⟨h1, h2, h3⟩ := RingInv_run cfg ops _ t h0 h
  have hlt : occupancy cfg t.state < cfg.RING_BUFFER_SIZE := Nat.mod_lt _ hK
  exact ⟨h1, h2, h3, by omega, by omega, by omega⟩

/-- Witness for `ring_occupancy_bounded`: two pushes and a pop on a ring of 4. -/
theorem ring_occupancy_bounded_witness :
    (0 < cfg0.RING_BUFFER_SIZE ∧
      ringRun cfg0 ⟨State.init cfg0 tasks0, [], []⟩ ringExampleOps = some ringExampleTrace) ∧
    (ringExampleTrace.state.mRingBufferReadIndex < cfg0.RING_BUFFER_SIZE ∧
      ringExampleTrace.state.mRingBufferWriteIndex < cfg0.RING_BUFFER_SIZE ∧
      occupancy cfg0 ringExampleTrace.state + ringExampleTrace.popped.length
        = ringExampleTrace.pushed.length ∧
      ringExampleTrace.pushed.length
        ≤ ringExampleTrace.popped.length + (cfg0.RING_BUFFER_SIZE - 1) ∧
      occupancy cfg0 ringExampleTrace.state ≤ cfg0.RING_BUFFER_SIZE - 1 ∧
      occupancy cfg0 ringExampleTrace.state ≤ cfg0.RING_BUFFER_SIZE) :=
  ⟨⟨by decide, by decide⟩,
    ring_occupancy_bounded cfg0 tasks0 ringExampleOps ringExampleTrace (by decide) (by decide)⟩

/-- C9, on the code: when the task a producer claims compresses to an empty
payload, the producer claims the index and goes on to the compression-failure
branch without touching the ring buffer. There, while `mProgressCallback` holds
a target, its step adds one to `FailedBlocks`, calls the callback for that block
with `InternalClientError` and leaves the ring buffer, the uploads in flight and
the permit count alone. But the constructor starts the threads before it
replaces an empty `mProgressCallback`: when the producer gets there first, the
step adds one to `FailedBlocks`, no callback is invoked, the call throws out of
the thread function and the process is terminated, so that no action is possible
any more. -/
theorem compression_failure_without_callback (cfg : Config) (s : State)
    (task : BlockUploadTask) (i : Nat) (hfree : blocksMutexHeld s = false)
    (htask : s.mUploadTasks[s.mFirstUnprocessedBlockIndex]? = some task)
    (hempty : cfg.CompressBlock task.Block = []) :
    ProducerThread cfg s ProducerPc.lockWait
        = some ({ s with mFirstUnprocessedBlockIndex := s.mFirstUnprocessedBlockIndex + 1 },
            ProducerPc.reporting ⟨task, []⟩) ∧
    ∀ s1 : State, s1.producers[i]? = some (ProducerPc.reporting ⟨task, []⟩) →
      s1.terminated = false → ∃ s2,
      step cfg s1 (Action.producer i) = some s2 ∧
      s2.mProgressData.FailedBlocks = s1.mProgressData.FailedBlocks + 1 ∧
      s2.mProgressData.UploadedBlocks = s1.mProgressData.UploadedBlocks ∧
      s2.mProgressData.UploadErrors = s1.mProgressData.UploadErrors ∧
      s2.mRingBuffer = s1.mRingBuffer ∧
      s2.mRingBufferReadIndex = s1.mRingBufferReadIndex ∧
      s2.mRingBufferWriteIndex = s1.mRingBufferWriteIndex ∧
      s2.inFlight = s1.inFlight ∧
      s2.mConcurrentUploads = s1.mConcurrentUploads ∧
      (s1.mProgressCallback = true →
        s2.progressCalls = s1.progressCalls ++
          [⟨s2.mProgressData, task.Block, ⟨ResponseResultCode.InternalClientError, []⟩⟩] ∧
        s2.producers[i]? = some ProducerPc.loopHead ∧ s2.terminated = false) ∧
      (s1.mProgressCallback = false →
        s2.progressCalls = s1.progressCalls ∧
        s2.producers[i]? = some ProducerPc.aborted ∧ s2.terminated = true ∧
        ∀ a, step cfg s2 a = none) := by
  have hlt : s.mFirstUnprocessedBlockIndex < s.mUploadTasks.length :=
    (List.getElem?_eq_some_iff.mp htask).1
  constructor
  · simp [ProducerThread, hfree, ProduceBlock, htask, hempty, Nat.not_le.mpr hlt]
  · intro s1 hpc halive
    have hlen : i < s1.producers.length := (List.getElem?_eq_some_iff.mp hpc).1
    by_cases hcb : s1.mProgressCallback = true
    · refine ⟨{ reportCompressionFailure s1 ⟨task, []⟩ with
          producers := s1.producers.set i ProducerPc.loopHead }, ?_, ?_⟩
      · simp [step, halive, stepAlive, hpc, ProducerThread, hcb, reportCompressionFailure]
      · simp [reportCompressionFailure, hcb, halive, hlen]
    · have hcb1 : s1.mProgressCallback = false := by simpa using hcb
      refine ⟨{ reportCompressionFailure s1 ⟨task, []⟩ with
          producers := s1.producers.set i ProducerPc.aborted }, ?_, ?_⟩
      · simp [step, halive, stepAlive, hpc, ProducerThread, hcb1, reportCompressionFailure]
      · simp [reportCompressionFailure, hcb1, hlen, step]

/-- Witness for `compression_failure_without_callback`: the caller passes no
callback, the first block compresses to nothing, and producer `0` reaches the
compression-failure branch before the constructor has run its last statement. -/
theorem compression_failure_without_callback_witness :
    run cfgNoCallback (State.init cfgNoCallback emptyFirst)
        [Action.producer 0, Action.producer 0] = some beforeAbort ∧
      beforeAbort.mProgressCallback = false ∧
      run cfgNoCallback beforeAbort [Action.producer 0] = some afterAbort ∧
      afterAbort.mProgressData.FailedBlocks = 1 ∧ afterAbort.progressCalls = [] ∧
      afterAbort.terminated = true ∧
      ∃ s2, step cfgNoCallback beforeAbort (Action.producer 0) = some s2 ∧
        s2.mProgressData.FailedBlocks = beforeAbort.mProgressData.FailedBlocks + 1 :=
  ⟨by decide, by decide, by decide, by decide, by decide, by decide,
    (((compression_failure_without_callback cfgNoCallback (State.init cfgNoCallback emptyFirst)
      ⟨0, 0⟩ 0 (by decide) (by decide) (by decide)).2 beforeAbort (by decide) (by decide)).imp
      (fun _ hs2 => ⟨hs2.1, hs2.2.1⟩))⟩

/-- C10: in every reachable state `UploadedBlocks + FailedBlocks ≤ TotalBlocks`,
and `TotalBlocks` is the number of submitted tasks (`RING_BUFFER_SIZE > 0`; the
uploader invokes each completion callback at most once). -/
theorem outcomes_bounded_by_total (cfg : Config) (uploadTasks : List BlockUploadTask)
    (s : State) (hK : 0 < cfg.RING_BUFFER_SIZE) (h : Reachable cfg uploadTasks s) :
    s.mProgressData.TotalBlocks = uploadTasks.length ∧
      s.mProgressData.UploadedBlocks + s.mProgressData.FailedBlocks
        ≤ s.mProgressData.TotalBlocks := by
  obtain ⟨schedule, hrun⟩ := h
  obtain ⟨_, h2, _, _, h5, _, h6⟩ :=
    run_invariant cfg (CountInv cfg uploadTasks.length)
      (CountInv_step cfg uploadTasks.length) schedule _ s (CountInv_init cfg uploadTasks hK) hrun
  unfold accounted at h5
  exact ⟨h2, by omega⟩

/-- Witness for `outcomes_bounded_by_total`: one upload done, one block failed,
one dropped. -/
theorem outcomes_bounded_by_total_witness :
    (0 < cfg0.RING_BUFFER_SIZE ∧ Reachable cfg0 tasks0 cancelledMidway) ∧
    (cancelledMidway.mProgressData.TotalBlocks = tasks0.length ∧
      cancelledMidway.mProgressData.UploadedBlocks + cancelledMidway.mProgressData.FailedBlocks
        ≤ cancelledMidway.mProgressData.TotalBlocks) :=
  ⟨⟨by decide, ⟨cancelledMidwaySchedule, by decide⟩⟩,
    outcomes_bounded_by_total cfg0 tasks0 cancelledMidway (by decide)
      ⟨cancelledMidwaySchedule, by decide⟩⟩

/-- The wait predicates evaluated in a stopped pipeline: once `mIsRunning` is
false, whatever the indices and the permit count are, a caller that evaluates the
predicate of `PushBlockToQueue`, `PopBlockFromQueue` or `ConsumeBlock` finds it
true and the function returns at once with the state unchanged: nothing is
written to the ring buffer, no index moves, no permit is taken and no upload is
started; `PopBlockFromQueue` returns the empty item. A caller asleep in `wait`
evaluates nothing. -/
theorem stopped_waits_return (cfg : Config) (s : State) (item : ProducedItem)
    (h : s.mIsRunning = false) :
    PushBlockToQueue cfg s item = some s ∧
      PopBlockFromQueue cfg s = some (s, default) ∧
      ConsumeBlock_acquire cfg s = some (s, false) ∧
      ConsumeBlock cfg s item = some s := by
  simp [PushBlockToQueue, PopBlockFromQueue, ConsumeBlock_acquire, ConsumeBlock, h]

/-- Witness for `stopped_waits_return`: a stopped pipeline whose ring is full and
whose permits are all taken. -/
theorem stopped_waits_return_witness :
    stoppedFull.mIsRunning = false ∧
      (PushBlockToQueue cfg0 stoppedFull ⟨⟨1, 1⟩, [1]⟩ = some stoppedFull ∧
        PopBlockFromQueue cfg0 stoppedFull = some (stoppedFull, default) ∧
        ConsumeBlock_acquire cfg0 stoppedFull = some (stoppedFull, false) ∧
        ConsumeBlock cfg0 stoppedFull ⟨⟨1, 1⟩, [1]⟩ = some stoppedFull) :=
  ⟨rfl, stopped_waits_return cfg0 stoppedFull ⟨⟨1, 1⟩, [1]⟩ rfl⟩

theorem mem_set_cases {α : Type} (l : List α) (i : Nat) (x y : α) (h : y ∈ l.set i x) :
    y = x ∨ y ∈ l := by
  induction l generalizing i with
  | nil => simp at h
  | cons a as ih =>
    cases i with
    | zero =>
      simp only [List.set_cons_zero, List.mem_cons] at h
      rcases h with h | h
      · exact Or.inl h
      · exact Or.inr (List.mem_cons_of_mem _ h)
    | succ j =>
      simp only [List.set_cons_succ, List.mem_cons] at h
      rcases h with h | h
      · exact Or.inr (by simp [h])
      · rcases ih j h with h1 | h1
        · exact Or.inl h1
        · exact Or.inr (List.mem_cons_of_mem _ h1)

theorem ClaimInv_init (cfg : Config) (tasks : List BlockUploadTask) :
    ClaimInv tasks (State.init cfg tasks) := by
  refine ⟨rfl, Nat.zero_le _, ?_⟩
  intro _ pc hpc hex
  simp only [State.init, List.mem_replicate] at hpc
  rw [hpc.2] at hex
  cases hex

theorem ClaimInv_step (cfg : Config) (tasks : List BlockUploadTask) (s : State) (a : Action)
    (s1 : State) (hinv : ClaimInv tasks s) (h : step cfg s a = some s1) :
    ClaimInv tasks s1 := by
  obtain ⟨h1, h2, h3⟩ := hinv
  have hs := step_sound cfg s a s1 h
  have keep : ∀ (i : Nat) (pc1 : ProducerPc), pc1 ≠ ProducerPc.exited →
      s.mIsRunning = true → ∀ pc ∈ s.producers.set i pc1, pc = ProducerPc.exited →
        tasks.length ≤ s.mFirstUnprocessedBlockIndex := by
    intro i pc1 hne hr pc hpc hex
    rcases mem_set_cases _ _ _ _ hpc with hp | hp
    · exact absurd (hp ▸ hex) hne
    · exact h3 hr pc hp hex
  cases hs with
  | destroy => exact ⟨h1, h2, by simp⟩
  | producerEnter i hpc hrun => exact ⟨h1, h2, keep i _ (by simp)⟩
  | producerStop i hpc hrun => exact ⟨h1, h2, fun hr => by simp [hrun] at hr⟩
  | producerDone i hpc hfree hall =>
    refine ⟨h1, h2, ?_⟩
    intro _ _ _ _
    rw [h1] at hall
    exact hall
  | producerEmpty i task hpc hfree hlt htask hdata =>
    rw [h1] at hlt
    refine ⟨h1, hlt, ?_⟩
    intro hr pc hp hex
    have := keep i _ (by simp) hr pc hp hex
    omega
  | producerReport i item hpc hcb => exact ⟨h1, h2, keep i _ (by simp)⟩
  | producerAbort i item hpc hcb => exact ⟨h1, h2, keep i _ (by simp)⟩
  | construct hcb => exact ⟨h1, h2, h3⟩
  | producerClaim i task hpc hfree hlt htask hdata =>
    rw [h1] at hlt
    refine ⟨h1, hlt, ?_⟩
    intro hr pc hp hex
    have := keep i _ (by simp) hr pc hp hex
    omega
  | producerPush i item hpc hrun hroom => exact ⟨h1, h2, keep i _ (by simp)⟩
  | producerDrop i item hpc hrun => exact ⟨h1, h2, fun hr => by simp [hrun] at hr⟩
  | consumerEnter hpc hrun => exact ⟨h1, h2, h3⟩
  | consumerStop hpc hrun => exact ⟨h1, h2, h3⟩
  | consumerPop hpc hrun hne => exact ⟨h1, h2, h3⟩
  | consumerPopNothing hpc hrun => exact ⟨h1, h2, h3⟩
  | consumerAcquire item hpc hrun hpermit => exact ⟨h1, h2, h3⟩
  | consumerUpload item hpc => exact ⟨h1, h2, h3⟩
  | consumerDrop item hpc hrun => exact ⟨h1, h2, h3⟩
  | completeOk k result item hk hcode => exact ⟨h1, h2, h3⟩
  | completeFailed k result item hk hcode => exact ⟨h1, h2, h3⟩
  | release hpos => exact ⟨h1, h2, h3⟩

theorem claimedIndex_step (cfg : Config) (s : State) (a : Action) (s1 : State)
    (h : step cfg s a = some s1) :
    (claimedIndex cfg s a = none ∧
        s1.mFirstUnprocessedBlockIndex = s.mFirstUnprocessedBlockIndex) ∨
      (claimedIndex cfg s a = some s.mFirstUnprocessedBlockIndex ∧
        s1.mFirstUnprocessedBlockIndex = s.mFirstUnprocessedBlockIndex + 1 ∧
        s.mFirstUnprocessedBlockIndex < s.mUploadTasks.length ∧
        ∃ i, a = Action.producer i ∧ s.producers[i]? = some ProducerPc.lockWait) := by
  have hs := step_sound cfg s a s1 h
  unfold claimedIndex
  rw [h]
  cases hs with
  | producerEmpty i task hpc hfree hlt htask hdata =>
    exact Or.inr ⟨by simp, rfl, hlt, i, rfl, hpc⟩
  | producerClaim i task hpc hfree hlt htask hdata =>
    exact Or.inr ⟨by simp, rfl, hlt, i, rfl, hpc⟩
  | _ => exact Or.inl ⟨by simp, rfl⟩

theorem claimLog_run (cfg : Config) (schedule : List Action) :
    ∀ (s s1 : State), run cfg s schedule = some s1 →
      s.mFirstUnprocessedBlockIndex ≤ s1.mFirstUnprocessedBlockIndex ∧
      claimLog cfg s schedule =
        List.range' s.mFirstUnprocessedBlockIndex
          (s1.mFirstUnprocessedBlockIndex - s.mFirstUnprocessedBlockIndex) := by
  induction schedule with
  | nil =>
    intro s s1 h
    simp only [run, Option.some.injEq] at h
    subst h
    simp [claimLog]
  | cons a rest ih =>
    intro s s1 h
    simp only [run] at h
    cases hst : step cfg s a with
    | none => simp [hst] at h
    | some s2 =>
      simp only [hst] at h
      obtain ⟨hle, hlog⟩ := ih s2 s1 h
      simp only [claimLog, hst, hlog]
      rcases claimedIndex_step cfg s a s2 hst with ⟨hc, hf⟩ | ⟨hc, hf, _, _⟩
      · rw [hc, ← hf]
        exact ⟨hle, by simp⟩
      · rw [hc, hf]
        refine ⟨by omega, ?_⟩
        have : s1.mFirstUnprocessedBlockIndex - s.mFirstUnprocessedBlockIndex
            = (s1.mFirstUnprocessedBlockIndex - (s.mFirstUnprocessedBlockIndex + 1)) + 1 := by
          omega
        rw [this, List.range'_succ]
        simp

/-- C12: along every schedule the indices claimed from
`mFirstUnprocessedBlockIndex` are `0, 1, 2, ...` in this order, so none is claimed
twice, and each is below the number `N` of tasks. While the pipeline is running a
producer has exited only when all of `0 .. N-1` have been claimed. Once `N`
indices are claimed no step claims another, and a producer that takes
`mBlocksMutex` returns from `ProducerThread`. -/
theorem claims_exactly_once (cfg : Config) (uploadTasks : List BlockUploadTask)
    (schedule : List Action) (s : State)
    (hrun : run cfg (State.init cfg uploadTasks) schedule = some s) :
    claimLog cfg (State.init cfg uploadTasks) schedule
        = List.range s.mFirstUnprocessedBlockIndex ∧
      s.mFirstUnprocessedBlockIndex ≤ uploadTasks.length ∧
      (∀ k ∈ claimLog cfg (State.init cfg uploadTasks) schedule, k < uploadTasks.length) ∧
      (claimLog cfg (State.init cfg uploadTasks) schedule).Nodup ∧
      (s.mIsRunning = true → (∃ pc ∈ s.producers, pc = ProducerPc.exited) →
        claimLog cfg (State.init cfg uploadTasks) schedule = List.range uploadTasks.length) ∧
      (s.mFirstUnprocessedBlockIndex = uploadTasks.length →
        ∀ a s1, step cfg s a = some s1 →
          claimedIndex cfg s a = none ∧
          ∀ i, a = Action.producer i → s.producers[i]? = some ProducerPc.lockWait →
            s1.producers[i]? = some ProducerPc.exited) := by
  obtain ⟨_, hlog⟩ := claimLog_run cfg schedule _ s hrun
  obtain ⟨htasks, hle, hexit⟩ := run_invariant cfg (ClaimInv uploadTasks)
    (ClaimInv_step cfg uploadTasks) schedule _ s (ClaimInv_init cfg uploadTasks) hrun
  have hlog1 : claimLog cfg (State.init cfg uploadTasks) schedule
      = List.range s.mFirstUnprocessedBlockIndex := by
    rw [hlog]
    simp [State.init, List.range_eq_range']
  refine ⟨hlog1, hle, ?_, ?_, ?_, ?_⟩
  · intro k hk
    rw [hlog1, List.mem_range] at hk
    omega
  · rw [hlog1]
    exact List.nodup_range _
  · intro hr ⟨pc, hpc, hex⟩
    have := hexit hr pc hpc hex
    have heq : s.mFirstUnprocessedBlockIndex = uploadTasks.length := by omega
    rw [hlog1, heq]
  · intro hall a s1 hst
    rcases claimedIndex_step cfg s a s1 hst with ⟨hc, _⟩ | ⟨_, _, hlt, _⟩
    · refine ⟨hc, ?_⟩
      intro i ha hpc
      subst ha
      have hs := step_sound cfg s _ s1 hst
      cases hs with
      | producerDone i hpc1 hfree hall1 =>
        have hlen : i < s.producers.length := (List.getElem?_eq_some_iff.mp hpc).1
        simp [List.getElem?_set, hlen]
      | producerEnter i hpc1 hrun => rw [hpc] at hpc1; cases hpc1
      | producerStop i hpc1 hrun => rw [hpc] at hpc1; cases hpc1
      | producerEmpty i task hpc1 hfree hlt htask hdata => rw [htasks] at hlt; omega
      | producerReport i item hpc1 => rw [hpc] at hpc1; cases hpc1
      | producerAbort i item hpc1 => rw [hpc] at hpc1; cases hpc1
      | producerClaim i task hpc1 hfree hlt htask hdata => rw [htasks] at hlt; omega
      | producerPush i item hpc1 hrun hroom => rw [hpc] at hpc1; cases hpc1
      | producerDrop i item hpc1 hrun => rw [hpc] at hpc1; cases hpc1
    · rw [htasks] at hlt
      omega

/-- Witness for `claims_exactly_once`: two producers over three tasks. -/
theorem claims_exactly_once_witness :
    run cfg0 (State.init cfg0 tasks0) allClaimedSchedule = some allClaimed ∧
      (claimLog cfg0 (State.init cfg0 tasks0) allClaimedSchedule
          = List.range allClaimed.mFirstUnprocessedBlockIndex ∧
        claimLog cfg0 (State.init cfg0 tasks0) allClaimedSchedule = List.range tasks0.length) :=
  ⟨by decide,
    (claims_exactly_once cfg0 tasks0 allClaimedSchedule allClaimed (by decide)).1,
    (claims_exactly_once cfg0 tasks0 allClaimedSchedule allClaimed (by decide)).2.2.2.2.1 rfl
      ⟨ProducerPc.exited, by decide, rfl⟩⟩

theorem failures_run (cfg : Config) (schedule : List Action) :
    ∀ (s s1 : State), run cfg s schedule = some s1 →
      s1.mProgressData.FailedBlocks + s.mProgressData.UploadErrors.length
        = s.mProgressData.FailedBlocks + s1.mProgressData.UploadErrors.length
          + compressionFailures cfg s schedule := by
  induction schedule with
  | nil =>
    intro s s1 h
    simp only [run, Option.some.injEq] at h
    subst h
    simp [compressionFailures]
  | cons a rest ih =>
    intro s s1 h
    simp only [run] at h
    cases hst : step cfg s a with
    | none => simp [hst] at h
    | some s2 =>
      simp only [hst] at h
      have h2 := ih s2 s1 h
      simp only [compressionFailures, hst]
      have hs := step_sound cfg s a s2 hst
      have hstep : s2.mProgressData.FailedBlocks + s.mProgressData.UploadErrors.length
          = s.mProgressData.FailedBlocks + s2.mProgressData.UploadErrors.length
            + (if isCompressionFailure s a then 1 else 0) := by
        cases hs <;> simp_all [isCompressionFailure] <;> omega
      omega

/-- C17: in every reachable state `UploadErrors.size()` plus the number of
compression failures reported so far is `FailedBlocks`; so `UploadErrors.size()`
is at most `FailedBlocks`, with equality exactly when no compression failure was
reported. `HandleFailedBlock` appends one record and adds one to `FailedBlocks`;
the compression-failure branch adds one to `FailedBlocks` and appends nothing. -/
theorem failure_records (cfg : Config) (uploadTasks : List BlockUploadTask)
    (schedule : List Action) (s : State)
    (hrun : run cfg (State.init cfg uploadTasks) schedule = some s) :
    s.mProgressData.UploadErrors.length
        + compressionFailures cfg (State.init cfg uploadTasks) schedule
        = s.mProgressData.FailedBlocks ∧
      s.mProgressData.UploadErrors.length ≤ s.mProgressData.FailedBlocks ∧
      (s.mProgressData.UploadErrors.length = s.mProgressData.FailedBlocks ↔
        compressionFailures cfg (State.init cfg uploadTasks) schedule = 0) ∧
      (∀ (s0 : State) (result : ResponseResult) (task : BlockUploadTask),
        (HandleFailedBlock s0 result task).mProgressData.UploadErrors
            = s0.mProgressData.UploadErrors ++ [result] ∧
          (HandleFailedBlock s0 result task).mProgressData.FailedBlocks
            = s0.mProgressData.FailedBlocks + 1) ∧
      (∀ (s0 : State) (item : ProducedItem),
        (reportCompressionFailure s0 item).mProgressData.UploadErrors
            = s0.mProgressData.UploadErrors ∧
          (reportCompressionFailure s0 item).mProgressData.FailedBlocks
            = s0.mProgressData.FailedBlocks + 1) := by
  have h := failures_run cfg schedule _ s hrun
  simp only [State.init, List.length_nil, Nat.add_zero, Nat.zero_add] at h
  refine ⟨by simp only [State.init]; omega, by omega, ?_, ?_, ?_⟩
  · simp only [State.init]; omega
  · intro s0 result task
    simp [HandleFailedBlock, HandleFailedBlock_progress, releasePermit]
  · intro s0 item
    unfold reportCompressionFailure
    split_ifs <;> simp

/-- Witness for `failure_records`: one compression failure, no failed upload. -/
theorem failure_records_witness :
    run cfg0 (State.init cfg0 tasks0) cancelledMidwaySchedule = some cancelledMidway ∧
      (cancelledMidway.mProgressData.UploadErrors.length
          + compressionFailures cfg0 (State.init cfg0 tasks0) cancelledMidwaySchedule
          = cancelledMidway.mProgressData.FailedBlocks ∧
        compressionFailures cfg0 (State.init cfg0 tasks0) cancelledMidwaySchedule = 1) :=
  ⟨by decide,
    (failure_records cfg0 tasks0 cancelledMidwaySchedule cancelledMidway (by decide)).1,
    by decide⟩

theorem mod_add_ne (K r d : Nat) (hr : r < K) (hd : 0 < d) (hdK : d < K) :
    (r + d) % K ≠ r := by
  have h := mod_cases K (r + d) (by omega)
  rw [h]
  split_ifs <;> omega

theorem mod_add_occ (K r w : Nat) (hr : r < K) (hw : w < K) :
    (r + (w + K - r) % K) % K = w := by
  have h1 := mod_cases K (w + K - r) (by omega)
  rw [h1]
  split_ifs with h
  · have h2 := mod_cases K (r + (w + K - r)) (by omega)
    rw [h2]
    split_ifs <;> omega
  · have h2 := mod_cases K (r + (w + K - r - K)) (by omega)
    rw [h2]
    split_ifs <;> omega

theorem getD_set_ne (buffer : List ProducedItem) (p r : Nat) (x : ProducedItem)
    (h : p ≠ r) : (buffer.set p x).getD r default = buffer.getD r default := by
  simp [List.getD_eq_getElem?_getD, List.getElem?_set_ne h]

theorem getD_set_self (buffer : List ProducedItem) (p : Nat) (x : ProducedItem)
    (h : p < buffer.length) : (buffer.set p x).getD p default = x := by
  simp [List.getD_eq_getElem?_getD, List.getElem?_set_self, h]

theorem ringContents_length (cfg : Config) (buffer : List ProducedItem) (n : Nat) :
    ∀ r, (ringContents cfg buffer r n).length = n := by
  induction n with
  | zero => intro r; rfl
  | succ n ih => intro r; simp [ringContents, ih]

theorem ringContents_set_skip (cfg : Config) (buffer : List ProducedItem) (p : Nat)
    (x : ProducedItem) (n : Nat) :
    ∀ r, r < cfg.RING_BUFFER_SIZE → (∀ j, j < n → (r + j) % cfg.RING_BUFFER_SIZE ≠ p) →
      ringContents cfg (buffer.set p x) r n = ringContents cfg buffer r n := by
  induction n with
  | zero => intro r _ _; rfl
  | succ n ih =>
    intro r hr hskip
    have hK : 0 < cfg.RING_BUFFER_SIZE := by omega
    have h0 : p ≠ r := by
      have := hskip 0 (by omega)
      rw [Nat.add_zero, Nat.mod_eq_of_lt hr] at this
      exact fun h => this h.symm
    simp only [ringContents, getD_set_ne _ _ _ _ h0]
    rw [ih ((r + 1) % cfg.RING_BUFFER_SIZE) (Nat.mod_lt _ hK)]
    intro j hj
    have := hskip (j + 1) (by omega)
    rw [Nat.mod_add_mod]
    rwa [Nat.add_assoc, Nat.add_comm 1 j]

theorem ringContents_push (cfg : Config) (buffer : List ProducedItem) (item : ProducedItem)
    (hlen : buffer.length = cfg.RING_BUFFER_SIZE) (n : Nat) :
    ∀ r, r < cfg.RING_BUFFER_SIZE → n < cfg.RING_BUFFER_SIZE →
      ringContents cfg (buffer.set ((r + n) % cfg.RING_BUFFER_SIZE) item) r (n + 1)
        = ringContents cfg buffer r n ++ [item] := by
  induction n with
  | zero =>
    intro r hr _
    simp only [ringContents, Nat.add_zero, Nat.mod_eq_of_lt hr, List.nil_append]
    rw [getD_set_self _ _ _ (by omega)]
  | succ n ih =>
    intro r hr h2
    have hK : 0 < cfg.RING_BUFFER_SIZE := by omega
    have hne : (r + (n + 1)) % cfg.RING_BUFFER_SIZE ≠ r :=
      mod_add_ne _ r (n + 1) hr (by omega) h2
    have hidx : (r + (n + 1)) % cfg.RING_BUFFER_SIZE
        = ((r + 1) % cfg.RING_BUFFER_SIZE + n) % cfg.RING_BUFFER_SIZE := by
      rw [Nat.mod_add_mod, Nat.add_assoc, Nat.add_comm 1 n]
    rw [ringContents, getD_set_ne _ _ _ _ hne, hidx,
      ih ((r + 1) % cfg.RING_BUFFER_SIZE) (Nat.mod_lt _ hK) (by omega)]
    simp [ringContents]

theorem FifoInv_step (cfg : Config) (t : RingTrace) (op : RingOp) (t1 : RingTrace)
    (hinv : FifoInv cfg t) (h : ringStep cfg t op = some t1) : FifoInv cfg t1 := by
  obtain ⟨hring, hlen, hq⟩ := hinv
  have hring1 := RingInv_step cfg t op t1 hring h
  obtain ⟨h1, h2, h3⟩ := hring
  have hK : 0 < cfg.RING_BUFFER_SIZE := by omega
  refine ⟨hring1, ?_, ?_⟩
  · cases op with
    | push item =>
      simp only [ringStep, PushBlockToQueue] at h
      split_ifs at h <;> simp at h <;> subst h <;> simp [hlen]
    | pop =>
      simp only [ringStep, PopBlockFromQueue] at h
      split_ifs at h <;> simp at h <;> subst h <;> simp [hlen]
    | stop =>
      simp only [ringStep, Option.some.injEq] at h
      subst h
      exact hlen
  · unfold queued occupancy at *
    cases op with
    | push item =>
      simp only [ringStep, PushBlockToQueue] at h
      by_cases hr : t.state.mIsRunning = true
      · by_cases hroom : (t.state.mRingBufferWriteIndex + 1) % cfg.RING_BUFFER_SIZE
            ≠ t.state.mRingBufferReadIndex
        · simp [hr, hroom] at h
          subst h
          have hocc := occ_push cfg.RING_BUFFER_SIZE _ _ h2 h1 hroom
          have hlt := Nat.mod_lt ((t.state.mRingBufferWriteIndex + 1) % cfg.RING_BUFFER_SIZE
            + cfg.RING_BUFFER_SIZE - t.state.mRingBufferReadIndex) hK
          have hw := mod_add_occ cfg.RING_BUFFER_SIZE _ _ h1 h2
          simp only [hocc]
          have hpush := ringContents_push cfg t.state.mRingBuffer item hlen
            ((t.state.mRingBufferWriteIndex + cfg.RING_BUFFER_SIZE
              - t.state.mRingBufferReadIndex) % cfg.RING_BUFFER_SIZE)
            t.state.mRingBufferReadIndex h1 (by omega)
          rw [hw] at hpush
          rw [hpush, hq]
          simp
        · simp [hr, hroom] at h
      · have hr1 : t.state.mIsRunning = false := by simpa using hr
        simp [hr1] at h
        subst h
        simpa [hr1] using hq
    | pop =>
      simp only [ringStep, PopBlockFromQueue] at h
      by_cases hr : t.state.mIsRunning = true
      · by_cases hne : t.state.mRingBufferWriteIndex ≠ t.state.mRingBufferReadIndex
        · simp [hr, hne] at h
          subst h
          have hocc := occ_pop cfg.RING_BUFFER_SIZE _ _ h2 h1 hne
          have hlt := Nat.mod_lt (t.state.mRingBufferWriteIndex + cfg.RING_BUFFER_SIZE
            - t.state.mRingBufferReadIndex) hK
          rw [← hocc, ringContents] at hq
          simp only
          rw [ringContents_set_skip cfg _ _ _ _ _ (Nat.mod_lt _ hK)]
          · rw [hq]
            simp
          · intro j hj
            rw [Nat.mod_add_mod, Nat.add_assoc]
            exact mod_add_ne _ _ _ h1 (by omega) (by omega)
        · simp [hr, hne] at h
      · have hr1 : t.state.mIsRunning = false := by simpa using hr
        simp [hr1] at h
        subst h
        simpa [hr1] using hq
    | stop =>
      simp only [ringStep, Option.some.injEq] at h
      subst h
      exact hq

theorem FifoInv_run (cfg : Config) (ops : List RingOp) :
    ∀ (t t1 : RingTrace), FifoInv cfg t → ringRun cfg t ops = some t1 → FifoInv cfg t1 := by
  induction ops with
  | nil =>
    intro t t1 ht h
    simp [ringRun] at h
    exact h ▸ ht
  | cons op rest ih =>
    intro t t1 ht h
    simp only [ringRun] at h
    cases hst : ringStep cfg t op with
    | none => simp [hst] at h
    | some t2 =>
      simp only [hst] at h
      exact ih t2 t1 (FifoInv_step cfg t op t2 ht hst) h

/-- C13: after any sequence of `PushBlockToQueue` and `PopBlockFromQueue` calls
from the empty buffer (`RING_BUFFER_SIZE > 0`), the items popped so far are a
prefix of the items pushed so far, and the pushed items not yet popped are
exactly the items in the slots from the read index to the write index, in the
order they were pushed: none is popped twice, lost or overwritten. -/
theorem pops_in_arrival_order (cfg : Config) (uploadTasks : List BlockUploadTask)
    (ops : List RingOp) (t : RingTrace) (hK : 0 < cfg.RING_BUFFER_SIZE)
    (h : ringRun cfg ⟨State.init cfg uploadTasks, [], []⟩ ops = some t) :
    t.popped <+: t.pushed ∧
      t.pushed = t.popped ++ queued cfg t.state ∧
      (queued cfg t.state).length = occupancy cfg t.state := by
  have h0 : FifoInv cfg ⟨State.init cfg uploadTasks, [], []⟩ := by
    refine ⟨by simp [RingInv, State.init, occupancy, hK], by simp [State.init], ?_⟩
    simp [queued, occupancy, State.init, ringContents]
  obtain ⟨_, _, hq⟩ := FifoInv_run cfg ops _ t h0 h
  exact ⟨⟨queued cfg t.state, hq.symm⟩, hq, ringContents_length cfg _ _ _⟩

/-- Witness for `pops_in_arrival_order`: two pushes and a pop on a ring of 4. -/
theorem pops_in_arrival_order_witness :
    (0 < cfg0.RING_BUFFER_SIZE ∧
      ringRun cfg0 ⟨State.init cfg0 tasks0, [], []⟩ ringExampleOps = some ringExampleTrace) ∧
    (ringExampleTrace.popped <+: ringExampleTrace.pushed ∧
      ringExampleTrace.pushed
        = ringExampleTrace.popped ++ queued cfg0 ringExampleTrace.state) :=
  ⟨⟨by decide, by decide⟩,
    let h := pops_in_arrival_order cfg0 tasks0 ringExampleOps ringExampleTrace (by decide)
      (by decide)
    ⟨h.1, h.2.1⟩⟩

theorem SuccessInv_step (cfg : Config) (tasks : List BlockUploadTask)
    (hcompress : ∀ task ∈ tasks, cfg.CompressBlock task.Block ≠ [])
    (s : State) (a : Action) (s1 : State) (ha : a.succeeds = true)
    (hinv : SuccessInv tasks s) (h : step cfg s a = some s1) : SuccessInv tasks s1 := by
  obtain ⟨h1, h2, h3, h4, h5⟩ := hinv
  have hs := step_sound cfg s a s1 h
  have keep : ∀ (i : Nat) (pc1 : ProducerPc), (∀ item, pc1 ≠ ProducerPc.reporting item) →
      ∀ pc ∈ s.producers.set i pc1, ∀ item, pc ≠ ProducerPc.reporting item := by
    intro i pc1 hne pc hpc item
    rcases mem_set_cases _ _ _ _ hpc with hp | hp
    · rw [hp]; exact hne item
    · exact h5 pc hp item
  cases hs with
  | destroy => simp [Action.succeeds] at ha
  | producerEnter i hpc hrun => exact ⟨h1, h2, h3, h4, keep i _ (by simp)⟩
  | producerStop i hpc hrun => exact ⟨h1, h2, h3, h4, keep i _ (by simp)⟩
  | producerDone i hpc hfree hall => exact ⟨h1, h2, h3, h4, keep i _ (by simp)⟩
  | producerEmpty i task hpc hfree hlt htask hdata =>
    rw [h2] at htask
    exact absurd hdata (hcompress task (List.getElem?_mem htask))
  | producerReport i item hpc => exact absurd rfl (h5 _ (List.getElem?_mem hpc) item)
  | producerAbort i item hpc => exact absurd rfl (h5 _ (List.getElem?_mem hpc) item)
  | construct hcb => exact ⟨h1, h2, h3, h4, h5⟩
  | producerClaim i task hpc hfree hlt htask hdata =>
    exact ⟨h1, h2, h3, h4, keep i _ (by simp)⟩
  | producerPush i item hpc hrun hroom => exact ⟨h1, h2, h3, h4, keep i _ (by simp)⟩
  | producerDrop i item hpc hrun => exact ⟨h1, h2, h3, h4, keep i _ (by simp)⟩
  | consumerEnter hpc hrun => exact ⟨h1, h2, h3, h4, h5⟩
  | consumerStop hpc hrun => exact ⟨h1, h2, h3, h4, h5⟩
  | consumerPop hpc hrun hne => exact ⟨h1, h2, h3, h4, h5⟩
  | consumerPopNothing hpc hrun => exact ⟨h1, h2, h3, h4, h5⟩
  | consumerAcquire item hpc hrun hpermit => exact ⟨h1, h2, h3, h4, h5⟩
  | consumerUpload item hpc => exact ⟨h1, h2, h3, h4, h5⟩
  | consumerDrop item hpc hrun => exact ⟨h1, h2, h3, h4, h5⟩
  | completeOk k result item hk hcode => exact ⟨h1, h2, h3, h4, h5⟩
  | completeFailed k result item hk hcode => simp [Action.succeeds, hcode] at ha
  | release hpos => exact ⟨h1, h2, h3, h4, h5⟩

theorem SuccessInv_run (cfg : Config) (tasks : List BlockUploadTask)
    (hcompress : ∀ task ∈ tasks, cfg.CompressBlock task.Block ≠ [])
    (schedule : List Action) :
    ∀ (s s1 : State), (∀ a ∈ schedule, a.succeeds = true) → SuccessInv tasks s →
      run cfg s schedule = some s1 → SuccessInv tasks s1 := by
  induction schedule with
  | nil =>
    intro s s1 _ hs h
    simp [run] at h
    exact h ▸ hs
  | cons a rest ih =>
    intro s s1 hall hs h
    simp only [run] at h
    cases hst : step cfg s a with
    | none => simp [hst] at h
    | some s2 =>
      simp only [hst] at h
      exact ih s2 s1 (fun b hb => hall b (List.mem_cons_of_mem _ hb))
        (SuccessInv_step cfg tasks hcompress s a s2 (hall a (List.mem_cons_self _ _)) hs hst) h

/-- C14: take `N` tasks whose blocks all compress to a non-empty payload and a
schedule without cancellation in which every upload completes with `Success`
(`RING_BUFFER_SIZE > 0`). Once every task has been produced, consumed and
completed, the progress state is `{TotalBlocks: N, UploadedBlocks: N,
FailedBlocks: 0}` with no upload error recorded. -/
theorem all_blocks_uploaded (cfg : Config) (uploadTasks : List BlockUploadTask)
    (schedule : List Action) (s : State) (hK : 0 < cfg.RING_BUFFER_SIZE)
    (hcompress : ∀ task ∈ uploadTasks, cfg.CompressBlock task.Block ≠ [])
    (hclean : ∀ a ∈ schedule, a.succeeds = true)
    (hrun : run cfg (State.init cfg uploadTasks) schedule = some s)
    (hdone : drained s) :
    s.mProgressData =
      { TotalBlocks := uploadTasks.length, UploadedBlocks := uploadTasks.length,
        FailedBlocks := 0, UploadErrors := [] } := by
  obtain ⟨hr, htasks, hfailed, herrors, _⟩ :=
    SuccessInv_run cfg uploadTasks hcompress schedule _ s hclean
      ⟨rfl, rfl, rfl, rfl, by
        intro pc hpc item
        simp only [State.init, List.mem_replicate] at hpc
        rw [hpc.2]
        simp⟩ hrun
  obtain ⟨_, htotal, hri, hwi, _, heq, _⟩ :=
    run_invariant cfg (CountInv cfg uploadTasks.length)
      (CountInv_step cfg uploadTasks.length) schedule _ s (CountInv_init cfg uploadTasks hK) hrun
  obtain ⟨hfirst, hprod, hring, hcons, hflight⟩ := hdone
  have hacc := heq hr
  have hpush : pushingCount s = 0 := by
    unfold pushingCount
    rw [List.countP_eq_zero]
    intro pc hpc
    simp [hprod pc hpc]
  have hhold : holding s = 0 := by
    unfold holding
    rcases hcons with hc | hc | hc <;> simp [hc]
  have hocc : occupancy cfg s = 0 := by
    unfold occupancy
    rw [hring]
    have : s.mRingBufferReadIndex + cfg.RING_BUFFER_SIZE - s.mRingBufferReadIndex
        = cfg.RING_BUFFER_SIZE := by omega
    rw [this, Nat.mod_self]
  unfold accounted at hacc
  rw [hpush, hhold, hocc, hflight, hfailed, hfirst, htasks] at hacc
  simp only [List.length_nil, Nat.add_zero] at hacc
  cases hp : s.mProgressData with
  | mk total uploaded failed errors =>
    rw [hp] at htotal hfailed herrors hacc
    simp only at htotal hfailed herrors hacc
    rw [htotal, hfailed, herrors, hacc]

/-- Witness for `all_blocks_uploaded`: 10 tasks, ring of 4, 2 producers, 3
uploaders. -/
theorem all_blocks_uploaded_witness :
    (0 < cfg10.RING_BUFFER_SIZE ∧
      (∀ task ∈ tasks10, cfg10.CompressBlock task.Block ≠ []) ∧
      (∀ a ∈ tenBlocksSchedule, a.succeeds = true) ∧
      run cfg10 (State.init cfg10 tasks10) tenBlocksSchedule = some tenBlocksDone ∧
      drained tenBlocksDone) ∧
    tenBlocksDone.mProgressData =
      { TotalBlocks := 10, UploadedBlocks := 10, FailedBlocks := 0, UploadErrors := [] } :=
  ⟨⟨by decide, by decide, by decide, by decide, ⟨by decide, by decide, by decide, by decide,
      by decide⟩⟩,
    all_blocks_uploaded cfg10 tasks10 tenBlocksSchedule tenBlocksDone (by decide) (by decide)
      (by decide) (by decide)
      ⟨by decide, by decide, by decide, by decide, by decide⟩⟩

theorem step_keeps_consumer (cfg : Config) (s : State) (a : Action) (s1 : State)
    (ha : a ≠ Action.consumer) (h : step cfg s a = some s1) :
    s1.consumer = s.consumer ∧ (s.mIsRunning = false → s1.mIsRunning = false) := by
  have hs := step_sound cfg s a s1 h
  cases hs <;> first | exact absurd rfl ha | exact ⟨rfl, fun h => h⟩ | exact ⟨rfl, fun _ => rfl⟩

theorem notifyNotEmpty_base (c : CvState) : (notifyNotEmpty c).base = c.base := by
  simp only [notifyNotEmpty]
  split <;> rfl

theorem notifyNotFull_base (c : CvState) : (notifyNotFull c).base = c.base := rfl

theorem notifyUploads_base (c : CvState) : (notifyUploads c).base = c.base := by
  simp only [notifyUploads]
  split <;> rfl

theorem cvStep_alive (cfg : Config) (c : CvState) (a : CvAction) (c1 : CvState)
    (h : cvStep cfg c a = some c1) :
    c.base.terminated = false ∧ cvStepAlive cfg c a = some c1 := by
  unfold cvStep at h
  by_cases ht : c.base.terminated = true
  · simp [ht] at h
  · have ht1 : c.base.terminated = false := by simpa using ht
    simp only [ht1, Bool.false_eq_true, if_false] at h
    exact ⟨ht1, h⟩

theorem cvStep_base (cfg : Config) (c : CvState) (a : CvAction) (c1 : CvState)
    (h : cvStep cfg c a = some c1) :
    c1.base = c.base ∨ ∃ b, step cfg c.base b = some c1.base := by
  replace h := (cvStep_alive cfg c a c1 h).2
  cases a with
  | construct =>
    simp only [cvStepAlive] at h
    cases hst : step cfg c.base Action.construct with
    | none => simp [hst] at h
    | some s1 =>
      simp only [hst, Option.some.injEq] at h
      subst h
      exact Or.inr ⟨_, hst⟩
  | destructor =>
    simp only [cvStepAlive, destructorStep] at h
    split at h
    · cases hst : step cfg c.base Action.destroy with
      | none => simp [hst] at h
      | some s1 =>
        simp only [hst, Option.some.injEq] at h
        subst h
        exact Or.inr ⟨_, hst⟩
    · simp only [Option.some.injEq] at h
      subst h
      exact Or.inl (notifyNotEmpty_base c)
    · simp only [Option.some.injEq] at h
      subst h
      exact Or.inl rfl
    · simp only [Option.some.injEq] at h
      subst h
      exact Or.inl (notifyUploads_base c)
    · split_ifs at h
      simp only [Option.some.injEq] at h
      subst h
      exact Or.inl rfl
    · simp at h
  | producer i =>
    simp only [cvStepAlive, cvProducer] at h
    cases hst : step cfg c.base (Action.producer i) with
    | none =>
      simp only [hst] at h
      split at h
      · simp at h
      · simp at h
      · simp only [Option.some.injEq] at h
        subst h
        exact Or.inl rfl
      · split at h
        · split_ifs at h
          simp only [Option.some.injEq] at h
          subst h
          exact Or.inl rfl
        · simp at h
    | some s1 =>
      simp only [hst] at h
      split at h
      · simp at h
      · simp at h
      · simp only [Option.some.injEq] at h
        subst h
        exact Or.inl rfl
      · split at h
        · split_ifs at h
          · simp only [Option.some.injEq] at h
            subst h
            exact Or.inr ⟨Action.producer i, by rw [notifyNotEmpty_base]; exact hst⟩
          · simp only [Option.some.injEq] at h
            subst h
            exact Or.inr ⟨Action.producer i, hst⟩
        · simp only [Option.some.injEq] at h
          subst h
          exact Or.inr ⟨Action.producer i, hst⟩
  | consumer =>
    simp only [cvStepAlive, cvConsumer] at h
    cases hst : step cfg c.base Action.consumer with
    | none =>
      simp only [hst] at h
      split at h
      · simp at h
      · simp only [Option.some.injEq] at h
        subst h
        exact Or.inl rfl
      · split at h
        · split_ifs at h
          simp only [Option.some.injEq] at h
          subst h
          exact Or.inl rfl
        · simp only [Option.some.injEq] at h
          subst h
          exact Or.inl rfl
        · simp at h
    | some s1 =>
      simp only [hst] at h
      split at h
      · simp at h
      · simp only [Option.some.injEq] at h
        subst h
        exact Or.inl rfl
      · split at h
        · split_ifs at h
          · simp only [Option.some.injEq] at h
            subst h
            exact Or.inr ⟨Action.consumer, hst⟩
          · simp only [Option.some.injEq] at h
            subst h
            exact Or.inr ⟨Action.consumer, hst⟩
        · simp only [Option.some.injEq] at h
          subst h
          exact Or.inr ⟨Action.consumer, hst⟩
        · simp only [Option.some.injEq] at h
          subst h
          exact Or.inr ⟨Action.consumer, hst⟩
  | complete k result =>
    simp only [cvStepAlive] at h
    cases hst : step cfg c.base (Action.complete k result) with
    | none => simp [hst] at h
    | some s1 =>
      simp only [hst, Option.some.injEq] at h
      subst h
      exact Or.inr ⟨_, hst⟩
  | release =>
    simp only [cvStepAlive] at h
    cases hst : step cfg c.base Action.release with
    | none =>
      simp only [hst] at h
      split_ifs at h
    | some s1 =>
      simp only [hst] at h
      split_ifs at h
      simp only [Option.some.injEq] at h
      subst h
      exact Or.inr ⟨Action.release, by rw [notifyUploads_base]; exact hst⟩

theorem Hung_step (cfg : Config) (c : CvState) (a : CvAction) (c1 : CvState)
    (hinv : Hung c) (h : cvStep cfg c a = some c1) : Hung c1 := by
  obtain ⟨h1, h2, h3, h4⟩ := hinv
  replace h := (cvStep_alive cfg c a c1 h).2
  cases a with
  | construct =>
    simp only [cvStepAlive] at h
    cases hst : step cfg c.base Action.construct with
    | none => simp [hst] at h
    | some s1 =>
      obtain ⟨hc, hr⟩ := step_keeps_consumer cfg _ _ _ (by simp) hst
      simp only [hst, Option.some.injEq] at h
      subst h
      exact ⟨hr h1, hc.trans h2, h3, h4⟩
  | destructor =>
    simp [cvStepAlive, destructorStep, h4, h2] at h
  | consumer =>
    simp [cvStepAlive, cvConsumer, h3] at h
  | producer i =>
    simp only [cvStepAlive, cvProducer] at h
    cases hst : step cfg c.base (Action.producer i) with
    | none =>
      simp only [hst] at h
      split at h
      · simp at h
      · simp at h
      · simp only [Option.some.injEq] at h
        subst h
        exact ⟨h1, h2, h3, h4⟩
      · split at h
        · split_ifs at h
          simp only [Option.some.injEq] at h
          subst h
          exact ⟨h1, h2, h3, h4⟩
        · simp at h
    | some s1 =>
      obtain ⟨hc, hr⟩ := step_keeps_consumer cfg _ _ _ (by simp) hst
      simp only [hst, h1, Bool.false_eq_true, if_false] at h
      split at h
      · simp at h
      · simp at h
      · simp only [Option.some.injEq] at h
        subst h
        exact ⟨h1, h2, h3, h4⟩
      · split at h
        · split_ifs at h
          simp only [Option.some.injEq] at h
          subst h
          exact ⟨hr h1, hc.trans h2, h3, h4⟩
        · simp only [Option.some.injEq] at h
          subst h
          exact ⟨hr h1, hc.trans h2, h3, h4⟩
  | complete k result =>
    simp only [cvStepAlive] at h
    cases hst : step cfg c.base (Action.complete k result) with
    | none => simp [hst] at h
    | some s1 =>
      obtain ⟨hc, hr⟩ := step_keeps_consumer cfg _ _ _ (by simp) hst
      simp only [hst, Option.some.injEq] at h
      subst h
      exact ⟨hr h1, hc.trans h2, h3, h4⟩
  | release =>
    simp only [cvStepAlive] at h
    cases hst : step cfg c.base Action.release with
    | none =>
      simp only [hst] at h
      split_ifs at h
    | some s1 =>
      obtain ⟨hc, hr⟩ := step_keeps_consumer cfg _ _ _ (by simp) hst
      simp only [hst] at h
      split_ifs at h
      simp only [Option.some.injEq] at h
      subst h
      have hpc : s1.consumer = ConsumerPc.popping := hc.trans h2
      simp only [notifyUploads, hpc]
      exact ⟨hr h1, hpc, h3, h4⟩

theorem Hung_run (cfg : Config) (schedule : List CvAction) :
    ∀ (c c1 : CvState), Hung c → cvRun cfg c schedule = some c1 → Hung c1 := by
  induction schedule with
  | nil =>
    intro c c1 hc h
    simp [cvRun] at h
    exact h ▸ hc
  | cons a rest ih =>
    intro c c1 hc h
    simp only [cvRun] at h
    cases hst : cvStep cfg c a with
    | none => simp [hst] at h
    | some c2 =>
      simp only [hst] at h
      exact ih c2 c1 (Hung_step cfg c a c2 hc hst) h

theorem cvRun_append (cfg : Config) (first rest : List CvAction) (c c2 : CvState) :
    cvRun cfg c (first ++ rest) = some c2 ↔
      ∃ c1, cvRun cfg c first = some c1 ∧ cvRun cfg c1 rest = some c2 := by
  induction first generalizing c with
  | nil => simp [cvRun]
  | cons a more ih =>
    simp only [List.cons_append, cvRun]
    cases hst : cvStep cfg c a with
    | none => simp
    | some c3 => simpa using ih c3

theorem no_producer_holds_at_init (n : Nat) :
    (List.replicate n WaitPhase.awake).any
      (fun phase => decide (phase = WaitPhase.predicateFalse)) = false := by
  induction n with
  | zero => rfl
  | succ k ih => simp [List.replicate_succ, ih]

theorem lostWakeup_hung (cfg : Config) (uploadTasks : List BlockUploadTask) (c : CvState)
    (h : cvRun cfg (CvState.init cfg uploadTasks) lostWakeupSchedule = some c) : Hung c := by
  by_cases hcb : cfg.progress = true
  · simp [lostWakeupSchedule, cvRun, cvStep, cvStepAlive, cvConsumer, destructorStep,
      CvState.init, step, stepAlive, ConsumerThread, State.init, PopBlockFromQueue,
      notifyNotEmpty, notifyNotFull, notifyUploads, WaitPhase.wake,
      producerHoldsRingBufferMutex, no_producer_holds_at_init, hcb] at h
    subst h
    exact ⟨rfl, rfl, rfl, rfl⟩
  · simp [lostWakeupSchedule, cvRun, cvStep, cvStepAlive, cvConsumer, destructorStep,
      CvState.init, step, stepAlive, ConsumerThread, State.init, PopBlockFromQueue,
      notifyNotEmpty, notifyNotFull, notifyUploads, WaitPhase.wake,
      producerHoldsRingBufferMutex, no_producer_holds_at_init, hcb] at h

/-- C16, on the code: let the consumer find the ring buffer empty in
`PopBlockFromQueue`, let the destructor then store `false` into `mIsRunning` and
notify the three condition variables, and let the consumer only then call
`wait`. Whatever the threads and the completion callbacks do afterwards, the
pipeline is stopped, the consumer stays blocked on `mRingBufferNotEmpty` and the
destructor stays inside `join`: it never returns. The destructor changes the
flag and notifies without holding the mutex of the waiter, so the notification
comes before the waiter sleeps, and a stopped pipeline never notifies
`mRingBufferNotEmpty` again. -/
theorem destructor_hangs_after_lost_wakeup (cfg : Config)
    (uploadTasks : List BlockUploadTask) (schedule : List CvAction) (c : CvState)
    (h : cvRun cfg (CvState.init cfg uploadTasks) (lostWakeupSchedule ++ schedule) = some c) :
    Hung c ∧ c.destructor ≠ DestructorPc.returned ∧ c.base.consumer ≠ ConsumerPc.exited := by
  obtain ⟨c1, h1, h2⟩ := (cvRun_append cfg _ _ _ c).mp h
  have hh := Hung_run cfg schedule c1 c (lostWakeup_hung cfg uploadTasks c1 h1) h2
  have hc := hh.2.1
  have hd := hh.2.2.2
  exact ⟨hh, by simp [hd], by simp [hc]⟩

/-- Witness for `destructor_hangs_after_lost_wakeup`: both producers have
returned, the consumer sleeps, and the destructor cannot go on. -/
theorem destructor_hangs_after_lost_wakeup_witness :
    cvRun cfg0 (CvState.init cfg0 tasks0)
        (lostWakeupSchedule ++ [CvAction.producer 0, CvAction.producer 1]) = some hungExample ∧
      cvStep cfg0 hungExample CvAction.destructor = none ∧
      cvStep cfg0 hungExample CvAction.consumer = none ∧
      Hung hungExample :=
  ⟨by decide, by decide, by decide,
    (destructor_hangs_after_lost_wakeup cfg0 tasks0
      [CvAction.producer 0, CvAction.producer 1] hungExample (by decide)).1⟩

theorem step_keeps_producer (cfg : Config) (s : State) (a : Action) (s1 : State) (i : Nat)
    (ha : a ≠ Action.producer i) (h : step cfg s a = some s1) :
    s1.producers[i]? = s.producers[i]? ∧ (s.mIsRunning = false → s1.mIsRunning = false) := by
  have hs := step_sound cfg s a s1 h
  have hset : ∀ (j : Nat) (pc : ProducerPc), Action.producer j ≠ Action.producer i →
      (s.producers.set j pc)[i]? = s.producers[i]? := by
    intro j pc hne
    have hji : j ≠ i := fun hji => hne (by rw [hji])
    simp [List.getElem?_set, hji]
  cases hs <;>
    first
    | exact ⟨rfl, fun h => h⟩
    | exact ⟨rfl, fun _ => rfl⟩
    | exact ⟨hset _ _ ha, fun h => h⟩

theorem ProducerHung_step (cfg : Config) (i : Nat) (item : ProducedItem) (c : CvState)
    (a : CvAction) (c1 : CvState) (hinv : ProducerHung i item c)
    (h : cvStep cfg c a = some c1) : ProducerHung i item c1 := by
  obtain ⟨h1, h2, h3, h4⟩ := hinv
  replace h := (cvStep_alive cfg c a c1 h).2
  cases a with
  | construct =>
    simp only [cvStepAlive] at h
    cases hst : step cfg c.base Action.construct with
    | none => simp [hst] at h
    | some s1 =>
      obtain ⟨hp, hr⟩ := step_keeps_producer cfg _ _ _ i (by simp) hst
      simp only [hst, Option.some.injEq] at h
      subst h
      exact ⟨hr h1, hp.trans h2, h3, h4⟩
  | destructor =>
    have hne : c.base.producers.all (fun pc => decide (pc = ProducerPc.exited)) = false := by
      rw [Bool.eq_false_iff]
      intro hall
      rw [List.all_eq_true] at hall
      have := hall _ (List.getElem?_mem h2)
      simp at this
    simp [cvStepAlive, destructorStep, h4, hne] at h
  | producer j =>
    by_cases hji : j = i
    · subst hji
      simp [cvStepAlive, cvProducer, h3] at h
    · have hw : ∀ phase, (c.producerWait.set j phase)[i]? = c.producerWait[i]? := by
        intro phase
        simp [List.getElem?_set, hji]
      simp only [cvStepAlive, cvProducer] at h
      cases hst : step cfg c.base (Action.producer j) with
      | none =>
        simp only [hst] at h
        split at h
        · simp at h
        · simp at h
        · simp only [Option.some.injEq] at h
          subst h
          exact ⟨h1, h2, (hw _).trans h3, h4⟩
        · split at h
          · split_ifs at h
            simp only [Option.some.injEq] at h
            subst h
            exact ⟨h1, h2, (hw _).trans h3, h4⟩
          · simp at h
      | some s1 =>
        obtain ⟨hp, hr⟩ := step_keeps_producer cfg _ _ _ i
          (by simp; exact hji) hst
        simp only [hst, h1, Bool.false_eq_true, if_false] at h
        split at h
        · simp at h
        · simp at h
        · simp only [Option.some.injEq] at h
          subst h
          exact ⟨h1, h2, (hw _).trans h3, h4⟩
        · split at h
          · split_ifs at h
            simp only [Option.some.injEq] at h
            subst h
            exact ⟨hr h1, hp.trans h2, h3, h4⟩
          · simp only [Option.some.injEq] at h
            subst h
            exact ⟨hr h1, hp.trans h2, h3, h4⟩
  | consumer =>
    simp only [cvStepAlive, cvConsumer] at h
    cases hst : step cfg c.base Action.consumer with
    | none =>
      simp only [hst] at h
      split at h
      · simp at h
      · simp only [Option.some.injEq] at h
        subst h
        exact ⟨h1, h2, h3, h4⟩
      · split at h
        · split_ifs at h
          simp only [Option.some.injEq] at h
          subst h
          exact ⟨h1, h2, h3, h4⟩
        · simp only [Option.some.injEq] at h
          subst h
          exact ⟨h1, h2, h3, h4⟩
        · simp at h
    | some s1 =>
      obtain ⟨hp, hr⟩ := step_keeps_producer cfg _ _ _ i (by simp) hst
      simp only [hst, h1, Bool.false_eq_true, if_false] at h
      split at h
      · simp at h
      · simp only [Option.some.injEq] at h
        subst h
        exact ⟨h1, h2, h3, h4⟩
      · split at h
        · split_ifs at h
          simp only [Option.some.injEq] at h
          subst h
          exact ⟨hr h1, hp.trans h2, h3, h4⟩
        · simp only [Option.some.injEq] at h
          subst h
          exact ⟨hr h1, hp.trans h2, h3, h4⟩
        · simp only [Option.some.injEq] at h
          subst h
          exact ⟨hr h1, hp.trans h2, h3, h4⟩
  | complete k result =>
    simp only [cvStepAlive] at h
    cases hst : step cfg c.base (Action.complete k result) with
    | none => simp [hst] at h
    | some s1 =>
      obtain ⟨hp, hr⟩ := step_keeps_producer cfg _ _ _ i (by simp) hst
      simp only [hst, Option.some.injEq] at h
      subst h
      exact ⟨hr h1, hp.trans h2, h3, h4⟩
  | release =>
    simp only [cvStepAlive] at h
    cases hst : step cfg c.base Action.release with
    | none =>
      simp only [hst] at h
      split_ifs at h
    | some s1 =>
      obtain ⟨hp, hr⟩ := step_keeps_producer cfg _ _ _ i (by simp) hst
      simp only [hst] at h
      split_ifs at h
      simp only [Option.some.injEq] at h
      subst h
      refine ⟨?_, ?_, ?_, ?_⟩
      · rw [notifyUploads_base]; exact hr h1
      · rw [notifyUploads_base]; exact hp.trans h2
      · simp only [notifyUploads]; split <;> exact h3
      · simp only [notifyUploads]; split <;> exact h4

theorem ProducerHung_run (cfg : Config) (i : Nat) (item : ProducedItem)
    (schedule : List CvAction) :
    ∀ (c c1 : CvState), ProducerHung i item c → cvRun cfg c schedule = some c1 →
      ProducerHung i item c1 := by
  induction schedule with
  | nil =>
    intro c c1 hc h
    simp [cvRun] at h
    exact h ▸ hc
  | cons a rest ih =>
    intro c c1 hc h
    simp only [cvRun] at h
    cases hst : cvStep cfg c a with
    | none => simp [hst] at h
    | some c2 =>
      simp only [hst] at h
      exact ih c2 c1 (ProducerHung_step cfg i item c a c2 hc hst) h

/-- C11, on the code: a producer that found the ring buffer full in
`PushBlockToQueue` and calls `wait` only after the destructor has stored `false`
into `mIsRunning` and made its notifications never observes the flag. Whatever
the other threads and the completion callbacks do afterwards, `mIsRunning` is
false and the wait predicate of `PushBlockToQueue` holds (evaluated, the function
would return with the state unchanged), yet the producer sleeps on
`mRingBufferNotFull`, cannot take a step and never returns, and the destructor
stays inside `join`. -/
theorem blocked_push_misses_flag (cfg : Config) (i : Nat) (item : ProducedItem)
    (c0 : CvState) (schedule : List CvAction) (c : CvState)
    (hhung : ProducerHung i item c0) (h : cvRun cfg c0 schedule = some c) :
    c.base.mIsRunning = false ∧
      PushBlockToQueue cfg c.base item = some c.base ∧
      c.base.producers[i]? = some (ProducerPc.pushing item) ∧
      c.producerWait[i]? = some WaitPhase.blocked ∧
      cvStep cfg c (CvAction.producer i) = none ∧
      c.destructor ≠ DestructorPc.returned := by
  obtain ⟨h1, h2, h3, h4⟩ := ProducerHung_run cfg i item schedule c0 c hhung h
  refine ⟨h1, (stopped_waits_return cfg c.base item h1).1, h2, h3, ?_, by simp [h4]⟩
  unfold cvStep
  split_ifs
  · rfl
  · simp [cvStepAlive, cvProducer, h3]

/-- Witness for `blocked_push_misses_flag`: the ten-block pipeline with a ring of
four slots, whose producer `0` sleeps with the fourth block in hand. -/
theorem blocked_push_misses_flag_witness :
    cvRun cfg10 (CvState.init cfg10 tasks10) fullRingLostWakeup = some pushHung ∧
      ProducerHung 0 ⟨⟨3, 3⟩, [3]⟩ pushHung ∧
      PushBlockToQueue cfg10 pushHung.base ⟨⟨3, 3⟩, [3]⟩ = some pushHung.base ∧
      cvStep cfg10 pushHung (CvAction.producer 0) = none :=
  ⟨by decide, ⟨by decide, by decide, by decide, by decide⟩,
    (blocked_push_misses_flag cfg10 0 ⟨⟨3, 3⟩, [3]⟩ pushHung [] pushHung
      ⟨by decide, by decide, by decide, by decide⟩ rfl).2.1,
    (blocked_push_misses_flag cfg10 0 ⟨⟨3, 3⟩, [3]⟩ pushHung [] pushHung
      ⟨by decide, by decide, by decide, by decide⟩ rfl).2.2.2.2.1⟩

end MissingBlocksUploader

namespace MixdownUploader

theorem Cancel_eq (m : State) :
    Cancel m =
      { m with
        mDataExporter := m.mDataExporter.map (fun e => { e with mCancelled := true })
        mUploadCancelled := m.mUploadCancelled || m.mDataExporter.isSome } := by
  unfold Cancel
  cases h : m.mDataExporter <;> simp [h]
  cases m; simp_all

theorem deliverProgress_eq (env : Env) (m : State) (p : Fraction) :
    deliverProgress env m p =
      { m with
        progressDelivered := m.progressDelivered ++ [p]
        mDataExporter :=
          if env.progressCallback m.progressDelivered.length p then m.mDataExporter
          else m.mDataExporter.map (fun e => { e with mCancelled := true })
        mUploadCancelled :=
          if env.progressCallback m.progressDelivered.length p then m.mUploadCancelled
          else m.mUploadCancelled || m.mDataExporter.isSome } := by
  unfold deliverProgress
  by_cases h : env.progressCallback m.progressDelivered.length p = true
  · simp [h]
  · simp [h, Cancel_eq]

theorem ReportProgress_eq (env : Env) (m : State) (state : MixdownState) (p : Fraction)
    (r : ResponseResult) (ui : Bool) :
    ReportProgress env m state p r ui =
      { m with
        mProgress := p
        mProgressUpdateQueued := if ui then false else true
        progressDelivered := if ui then m.progressDelivered ++ [p] else m.progressDelivered
        uiQueue :=
          if ui = false ∧ m.mProgressUpdateQueued = false then
            m.uiQueue ++ [UiClosure.progressUpdate m.owned]
          else m.uiQueue
        mDataExporter :=
          if ui = true ∧ env.progressCallback m.progressDelivered.length p = false then
            m.mDataExporter.map (fun e => { e with mCancelled := true })
          else m.mDataExporter
        mUploadCancelled :=
          if ui = true ∧ env.progressCallback m.progressDelivered.length p = false then
            m.mUploadCancelled || m.mDataExporter.isSome
          else m.mUploadCancelled
        mFinished := if isTerminal state then true else m.mFinished
        promiseValues :=
          if isTerminal state then m.promiseValues ++ [⟨state, r⟩] else m.promiseValues } := by
  unfold ReportProgress
  cases ui <;> cases hq : m.mProgressUpdateQueued <;> cases ht : isTerminal state <;>
    cases hc : env.progressCallback m.progressDelivered.length p <;>
    simp [deliverProgress_eq, hq, ht, hc]

@[simp]
theorem Cancel_isSome (m : State) :
    (Cancel m).mDataExporter.isSome = m.mDataExporter.isSome := by
  rw [Cancel_eq]; cases m.mDataExporter <;> rfl

@[simp]
theorem Cancel_promiseValues (m : State) :
    (Cancel m).promiseValues = m.promiseValues := by rw [Cancel_eq]

@[simp]
theorem Cancel_uiQueue (m : State) : (Cancel m).uiQueue = m.uiQueue := by
  rw [Cancel_eq]

@[simp]
theorem Cancel_exportOutcome (m : State) :
    (Cancel m).exportOutcome = m.exportOutcome := by rw [Cancel_eq]

@[simp]
theorem Cancel_waitingForUrls (m : State) :
    (Cancel m).waitingForUrls = m.waitingForUrls := by rw [Cancel_eq]

@[simp]
theorem Cancel_uploadPending (m : State) :
    (Cancel m).uploadPending = m.uploadPending := by rw [Cancel_eq]

@[simp]
theorem Cancel_uploads (m : State) : (Cancel m).uploads = m.uploads := by
  rw [Cancel_eq]

@[simp]
theorem Cancel_mUploadUrls (m : State) : (Cancel m).mUploadUrls = m.mUploadUrls := by
  rw [Cancel_eq]

@[simp]
theorem Cancel_owned (m : State) : (Cancel m).owned = m.owned := by
  rw [Cancel_eq]

@[simp]
theorem Cancel_mUploadCancelled (m : State) :
    (Cancel m).mUploadCancelled = (m.mUploadCancelled || m.mDataExporter.isSome) := by
  rw [Cancel_eq]

@[simp]
theorem ReportProgress_isSome (env : Env) (m : State) (state : MixdownState)
    (p : Fraction) (r : ResponseResult) (ui : Bool) :
    (ReportProgress env m state p r ui).mDataExporter.isSome = m.mDataExporter.isSome := by
  rw [ReportProgress_eq]
  simp only
  split_ifs <;> cases m.mDataExporter <;> rfl

@[simp]
theorem ReportProgress_promiseValues (env : Env) (m : State) (state : MixdownState)
    (p : Fraction) (r : ResponseResult) (ui : Bool) :
    (ReportProgress env m state p r ui).promiseValues =
      if isTerminal state then m.promiseValues ++ [⟨state, r⟩] else m.promiseValues := by
  rw [ReportProgress_eq]

@[simp]
theorem ReportProgress_resolvers (env : Env) (m : State) (state : MixdownState)
    (p : Fraction) (r : ResponseResult) (ui : Bool) :
    (ReportProgress env m state p r ui).uiQueue.filter UiClosure.resolves
      = m.uiQueue.filter UiClosure.resolves := by
  rw [ReportProgress_eq]
  simp only
  split_ifs <;> simp [List.filter_append, UiClosure.resolves]

@[simp]
theorem ReportProgress_owned (env : Env) (m : State) (state : MixdownState)
    (p : Fraction) (r : ResponseResult) (ui : Bool) :
    (ReportProgress env m state p r ui).owned = m.owned := by
  rw [ReportProgress_eq]

@[simp]
theorem ReportProgress_exportOutcome (env : Env) (m : State) (state : MixdownState)
    (p : Fraction) (r : ResponseResult) (ui : Bool) :
    (ReportProgress env m state p r ui).exportOutcome = m.exportOutcome := by
  rw [ReportProgress_eq]

@[simp]
theorem ReportProgress_waitingForUrls (env : Env) (m : State) (state : MixdownState)
    (p : Fraction) (r : ResponseResult) (ui : Bool) :
    (ReportProgress env m state p r ui).waitingForUrls = m.waitingForUrls := by
  rw [ReportProgress_eq]

@[simp]
theorem ReportProgress_uploadPending (env : Env) (m : State) (state : MixdownState)
    (p : Fraction) (r : ResponseResult) (ui : Bool) :
    (ReportProgress env m state p r ui).uploadPending = m.uploadPending := by
  rw [ReportProgress_eq]

@[simp]
theorem ReportProgress_uploads (env : Env) (m : State) (state : MixdownState)
    (p : Fraction) (r : ResponseResult) (ui : Bool) :
    (ReportProgress env m state p r ui).uploads = m.uploads := by
  rw [ReportProgress_eq]

@[simp]
theorem ReportProgress_mUploadUrls (env : Env) (m : State) (state : MixdownState)
    (p : Fraction) (r : ResponseResult) (ui : Bool) :
    (ReportProgress env m state p r ui).mUploadUrls = m.mUploadUrls := by
  rw [ReportProgress_eq]

theorem ReportProgress_mUploadCancelled (env : Env) (m : State) (state : MixdownState)
    (p : Fraction) (r : ResponseResult) (ui : Bool) (h : m.mUploadCancelled = true) :
    (ReportProgress env m state p r ui).mUploadCancelled = true := by
  rw [ReportProgress_eq]
  simp only
  split_ifs <;> simp [h]

@[simp]
theorem runProgressUpdate_isSome (env : Env) (m : State) (w : Bool) :
    (runProgressUpdate env m w).mDataExporter.isSome = m.mDataExporter.isSome := by
  unfold runProgressUpdate
  split_ifs
  · rfl
  · rfl
  · rw [deliverProgress_eq]
    simp only
    split_ifs <;> cases m.mDataExporter <;> rfl

@[simp]
theorem runProgressUpdate_owned (env : Env) (m : State) (w : Bool) :
    (runProgressUpdate env m w).owned = m.owned := by
  unfold runProgressUpdate
  split_ifs
  · rfl
  · rfl
  · rw [deliverProgress_eq]

@[simp]
theorem runProgressUpdate_promiseValues (env : Env) (m : State) (w : Bool) :
    (runProgressUpdate env m w).promiseValues = m.promiseValues := by
  unfold runProgressUpdate
  split_ifs
  · rfl
  · rfl
  · rw [deliverProgress_eq]

@[simp]
theorem runProgressUpdate_uiQueue (env : Env) (m : State) (w : Bool) :
    (runProgressUpdate env m w).uiQueue = m.uiQueue := by
  unfold runProgressUpdate
  split_ifs
  · rfl
  · rfl
  · rw [deliverProgress_eq]

@[simp]
theorem runProgressUpdate_exportOutcome (env : Env) (m : State) (w : Bool) :
    (runProgressUpdate env m w).exportOutcome = m.exportOutcome := by
  unfold runProgressUpdate
  split_ifs
  · rfl
  · rfl
  · rw [deliverProgress_eq]

@[simp]
theorem runProgressUpdate_waitingForUrls (env : Env) (m : State) (w : Bool) :
    (runProgressUpdate env m w).waitingForUrls = m.waitingForUrls := by
  unfold runProgressUpdate
  split_ifs
  · rfl
  · rfl
  · rw [deliverProgress_eq]

@[simp]
theorem runProgressUpdate_uploadPending (env : Env) (m : State) (w : Bool) :
    (runProgressUpdate env m w).uploadPending = m.uploadPending := by
  unfold runProgressUpdate
  split_ifs
  · rfl
  · rfl
  · rw [deliverProgress_eq]

@[simp]
theorem runProgressUpdate_uploads (env : Env) (m : State) (w : Bool) :
    (runProgressUpdate env m w).uploads = m.uploads := by
  unfold runProgressUpdate
  split_ifs
  · rfl
  · rfl
  · rw [deliverProgress_eq]

@[simp]
theorem runProgressUpdate_mUploadUrls (env : Env) (m : State) (w : Bool) :
    (runProgressUpdate env m w).mUploadUrls = m.mUploadUrls := by
  unfold runProgressUpdate
  split_ifs
  · rfl
  · rfl
  · rw [deliverProgress_eq]

theorem runProgressUpdate_mUploadCancelled (env : Env) (m : State) (w : Bool)
    (h : m.mUploadCancelled = true) : (runProgressUpdate env m w).mUploadCancelled = true := by
  unfold runProgressUpdate
  split_ifs
  · exact h
  · exact h
  · rw [deliverProgress_eq]
    simp only
    split_ifs <;> simp [h]

theorem mixdown_step_sound (env : Env) (m : State) (a : Action) (m1 : State)
    (h : step env m a = some m1) : Step env m a m1 := by
  cases a with
  | created =>
    simp only [step] at h
    split_ifs at h with hown
    simp only [Option.some.injEq] at h
    subst h
    exact Step.created (by simpa using hown)
  | cancel =>
    simp only [step] at h
    split_ifs at h with hown
    simp only [Option.some.injEq] at h
    subst h
    exact Step.cancel hown
  | setUrls urls =>
    simp only [step, SetUrls] at h
    split_ifs at h with hown
    cases hu : m.mUploadUrls with
    | some u => simp [hu] at h
    | none =>
      simp only [hu, Option.some.injEq] at h
      subst h
      exact Step.setUrls urls hown hu
  | exportProgress value =>
    simp only [step] at h
    split_ifs at h with hg
    simp only [Option.some.injEq] at h
    subst h
    exact Step.exportProgress value hg.1 hg.2
  | exportFinished outcome =>
    simp only [step] at h
    split_ifs at h with hg
    simp only [Option.some.injEq] at h
    subst h
    exact Step.exportFinished outcome hg.1 hg.2
  | uiRun =>
    simp only [step] at h
    split_ifs at h with hw
    have hw1 : m.waitingForUrls = false := by simpa using hw
    cases hq : m.uiQueue with
    | nil => simp [hq] at h
    | cons c rest =>
      simp only [hq, Option.some.injEq] at h
      subst h
      cases c with
      | onComplete result =>
        by_cases hres : result = ExportResult.Success
        · subst hres
          exact Step.completeSuccess rest hw1 hq
        · have : Step env m Action.uiRun _ := Step.completeOther result rest hw1 hq hres
          simpa [runClosure, OnComplete, hres] using this
      | diskFullError f =>
        exact Step.reportFailure _ _ rest hw1 hq (Or.inl ⟨f, rfl⟩)
      | errorException msg hp =>
        exact Step.reportFailure _ _ rest hw1 hq (Or.inr (Or.inl ⟨msg, hp, rfl⟩))
      | exportException msg =>
        exact Step.reportFailure _ _ rest hw1 hq (Or.inr (Or.inr ⟨msg, rfl⟩))
      | unknownException => exact Step.messageBox rest hw1 hq
      | progressUpdate weakThis => exact Step.progressUpdate weakThis rest hw1 hq
  | urlsWaitOver =>
    simp only [step, UploadMixdown_resume] at h
    split_ifs at h with hw hc
    · simp only [Option.some.injEq] at h
      subst h
      exact Step.waitCancelled hw hc
    · cases hu : m.mUploadUrls with
      | none => simp [hu] at h
      | some urls =>
        simp only [hu, Option.some.injEq] at h
        subst h
        exact Step.startUpload urls hw (by simpa using hc) hu
  | uploadProgress value ui =>
    simp only [step] at h
    split_ifs at h with hp
    simp only [Option.some.injEq] at h
    subst h
    exact Step.uploadProgress value ui hp
  | uploadCompleted result ui =>
    simp only [step] at h
    split_ifs at h with hp
    simp only [Option.some.injEq] at h
    subst h
    refine Step.uploadCompleted result ui _ hp ?_
    split_ifs <;> rfl

theorem mixdown_run_invariant (env : Env) (P : State → Prop)
    (hstep : ∀ m a m1, P m → step env m a = some m1 → P m1) :
    ∀ (schedule : List Action) (m m1 : State), P m → run env m schedule = some m1 → P m1 := by
  intro schedule
  induction schedule with
  | nil =>
    intro m m1 hm h
    simp [run] at h
    exact h ▸ hm
  | cons a rest ih =>
    intro m m1 hm h
    simp only [run] at h
    cases hst : step env m a with
    | none => simp [hst] at h
    | some m2 =>
      simp only [hst] at h
      exact ih m2 m1 (hstep m a m2 hm hst) h

theorem TokenInv_init (env : Env) : TokenInv (State.init env) := by
  unfold State.init ExportProject
  cases h : selectExport env env.preferredAudioFormats with
  | none => simp [TokenInv, pendingResolutions, resolvers, State.blank]
  | some pe => simp [TokenInv, pendingResolutions, resolvers, State.blank]

theorem TokenInv_step (env : Env) (m : State) (a : Action) (m1 : State)
    (hinv : TokenInv m) (h : step env m a = some m1) : TokenInv m1 := by
  have hs := mixdown_step_sound env m a m1 h
  unfold TokenInv pendingResolutions resolvers at *
  cases hs with
  | created hown => simpa using hinv
  | cancel hown => simpa using hinv
  | setUrls urls hown hnone => simpa using hinv
  | exportProgress value hexp hout => simpa [isTerminal] using hinv
  | exportFinished outcome hexp hout =>
    have hlen : ((m.uiQueue ++ [handlerClosure outcome]).filter UiClosure.resolves).length
        + (if outcome = ExportOutcome.unknownException then 1 else 0)
        = (m.uiQueue.filter UiClosure.resolves).length + 1 := by
      cases outcome <;> simp [handlerClosure, UiClosure.resolves, List.filter_append]
    simp only [hexp, hout, and_self, if_true, reduceCtorEq, and_false, if_false,
      Option.some.injEq] at hinv ⊢
    split_ifs at hlen hinv ⊢ <;> omega
  | completeSuccess rest hw hq =>
    simp [hw, hq, UiClosure.resolves, isTerminal, List.filter_cons] at hinv ⊢
    omega
  | completeOther result rest hw hq hres =>
    have ht : isTerminal (if result = ExportResult.Error then MixdownState.Failed
        else MixdownState.Cancelled) = true := by split_ifs <;> rfl
    simp [hw, hq, UiClosure.resolves, ht, List.filter_cons] at hinv ⊢
    omega
  | reportFailure c d rest hw hq hc =>
    have hr : c.resolves = true := by
      rcases hc with ⟨f, rfl⟩ | ⟨msg, hp, rfl⟩ | ⟨msg, rfl⟩ <;> rfl
    simp [hw, hq, hr, isTerminal, List.filter_cons] at hinv ⊢
    omega
  | messageBox rest hw hq =>
    simpa [hq, UiClosure.resolves, List.filter_cons] using hinv
  | progressUpdate weakThis rest hw hq =>
    simpa [hq, UiClosure.resolves, List.filter_cons] using hinv
  | waitCancelled hw hc =>
    simp [hw, isTerminal] at hinv ⊢
    omega
  | startUpload urls hw hc hu =>
    simp [hw, isTerminal] at hinv ⊢
    split_ifs at hinv ⊢ <;> omega
  | uploadProgress value ui hp => simpa [isTerminal] using hinv
  | uploadCompleted result ui state hp hterm =>
    simp [hp, hterm] at hinv ⊢
    omega

theorem ReportProgress_mem_uiQueue (env : Env) (m : State) (state : MixdownState)
    (p : Fraction) (r : ResponseResult) (ui : Bool) (c : UiClosure)
    (hc : c ∈ (ReportProgress env m state p r ui).uiQueue) (hr : c.resolves = true) :
    c ∈ m.uiQueue := by
  have h1 : c ∈ (ReportProgress env m state p r ui).uiQueue.filter UiClosure.resolves :=
    List.mem_filter.mpr ⟨hc, hr⟩
  rw [ReportProgress_resolvers] at h1
  exact (List.mem_filter.mp h1).1

theorem step_isSome (env : Env) (m : State) (a : Action) (m1 : State)
    (h : step env m a = some m1) : m1.mDataExporter.isSome = m.mDataExporter.isSome := by
  have hs := mixdown_step_sound env m a m1 h
  cases hs <;> simp

theorem ValueInv_init (env : Env) : ValueInv (State.init env) := by
  unfold State.init ExportProject
  cases h : selectExport env env.preferredAudioFormats with
  | none => simp [ValueInv, State.blank]
  | some pe => simp [ValueInv, State.blank]

theorem ValueInv_step (env : Env) (m : State) (a : Action) (m1 : State)
    (hinv : ValueInv m) (h : step env m a = some m1) : ValueInv m1 := by
  have hs := mixdown_step_sound env m a m1 h
  obtain ⟨ha, hb, hc, hd⟩ := hinv
  cases hs with
  | created hown => exact ⟨ha, hb, hc, hd⟩
  | cancel hown =>
    exact ⟨by simpa using ha, by simpa using hb, by simpa using hc, by simpa using hd⟩
  | setUrls urls hown hnone => exact ⟨ha, hb, hc, hd⟩
  | exportProgress value hexp hout =>
    refine ⟨?_, by simpa using hb, by simpa using hc, by simpa [isTerminal] using hd⟩
    intro c hcm hcr
    simpa using ha c (ReportProgress_mem_uiQueue _ _ _ _ _ _ c hcm hcr) hcr
  | exportFinished outcome hexp hout =>
    refine ⟨?_, ?_, ?_, ?_⟩
    · intro c hcm hcr
      simp only [List.mem_append, List.mem_singleton] at hcm
      rcases hcm with hcm | hcm
      · obtain ⟨o, ho, _⟩ := ha c hcm hcr
        simp [hout] at ho
      · exact ⟨outcome, rfl, hcm⟩
    · intro hw
      have := hb hw
      simp [hout] at this
    · intro hp
      have := (hc hp).1
      simp [hout] at this
    · intro _ v hv
      obtain ⟨o, ho, _⟩ := hd hexp v hv
      simp [hout] at ho
  | completeSuccess rest hw hq =>
    have hmem : UiClosure.onComplete ExportResult.Success ∈ m.uiQueue := by simp [hq]
    obtain ⟨o, ho, hcl⟩ := ha _ hmem rfl
    have hoS : o = ExportOutcome.returned ExportResult.Success := by
      cases o <;> simp [handlerClosure] at hcl
      subst hcl; rfl
    subst hoS
    refine ⟨?_, ?_, ?_, ?_⟩
    · intro c hcm hcr
      have := ReportProgress_mem_uiQueue _ _ _ _ _ _ c hcm hcr
      simpa using ha c (by simp only [hq]; exact List.mem_cons_of_mem _ this) hcr
    · intro _; simpa using ho
    · simpa using hc
    · simpa [isTerminal] using hd
  | completeOther result rest hw hq hres =>
    have hmem : UiClosure.onComplete result ∈ m.uiQueue := by simp [hq]
    obtain ⟨o, ho, hcl⟩ := ha _ hmem rfl
    have hoS : o = ExportOutcome.returned result := by
      cases o <;> simp [handlerClosure] at hcl
      subst hcl; rfl
    subst hoS
    refine ⟨?_, by simpa using hb, by simpa using hc, ?_⟩
    · intro c hcm hcr
      have := ReportProgress_mem_uiQueue _ _ _ _ _ _ c hcm hcr
      simpa using ha c (by simp only [hq]; exact List.mem_cons_of_mem _ this) hcr
    · intro hexp v hv
      have ht : isTerminal (if result = ExportResult.Error then MixdownState.Failed
          else MixdownState.Cancelled) = true := by split_ifs <;> rfl
      simp only [ReportProgress_promiseValues, ht, if_true, List.mem_append,
        List.mem_singleton] at hv
      simp only [ReportProgress_exportOutcome, ReportProgress_uploads, ReportProgress_isSome,
        Option.isSome_map'] at hexp ⊢
      rcases hv with hv | hv
      · exact hd hexp v hv
      · refine ⟨_, ho, Or.inl ?_⟩
        subst hv
        cases result <;> simp [stateAfterCancel] at hres ⊢
  | reportFailure c d rest hw hq hcc =>
    have hr : c.resolves = true := by
      rcases hcc with ⟨f, rfl⟩ | ⟨msg, hp, rfl⟩ | ⟨msg, rfl⟩ <;> rfl
    have hmem : c ∈ m.uiQueue := by simp [hq]
    obtain ⟨o, ho, hcl⟩ := ha _ hmem hr
    have hst : stateAfterCancel o = some MixdownState.Failed := by
      rcases hcc with ⟨f, rfl⟩ | ⟨msg, hp, rfl⟩ | ⟨msg, rfl⟩ <;>
        cases o <;> simp [handlerClosure] at hcl <;> rfl
    refine ⟨?_, by simpa using hb, by simpa using hc, ?_⟩
    · intro c1 hcm hcr
      have := ReportProgress_mem_uiQueue _ _ _ _ _ _ c1 hcm hcr
      simpa using ha c1 (by simp only [hq]; exact List.mem_cons_of_mem _ this) hcr
    · intro hexp v hv
      simp only [ReportProgress_promiseValues, isTerminal, if_true, List.mem_append,
        List.mem_singleton] at hv
      simp only [ReportProgress_exportOutcome, ReportProgress_uploads,
        ReportProgress_isSome] at hexp ⊢
      rcases hv with hv | hv
      · exact hd hexp v hv
      · subst hv
        exact ⟨o, ho, Or.inl ⟨hst, rfl⟩⟩
  | messageBox rest hw hq =>
    refine ⟨?_, hb, hc, hd⟩
    intro c hcm hcr
    exact ha c (by simp only [hq]; exact List.mem_cons_of_mem _ hcm) hcr
  | progressUpdate weakThis rest hw hq =>
    refine ⟨?_, by simpa using hb, by simpa using hc, by simpa using hd⟩
    intro c hcm hcr
    simp only [runProgressUpdate_uiQueue] at hcm
    simpa using ha c (by simp only [hq]; exact List.mem_cons_of_mem _ hcm) hcr
  | waitCancelled hw hcan =>
    have ho := hb hw
    refine ⟨?_, by simp, by simpa using hc, ?_⟩
    · intro c hcm hcr
      simpa using ha c (ReportProgress_mem_uiQueue _ _ _ _ _ _ c hcm hcr) hcr
    · intro hexp v hv
      simp only [ReportProgress_promiseValues, isTerminal, if_true, List.mem_append,
        List.mem_singleton] at hv
      simp only [ReportProgress_exportOutcome, ReportProgress_uploads,
        ReportProgress_isSome] at hexp ⊢
      rcases hv with hv | hv
      · exact hd hexp v hv
      · subst hv
        exact ⟨_, ho, Or.inl ⟨rfl, rfl⟩⟩
  | startUpload urls hw hcan hu =>
    have ho := hb hw
    refine ⟨?_, by simp, ?_, ?_⟩
    · intro c hcm hcr
      simpa using ha c (ReportProgress_mem_uiQueue _ _ _ _ _ _ c hcm hcr) hcr
    · intro _
      exact ⟨by simpa using ho, by simp⟩
    · intro hexp v hv
      simp only [ReportProgress_promiseValues, isTerminal] at hv
      simp only [ReportProgress_isSome] at hexp
      obtain ⟨o, ho1, _⟩ := hd hexp v (by simpa using hv)
      refine ⟨o, by simpa using ho1, Or.inr ⟨?_, by simp⟩⟩
      rw [ho] at ho1
      exact (Option.some.inj ho1).symm
  | uploadProgress value ui hp =>
    refine ⟨?_, by simpa using hb, by simpa using hc, by simpa [isTerminal] using hd⟩
    intro c hcm hcr
    simpa using ha c (ReportProgress_mem_uiQueue _ _ _ _ _ _ c hcm hcr) hcr
  | uploadCompleted result ui state hp hterm =>
    obtain ⟨ho, hup⟩ := hc hp
    refine ⟨?_, by simpa using hb, by simp, ?_⟩
    · intro c hcm hcr
      have := ReportProgress_mem_uiQueue _ _ _ _ _ _ c hcm hcr
      simpa using ha c this hcr
    · intro hexp v hv
      simp only [ReportProgress_promiseValues, hterm, if_true, List.mem_append,
        List.mem_singleton] at hv
      simp only [ReportProgress_exportOutcome, ReportProgress_uploads,
        ReportProgress_isSome] at hexp ⊢
      rcases hv with hv | hv
      · exact hd hexp v hv
      · exact ⟨_, ho, Or.inr ⟨rfl, hup⟩⟩

theorem run_append (env : Env) (pre post : List Action) (m m2 : State) :
    run env m (pre ++ post) = some m2 ↔
      ∃ m1, run env m pre = some m1 ∧ run env m1 post = some m2 := by
  induction pre generalizing m with
  | nil => simp [run]
  | cons a rest ih =>
    simp only [List.cons_append, run]
    cases hst : step env m a with
    | none => simp
    | some m3 => simpa using ih m3

theorem NoUrlsInv_step (env : Env) (m : State) (a : Action) (m1 : State)
    (hinv : NoUrlsInv m) (ha : ∀ u, a ≠ Action.setUrls u)
    (h : step env m a = some m1) : NoUrlsInv m1 := by
  have hs := mixdown_step_sound env m a m1 h
  obtain ⟨h1, h2, h3⟩ := hinv
  cases hs with
  | setUrls urls hown hnone => exact absurd rfl (ha urls)
  | startUpload urls hw hc hu => simp [h1] at hu
  | uploadProgress value ui hp => simp [h3] at hp
  | uploadCompleted result ui state hp hterm => simp [h3] at hp
  | _ => exact ⟨by simpa using h1, by simpa using h2, by simpa using h3⟩

theorem CancelledInv_step (env : Env) (m : State) (a : Action) (m1 : State)
    (hinv : CancelledInv m) (h : step env m a = some m1) : CancelledInv m1 := by
  have hs := mixdown_step_sound env m a m1 h
  obtain ⟨h1, h2, h3⟩ := hinv
  cases hs with
  | created hown => exact ⟨h1, h2, h3⟩
  | cancel hown => exact ⟨by simp [h1], by simpa using h2, by simpa using h3⟩
  | setUrls urls hown hnone => exact ⟨h1, h2, h3⟩
  | exportProgress value hexp hout =>
    exact ⟨ReportProgress_mUploadCancelled _ _ _ _ _ _ h1, by simpa using h2, by simpa using h3⟩
  | exportFinished outcome hexp hout => exact ⟨h1, h2, h3⟩
  | completeSuccess rest hw hq =>
    exact ⟨ReportProgress_mUploadCancelled _ _ _ _ _ _ h1, by simpa using h2, by simpa using h3⟩
  | completeOther result rest hw hq hres =>
    exact ⟨ReportProgress_mUploadCancelled _ _ _ _ _ _ h1, by simpa using h2, by simpa using h3⟩
  | reportFailure c d rest hw hq hc =>
    exact ⟨ReportProgress_mUploadCancelled _ _ _ _ _ _ h1, by simpa using h2, by simpa using h3⟩
  | messageBox rest hw hq => exact ⟨h1, h2, h3⟩
  | progressUpdate weakThis rest hw hq =>
    exact ⟨runProgressUpdate_mUploadCancelled _ _ _ h1, by simpa using h2, by simpa using h3⟩
  | waitCancelled hw hc =>
    exact ⟨ReportProgress_mUploadCancelled _ _ _ _ _ _ h1, by simpa using h2, by simpa using h3⟩
  | startUpload urls hw hc hu => simp [h1] at hc
  | uploadProgress value ui hp => simp [h3] at hp
  | uploadCompleted result ui state hp hterm => simp [h3] at hp

theorem NoUrlsInv_run (env : Env) (pre : List Action) (hpre : ∀ u, Action.setUrls u ∉ pre) :
    ∀ (m m1 : State), NoUrlsInv m → run env m pre = some m1 → NoUrlsInv m1 := by
  induction pre with
  | nil =>
    intro m m1 hm h
    simp [run] at h
    exact h ▸ hm
  | cons a rest ih =>
    intro m m1 hm h
    simp only [run] at h
    cases hst : step env m a with
    | none => simp [hst] at h
    | some m2 =>
      simp only [hst] at h
      have ha : ∀ u, a ≠ Action.setUrls u := by
        intro u hu
        exact hpre u (by simp [hu])
      exact ih (fun u hu => hpre u (List.mem_cons_of_mem _ hu)) m2 m1
        (NoUrlsInv_step env m a m2 hm ha hst) h

theorem isSome_run (env : Env) (schedule : List Action) :
    ∀ (m m1 : State), run env m schedule = some m1 →
      m1.mDataExporter.isSome = m.mDataExporter.isSome := by
  induction schedule with
  | nil =>
    intro m m1 h
    simp [run] at h
    rw [h]
  | cons a rest ih =>
    intro m m1 h
    simp only [run] at h
    cases hst : step env m a with
    | none => simp [hst] at h
    | some m2 =>
      simp only [hst] at h
      rw [ih m2 m1 h, step_isSome env m a m2 hst]

theorem NoUrlsInv_init (env : Env) : NoUrlsInv (State.init env) := by
  unfold State.init ExportProject
  cases h : selectExport env env.preferredAudioFormats <;> simp [NoUrlsInv, State.blank]

/-- C2, on the code: the promise is never given two values, and once the export
task has ended with an exception that is not an export exception it is never
given any: `HandleUnkonwnException` posts a message box and leaves out the
`ReportProgress(MixdownState::Failed, ...)` call of its three siblings. -/
theorem promise_unset_after_unknown_exception (env : Env) (m : State) (h : Reachable env m) :
    m.promiseValues.length ≤ 1 ∧
      (m.exportOutcome = some ExportOutcome.unknownException → m.promiseValues = []) := by
  obtain ⟨schedule, hrun⟩ := h
  have hinv := mixdown_run_invariant env TokenInv (TokenInv_step env) schedule _ m
    (TokenInv_init env) hrun
  unfold TokenInv at hinv
  constructor
  · omega
  · intro ho
    rw [ho] at hinv
    simp only [if_true] at hinv
    have : m.promiseValues.length = 0 := by omega
    exact List.length_eq_zero.mp this

/-- Witness for `promise_unset_after_unknown_exception`: the message box is the
only effect. -/
theorem promise_unset_after_unknown_exception_witness :
    (Reachable env0 afterUnknownException ∧
      afterUnknownException.exportOutcome = some ExportOutcome.unknownException) ∧
    afterUnknownException.promiseValues = [] :=
  ⟨⟨⟨unknownExceptionSchedule, by decide⟩, rfl⟩,
    (promise_unset_after_unknown_exception env0 afterUnknownException
      ⟨unknownExceptionSchedule, by decide⟩).2 rfl⟩

/-- C7, as the source has it: `Cancel()` is called before `SetUrls()`, the export
task returns `Error`, and the promise is resolved with `Failed`; no upload is
started. -/
theorem cancel_then_export_error_counterexample :
    (run env0 (State.init env0) cancelThenErrorSchedule).map
        (fun m => (m.promiseValues, m.uploads))
      = some ([⟨MixdownState.Failed, default⟩], []) := by
  decide

/-- C6, on the code: when the export task throws and the UI thread runs the
closure posted for the exception, no upload has been started; for
`ExportDiskFullError`, `ExportErrorException` and `ExportException` the promise
holds the single value `Failed`, but for any other exception it holds no value
and only a message box was shown. -/
theorem export_failure_outcomes (env : Env)
    (hexp : (State.init env).mDataExporter.isSome = true) (o : ExportOutcome)
    (hthrown : ∀ r, o ≠ ExportOutcome.returned r) :
    ∃ m, run env (State.init env) [Action.exportFinished o, Action.uiRun] = some m ∧
      m.uploads = [] ∧
      m.promiseValues =
        (if o = ExportOutcome.unknownException then [] else [⟨MixdownState.Failed, default⟩]) ∧
      (o = ExportOutcome.unknownException → m.dialogs = [Dialog.messageBox]) := by
  have hinit : (State.init env).exportOutcome = none ∧ (State.init env).uiQueue = [] ∧
      (State.init env).waitingForUrls = false ∧ (State.init env).uploads = [] ∧
      (State.init env).promiseValues = [] ∧ (State.init env).dialogs = [] := by
    unfold State.init ExportProject at hexp ⊢
    cases h : selectExport env env.preferredAudioFormats with
    | none => simp [h, State.blank] at hexp
    | some pe => simp [State.blank]
  obtain ⟨h1, h2, h3, h4, h5, h6⟩ := hinit
  cases o with
  | returned r => exact absurd rfl (hthrown r)
  | diskFullError f =>
    refine ⟨_, by simp [run, step, hexp, h1, h2, h3, ExportTread, handlerClosure]; rfl, ?_, ?_, ?_⟩
    all_goals simp [runClosure, isTerminal, h4, h5]
  | errorException msg hp =>
    refine ⟨_, by simp [run, step, hexp, h1, h2, h3, ExportTread, handlerClosure]; rfl, ?_, ?_, ?_⟩
    all_goals simp [runClosure, isTerminal, h4, h5]
  | exportException msg =>
    refine ⟨_, by simp [run, step, hexp, h1, h2, h3, ExportTread, handlerClosure]; rfl, ?_, ?_, ?_⟩
    all_goals simp [runClosure, isTerminal, h4, h5]
  | unknownException =>
    refine ⟨_, by simp [run, step, hexp, h1, h2, h3, ExportTread, handlerClosure]; rfl, ?_, ?_, ?_⟩
    all_goals simp [runClosure, h4, h5, h6]

/-- Witness for `export_failure_outcomes`: the unknown exception. -/
theorem export_failure_outcomes_witness :
    ((State.init env0).mDataExporter.isSome = true ∧
      ∀ r, ExportOutcome.unknownException ≠ ExportOutcome.returned r) ∧
    ∃ m, run env0 (State.init env0)
        [Action.exportFinished ExportOutcome.unknownException, Action.uiRun] = some m ∧
      m.uploads = [] ∧ m.promiseValues = [] :=
  ⟨⟨by decide, fun _ h => ExportOutcome.noConfusion h⟩,
    let ⟨m, h1, h2, h3, _⟩ := export_failure_outcomes env0 (by decide)
      ExportOutcome.unknownException (fun _ h => ExportOutcome.noConfusion h)
    ⟨m, h1, h2, by simpa using h3⟩⟩

theorem runProgressUpdate_mProgress (env : Env) (m : State) (w : Bool) :
    (runProgressUpdate env m w).mProgress = m.mProgress := by
  unfold runProgressUpdate
  split_ifs
  · rfl
  · rfl
  · rw [deliverProgress_eq]

theorem findPlugin_some (env : Env) (mime : Nat) (registry : List RegistryEntry)
    (t : RegistryEntry) (parameters : List Nat)
    (h : findPlugin env mime registry = some (t, parameters)) :
    ∃ before after, registry = before ++ t :: after ∧
      (∀ t1 ∈ before, qualifies env mime t1 = none) ∧
      qualifies env mime t = some parameters := by
  induction registry with
  | nil => simp [findPlugin] at h
  | cons t0 rest ih =>
    simp only [findPlugin] at h
    by_cases hm : t0.mimeTypes.contains mime = true
    · simp only [hm, if_true] at h
      cases hp : env.ParseConfig t0 (env.GetExportConfig mime) with
      | some p =>
        simp only [hp, Option.some.injEq, Prod.mk.injEq] at h
        obtain ⟨h1, h2⟩ := h
        subst h1 h2
        exact ⟨[], rest, rfl, by simp, by rw [qualifies, if_pos hm, hp]⟩
      | none =>
        simp only [hp] at h
        obtain ⟨before, after, hreg, hbefore, hq⟩ := ih h
        refine ⟨t0 :: before, after, by simp [hreg], ?_, hq⟩
        intro t1 ht1
        rcases List.mem_cons.mp ht1 with h1 | h1
        · subst h1; rw [qualifies, if_pos hm, hp]
        · exact hbefore t1 h1
    · simp only [hm] at h
      obtain ⟨before, after, hreg, hbefore, hq⟩ := ih (by simpa using h)
      refine ⟨t0 :: before, after, by simp [hreg], ?_, hq⟩
      intro t1 ht1
      rcases List.mem_cons.mp ht1 with h1 | h1
      · subst h1; rw [qualifies, if_neg hm]
      · exact hbefore t1 h1

theorem selectExport_some (env : Env) (formats : List Nat) (path : List Nat)
    (exporter : DataExporter) (h : selectExport env formats = some (path, exporter)) :
    ∃ before mime after t parameters, formats = before ++ mime :: after ∧
      (∀ m1 ∈ before, skipped env m1) ∧
      findPlugin env mime env.registry = some (t, parameters) ∧
      path = env.GenerateTempPath t.extension ∧ path ≠ [] ∧
      exporter =
        { mTask :=
            { parameters := parameters, numChannels := env.nChannels, sampleRate := env.rate,
              plugin := t.plugin, fileName := path }
          mCancelled := false
          mResult := ExportResult.Stopped } := by
  induction formats with
  | nil => simp [selectExport] at h
  | cons m0 rest ih =>
    simp only [selectExport] at h
    cases hf : findPlugin env m0 env.registry with
    | none =>
      simp only [hf] at h
      obtain ⟨before, mime, after, t, parameters, hfm, hb, hrest⟩ := ih h
      refine ⟨m0 :: before, mime, after, t, parameters, by simp [hfm], ?_, hrest⟩
      intro m1 hm1
      rcases List.mem_cons.mp hm1 with h1 | h1
      · subst h1; simp [skipped, hf]
      · exact hb m1 h1
    | some found =>
      obtain ⟨t0, p0⟩ := found
      simp only [hf] at h
      by_cases hp : (env.GenerateTempPath t0.extension).isEmpty = true
      · simp only [hp, if_true] at h
        obtain ⟨before, mime, after, t, parameters, hfm, hb, hrest⟩ := ih h
        refine ⟨m0 :: before, mime, after, t, parameters, by simp [hfm], ?_, hrest⟩
        intro m1 hm1
        rcases List.mem_cons.mp hm1 with h1 | h1
        · subst h1
          simp only [skipped, hf]
          simpa using hp
        · exact hb m1 h1
      · simp only [hp, Option.some.injEq, Prod.mk.injEq] at h
        obtain ⟨rfl, rfl⟩ := h
        exact ⟨[], m0, rest, t0, p0, rfl, by simp, hf, rfl, by simpa using hp, rfl⟩

theorem selectExport_none (env : Env) (formats : List Nat)
    (h : selectExport env formats = none) : ∀ mime ∈ formats, skipped env mime := by
  induction formats with
  | nil => intro mime hm; simp at hm
  | cons m0 rest ih =>
    simp only [selectExport] at h
    intro mime hm
    cases hf : findPlugin env m0 env.registry with
    | none =>
      simp only [hf] at h
      rcases List.mem_cons.mp hm with h1 | h1
      · subst h1; simp [skipped, hf]
      · exact ih h mime h1
    | some found =>
      obtain ⟨t0, p0⟩ := found
      simp only [hf] at h
      by_cases hp : (env.GenerateTempPath t0.extension).isEmpty = true
      · simp only [hp, if_true] at h
        rcases List.mem_cons.mp hm with h1 | h1
        · subst h1
          simp only [skipped, hf]
          simpa using hp
        · exact ih h mime h1
      · simp [hp] at h

theorem findPlugin_channels (env : Env) (channels rate : Nat) (mime : Nat)
    (registry : List RegistryEntry) :
    findPlugin { env with nChannels := channels, rate := rate } mime registry
      = findPlugin env mime registry := by
  induction registry with
  | nil => rfl
  | cons t0 rest ih => simp only [findPlugin, ih]

theorem selectExport_channels (env : Env) (channels rate : Nat) (formats : List Nat) :
    (selectExport { env with nChannels := channels, rate := rate } formats).map
        (fun found => (found.1, found.2.mTask.plugin, found.2.mTask.parameters))
      = (selectExport env formats).map
        (fun found => (found.1, found.2.mTask.plugin, found.2.mTask.parameters)) := by
  induction formats with
  | nil => rfl
  | cons m0 rest ih =>
    simp only [selectExport]
    have hf := findPlugin_channels env channels rate m0 env.registry
    simp only at hf
    rw [hf]
    cases findPlugin env m0 env.registry with
    | none => exact ih
    | some found =>
      obtain ⟨t0, p0⟩ := found
      simp only
      split_ifs
      · exact ih
      · rfl

/-- C15, as the source has it: the project has two channels and the target of the
first registry entry for the preferred format takes one channel only;
`ExportProject` builds the export task for that entry all the same, where the
selection worded by the specification takes the second entry. -/
theorem mono_target_selected_counterexample :
    (State.init env1).mDataExporter.map (fun e => e.mTask.plugin) = some 1 ∧
      accepts1 ⟨1, 0, [7], 3⟩ env1.nChannels env1.rate = false ∧
      (specSelect accepts1 env1 env1.preferredAudioFormats).map (fun found => found.1.plugin)
        = some 2 := by
  decide

/-- C15, amended: `ExportProject` takes the preferred mime types in the order of
the list and, for each, the first registry entry in registry order that lists
the mime type and for which `ParseConfig` succeeds; it settles on the first
preferred mime type whose entry also gets a non-empty temporary path. The
channels and the rate of the project play no part in the choice. The export task
is built with exactly the parameters `ParseConfig` wrote for that entry, and the
promise is left unresolved. When every preferred mime type is given up on, no
exporter is created and the promise is resolved with `Failed`. -/
theorem export_selection (env : Env) :
    (∀ path exporter, selectExport env env.preferredAudioFormats = some (path, exporter) →
      (∃ before mime after t registryBefore registryAfter,
        env.preferredAudioFormats = before ++ mime :: after ∧
        (∀ m1 ∈ before, skipped env m1) ∧
        env.registry = registryBefore ++ t :: registryAfter ∧
        (∀ t1 ∈ registryBefore, qualifies env mime t1 = none) ∧
        qualifies env mime t = some exporter.mTask.parameters ∧
        path = env.GenerateTempPath t.extension ∧ path ≠ [] ∧
        exporter.mTask.plugin = t.plugin ∧ exporter.mTask.fileName = path ∧
        exporter.mTask.numChannels = env.nChannels ∧ exporter.mTask.sampleRate = env.rate) ∧
      (State.init env).mDataExporter = some exporter ∧
      (State.init env).mExportedFilePath = path ∧
      (State.init env).promiseValues = []) ∧
    (selectExport env env.preferredAudioFormats = none →
      (∀ mime ∈ env.preferredAudioFormats, skipped env mime) ∧
      (State.init env).mDataExporter = none ∧
      (State.init env).mFinished = true ∧
      (State.init env).promiseValues = [⟨MixdownState.Failed, default⟩]) ∧
    (∀ channels rate,
      (selectExport { env with nChannels := channels, rate := rate }
          env.preferredAudioFormats).map
          (fun found => (found.1, found.2.mTask.plugin, found.2.mTask.parameters))
        = (selectExport env env.preferredAudioFormats).map
          (fun found => (found.1, found.2.mTask.plugin, found.2.mTask.parameters))) := by
  refine ⟨?_, ?_, ?_⟩
  · intro path exporter h
    obtain ⟨before, mime, after, t, parameters, hfm, hb, hf, hpath, hne, hexp⟩ :=
      selectExport_some env _ path exporter h
    obtain ⟨rb, ra, hreg, hrb, hq⟩ := findPlugin_some env mime _ t parameters hf
    refine ⟨⟨before, mime, after, t, rb, ra, hfm, hb, hreg, hrb, ?_, hpath, hne, ?_, ?_, ?_, ?_⟩,
      ?_, ?_, ?_⟩
    all_goals simp [hexp, hq, State.init, ExportProject, h, State.blank]
  · intro h
    refine ⟨selectExport_none env _ h, ?_, ?_, ?_⟩
    all_goals simp [State.init, ExportProject, h, State.blank]
  · intro channels rate
    exact selectExport_channels env channels rate _

/-- Witness for `export_selection`: the first preferred format is given up on for
want of a temporary path, the second one is exported by the second registry
entry. -/
theorem export_selection_witness :
    selectExport env2 env2.preferredAudioFormats = some ([4], exporter2) ∧
      (State.init env2).mDataExporter = some exporter2 ∧
      (State.init env2).promiseValues = [] :=
  ⟨by decide,
    ((export_selection env2).1 [4] exporter2 (by decide)).2.1,
    ((export_selection env2).1 [4] exporter2 (by decide)).2.2.2⟩

theorem CoalesceInv_step (env : Env) (m : State) (op : ProgressOp) (m1 : State)
    (hinv : CoalesceInv m)
    (hidle : ∀ state p r, op = ProgressOp.report state p r true → pendingDeliveries m = 0)
    (h : progressStep env m op = some m1) : CoalesceInv m1 := by
  unfold CoalesceInv pendingDeliveries at *
  obtain ⟨h1, h2, h3⟩ := hinv
  cases op with
  | created =>
    simp only [progressStep] at h
    split_ifs at h
    simp only [Option.some.injEq] at h
    subst h
    exact ⟨h1, h2, h3⟩
  | report state p r ui =>
    simp only [progressStep, Option.some.injEq] at h
    subst h
    rw [ReportProgress_eq]
    cases ui with
    | true =>
      have h0 := hidle state p r rfl
      refine ⟨?_, ?_, ?_⟩
      · simp [h0]
      · simp [h0]
      · simpa using h3
    | false =>
      by_cases hq : m.mProgressUpdateQueued = true
      · refine ⟨?_, ?_, ?_⟩
        · simpa [hq] using h1
        · simp
        · simpa [hq] using h3
      · have hq1 : m.mProgressUpdateQueued = false := by simpa using hq
        have h0 : List.countP UiClosure.isProgressUpdate m.uiQueue = 0 := by
          have : List.countP UiClosure.isProgressUpdate m.uiQueue ≠ 1 := fun h => hq (h2 h)
          omega
        refine ⟨?_, ?_, ?_⟩
        · simp [hq1, h0, List.countP_append, UiClosure.isProgressUpdate]
        · simp
        · intro c hc
          simp only [hq1, and_self, if_true, List.mem_append, List.mem_singleton] at hc
          rcases hc with hc | hc
          · exact h3 c hc
          · rw [hc]; rfl
  | deliver =>
    simp only [progressStep] at h
    cases hq : m.uiQueue with
    | nil => simp [hq] at h
    | cons c rest =>
      have hc := h3 c (by simp [hq])
      cases c with
      | progressUpdate w =>
        simp only [hq, Option.some.injEq] at h
        subst h
        simp only [hq, List.countP_cons, UiClosure.isProgressUpdate, if_true] at h1 h2
        have h0 : List.countP UiClosure.isProgressUpdate rest = 0 := by omega
        refine ⟨?_, ?_, ?_⟩
        · simp [h0]
        · simp [h0]
        · intro c hc
          simp only [runProgressUpdate_uiQueue] at hc
          exact h3 c (by simp [hq, hc])
      | _ => simp [UiClosure.isProgressUpdate] at hc

theorem CoalesceInv_run (env : Env) (ops : List ProgressOp) :
    ∀ (m m1 : State), CoalesceInv m → uiReportsWhenIdle env m ops = true →
      progressRun env m ops = some m1 → CoalesceInv m1 := by
  induction ops with
  | nil =>
    intro m m1 hm _ h
    simp [progressRun] at h
    exact h ▸ hm
  | cons op rest ih =>
    intro m m1 hm hidle h
    simp only [progressRun] at h
    cases hst : progressStep env m op with
    | none => simp [hst] at h
    | some m2 =>
      simp only [hst] at h
      simp only [uiReportsWhenIdle, hst, Bool.and_eq_true] at hidle
      refine ih m2 m1 (CoalesceInv_step env m op m2 hm ?_ hst) hidle.2 h
      intro state p r hop
      subst hop
      simpa using hidle.1

theorem LiveInv_step (env : Env) (m : State) (op : ProgressOp) (m1 : State)
    (hinv : LiveInv m) (h : progressStep env m op = some m1) : LiveInv m1 := by
  obtain ⟨h1, h2⟩ := hinv
  cases op with
  | created => simp [progressStep, h1] at h
  | report state p r ui =>
    simp only [progressStep, Option.some.injEq] at h
    subst h
    refine ⟨by simpa using h1, ?_⟩
    intro c hc
    rw [ReportProgress_eq] at hc
    simp only at hc
    split_ifs at hc
    · simp only [List.mem_append, List.mem_singleton] at hc
      rcases hc with hc | hc
      · exact h2 c hc
      · rw [hc, h1]
    · exact h2 c hc
  | deliver =>
    simp only [progressStep] at h
    cases hq : m.uiQueue with
    | nil => simp [hq] at h
    | cons c rest =>
      cases c with
      | progressUpdate w =>
        simp only [hq, Option.some.injEq] at h
        subst h
        refine ⟨by simpa using h1, ?_⟩
        intro c hc
        simp only [runProgressUpdate_uiQueue] at hc
        exact h2 c (by simp [hq, hc])
      | _ => simp [hq] at h

theorem LiveInv_run (env : Env) (ops : List ProgressOp) :
    ∀ (m m1 : State), LiveInv m → progressRun env m ops = some m1 → LiveInv m1 := by
  induction ops with
  | nil =>
    intro m m1 hm h
    simp [progressRun] at h
    exact h ▸ hm
  | cons op rest ih =>
    intro m m1 hm h
    simp only [progressRun] at h
    cases hst : progressStep env m op with
    | none => simp [hst] at h
    | some m2 =>
      simp only [hst] at h
      exact ih m2 m1 (LiveInv_step env m op m2 hm hst) h

theorem lastReported_run (env : Env) (ops : List ProgressOp) :
    ∀ (m m1 : State), progressRun env m ops = some m1 →
      m1.mProgress = (lastReported ops).getD m.mProgress := by
  induction ops with
  | nil =>
    intro m m1 h
    simp [progressRun] at h
    simp [lastReported, h]
  | cons op rest ih =>
    intro m m1 h
    simp only [progressRun] at h
    cases hst : progressStep env m op with
    | none => simp [hst] at h
    | some m2 =>
      simp only [hst] at h
      have := ih m2 m1 h
      rw [this]
      simp only [lastReported]
      cases hl : lastReported rest with
      | some p => simp
      | none =>
        cases op with
        | created =>
          simp only [progressStep] at hst
          split_ifs at hst
          simp only [Option.some.injEq] at hst
          subst hst
          simp
        | report state p r ui =>
          simp only [progressStep, Option.some.injEq] at hst
          subst hst
          rw [ReportProgress_eq]
          simp
        | deliver =>
          simp only [progressStep] at hst
          cases hq : m.uiQueue with
          | nil => simp [hq] at hst
          | cons c rest1 =>
            cases c <;> simp [hq] at hst
            subst hst
            simp [runProgressUpdate_mProgress]

/-- The closure posted while the uploader is being constructed captures an empty
`weakThis`: when it runs it delivers nothing and leaves `mProgressUpdateQueued`
set, so that the next report from the export thread posts nothing either. -/
theorem report_during_construction_lost :
    (progressRun env0 (State.init env0) reportDuringConstruction).map
        (fun m => (m.mProgress, m.progressDelivered, pendingDeliveries m,
          m.mProgressUpdateQueued)) = some (600, [], 0, true) := by
  decide

/-- C8, as the source has it. A `ReportProgress` call on the UI thread clears
`mProgressUpdateQueued` while a closure is pending, so the next call from another
thread posts a second one; and a closure that runs after a terminal state was
reported returns without calling the progress callback. -/
theorem ui_report_between_counterexample :
    (progressRun env0 (State.init env0) uiReportBetween).map pendingDeliveries = some 2 ∧
      (progressRun env0 (State.init env0) deliverAfterTerminal).map
          (fun m => (m.mProgress, m.progressDelivered)) = some (1000, []) := by
  decide

/-- C8, amended: start with no closure posted and let every `ReportProgress` call
made on the UI thread be made while no progress closure is pending. Then at most
one progress closure is pending at any time and the stored fraction is the one
of the latest call. While one is pending, a non-terminal call from another thread
changes nothing but the stored fraction. When the calls are made once `Upload`
has returned the uploader, the pending closure holds a non-empty `weakThis`; and
when such a closure runs before a terminal state was reported, it passes the
stored fraction to the progress callback and none is pending afterwards. -/
theorem progress_coalescing (env : Env) (m0 : State) (ops : List ProgressOp) (m : State)
    (hq0 : m0.uiQueue = [])
    (hidle : uiReportsWhenIdle env m0 ops = true)
    (hrun : progressRun env m0 ops = some m) :
    pendingDeliveries m ≤ 1 ∧
      m.mProgress = (lastReported ops).getD m0.mProgress ∧
      (pendingDeliveries m = 1 → ∀ state p r, isTerminal state = false →
        ReportProgress env m state p r false = { m with mProgress := p }) ∧
      (m0.owned = true → ∀ c ∈ m.uiQueue, c = UiClosure.progressUpdate true) ∧
      (pendingDeliveries m = 1 → (∀ c ∈ m.uiQueue, c = UiClosure.progressUpdate true) →
        m.mFinished = false →
        ∃ m1, progressStep env m ProgressOp.deliver = some m1 ∧
          m1.progressDelivered = m.progressDelivered ++ [m.mProgress] ∧
          pendingDeliveries m1 = 0) := by
  have h0 : CoalesceInv m0 := by simp [CoalesceInv, pendingDeliveries, hq0]
  obtain ⟨h1, h2, h3⟩ := CoalesceInv_run env ops m0 m h0 hidle hrun
  refine ⟨h1, lastReported_run env ops m0 m hrun, ?_, ?_, ?_⟩
  · intro hp state p r hterm
    have hq := h2 hp
    rw [ReportProgress_eq]
    cases m
    simp_all
  · intro hown
    exact (LiveInv_run env ops m0 m ⟨hown, by simp [hq0]⟩ hrun).2
  · intro hp hlive hfin
    unfold pendingDeliveries at hp ⊢
    simp only [progressStep]
    cases hq : m.uiQueue with
    | nil => simp [hq] at hp
    | cons c rest =>
      have hc := hlive c (by simp [hq])
      subst hc
      simp only [hq, List.countP_cons, UiClosure.isProgressUpdate, if_true] at hp
      have h0 : List.countP UiClosure.isProgressUpdate rest = 0 := by omega
      refine ⟨_, rfl, ?_, ?_⟩
      · simp [runProgressUpdate, hfin, deliverProgress_eq]
      · simp [h0]

/-- Witness for `progress_coalescing`: two rapid reports from the export thread,
made once `Upload` has returned; the closure then delivers the second value. -/
theorem progress_coalescing_witness :
    (ownedInit.uiQueue = [] ∧
      uiReportsWhenIdle env0 ownedInit twoRapidReports = true ∧
      progressRun env0 ownedInit twoRapidReports = some afterTwoRapidReports ∧
      ownedInit.owned = true ∧ pendingDeliveries afterTwoRapidReports = 1 ∧
      afterTwoRapidReports.mFinished = false) ∧
    (pendingDeliveries afterTwoRapidReports ≤ 1 ∧ afterTwoRapidReports.mProgress = 600 ∧
      ∃ m1, progressStep env0 afterTwoRapidReports ProgressOp.deliver = some m1 ∧
        m1.progressDelivered = afterTwoRapidReports.progressDelivered ++ [600] ∧
        pendingDeliveries m1 = 0) :=
  ⟨⟨by decide, by decide, by decide, by decide, by decide, by decide⟩,
    let h := progress_coalescing env0 ownedInit twoRapidReports afterTwoRapidReports
      (by decide) (by decide) (by decide)
    ⟨h.1, h.2.1, h.2.2.2.2 (by decide) (h.2.2.2.1 (by decide)) (by decide)⟩⟩

theorem waitStep_base (env : Env) (c : WaitState) (a : Action) (c1 : WaitState)
    (h : waitStep env c a = some c1) :
    (c1.base = c.base ∧ a = Action.urlsWaitOver) ∨ step env c.base a = some c1.base := by
  cases a with
  | urlsWaitOver =>
    simp only [waitStep] at h
    split at h
    · simp at h
    · simp only [Option.some.injEq] at h
      subst h
      exact Or.inl ⟨rfl, rfl⟩
    · split_ifs at h
      cases hst : step env c.base Action.urlsWaitOver with
      | none =>
        simp only [hst, Option.some.injEq] at h
        subst h
        exact Or.inl ⟨rfl, rfl⟩
      | some m1 =>
        simp only [hst, Option.some.injEq] at h
        subst h
        exact Or.inr rfl
  | setUrls urls =>
    simp only [waitStep] at h
    split_ifs at h
    cases hst : step env c.base (Action.setUrls urls) with
    | none => simp [hst] at h
    | some m1 =>
      simp only [hst, Option.some.injEq] at h
      subst h
      exact Or.inr rfl
  | cancel =>
    simp only [waitStep] at h
    cases hst : step env c.base Action.cancel with
    | none => simp [hst] at h
    | some m1 =>
      simp only [hst, Option.some.injEq] at h
      subst h
      exact Or.inr rfl
  | created =>
    simp only [waitStep] at h
    cases hst : step env c.base Action.created with
    | none => simp [hst] at h
    | some m1 =>
      simp only [hst, Option.some.injEq] at h
      subst h
      exact Or.inr rfl
  | exportProgress value =>
    simp only [waitStep] at h
    cases hst : step env c.base (Action.exportProgress value) with
    | none => simp [hst] at h
    | some m1 =>
      simp only [hst, Option.some.injEq] at h
      subst h
      exact Or.inr rfl
  | exportFinished outcome =>
    simp only [waitStep] at h
    cases hst : step env c.base (Action.exportFinished outcome) with
    | none => simp [hst] at h
    | some m1 =>
      simp only [hst, Option.some.injEq] at h
      subst h
      exact Or.inr rfl
  | uiRun =>
    simp only [waitStep] at h
    cases hst : step env c.base Action.uiRun with
    | none => simp [hst] at h
    | some m1 =>
      simp only [hst, Option.some.injEq] at h
      subst h
      exact Or.inr rfl
  | uploadProgress value ui =>
    simp only [waitStep] at h
    cases hst : step env c.base (Action.uploadProgress value ui) with
    | none => simp [hst] at h
    | some m1 =>
      simp only [hst, Option.some.injEq] at h
      subst h
      exact Or.inr rfl
  | uploadCompleted result ui =>
    simp only [waitStep] at h
    cases hst : step env c.base (Action.uploadCompleted result ui) with
    | none => simp [hst] at h
    | some m1 =>
      simp only [hst, Option.some.injEq] at h
      subst h
      exact Or.inr rfl

theorem waitRun_append (env : Env) (first rest : List Action) (c c2 : WaitState) :
    waitRun env c (first ++ rest) = some c2 ↔
      ∃ c1, waitRun env c first = some c1 ∧ waitRun env c1 rest = some c2 := by
  induction first generalizing c with
  | nil => simp [waitRun]
  | cons a more ih =>
    simp only [List.cons_append, waitRun]
    cases hst : waitStep env c a with
    | none => simp
    | some c3 => simpa using ih c3

theorem waitRun_base (env : Env) (schedule : List Action) :
    ∀ (c c1 : WaitState), waitRun env c schedule = some c1 →
      ∃ taken, (∀ a ∈ taken, a ∈ schedule) ∧ run env c.base taken = some c1.base := by
  induction schedule with
  | nil =>
    intro c c1 h
    simp only [waitRun, Option.some.injEq] at h
    subst h
    exact ⟨[], by simp, rfl⟩
  | cons a rest ih =>
    intro c c1 h
    simp only [waitRun] at h
    cases hst : waitStep env c a with
    | none => simp [hst] at h
    | some c2 =>
      simp only [hst] at h
      obtain ⟨taken, hsub, hrun⟩ := ih c2 c1 h
      rcases waitStep_base env c a c2 hst with ⟨hsame, _⟩ | hstep
      · refine ⟨taken, fun b hb => List.mem_cons_of_mem _ (hsub b hb), ?_⟩
        rw [← hsame]
        exact hrun
      · refine ⟨a :: taken, ?_, ?_⟩
        · intro b hb
          rcases List.mem_cons.mp hb with hb | hb
          · rw [hb]; exact List.mem_cons_self _ _
          · exact List.mem_cons_of_mem _ (hsub b hb)
        · simp only [run, hstep]
          exact hrun

theorem step_keeps_waiting (env : Env) (m : State) (a : Action) (m1 : State)
    (ha : a ≠ Action.urlsWaitOver) (h : step env m a = some m1)
    (hw : m1.waitingForUrls = false) : m.waitingForUrls = false := by
  have hs := mixdown_step_sound env m a m1 h
  cases hs <;> first | exact absurd rfl ha | exact hw | (simp at hw; try exact hw)

theorem WaitInv_step (env : Env) (c : WaitState) (a : Action) (c1 : WaitState)
    (hinv : c.base.waitingForUrls = false → c.urlsWait = WaitPhase.awake)
    (h : waitStep env c a = some c1) :
    c1.base.waitingForUrls = false → c1.urlsWait = WaitPhase.awake := by
  intro hw1
  cases a with
  | urlsWaitOver =>
    simp only [waitStep] at h
    split at h
    · simp at h
    · rename_i hph
      simp only [Option.some.injEq] at h
      subst h
      have := hinv hw1
      rw [hph] at this
      cases this
    · rename_i hph
      split_ifs at h with hw
      cases hst : step env c.base Action.urlsWaitOver with
      | none =>
        simp only [hst, Option.some.injEq] at h
        subst h
        simp [hw] at hw1
      | some m1 =>
        simp only [hst, Option.some.injEq] at h
        subst h
        exact hph
  | setUrls urls =>
    simp only [waitStep] at h
    split_ifs at h
    cases hst : step env c.base (Action.setUrls urls) with
    | none => simp [hst] at h
    | some m1 =>
      simp only [hst, Option.some.injEq] at h
      subst h
      have := hinv (step_keeps_waiting env _ _ _ (by simp) hst hw1)
      simp [this, WaitPhase.wake]
  | cancel =>
    simp only [waitStep] at h
    cases hst : step env c.base Action.cancel with
    | none => simp [hst] at h
    | some m1 =>
      simp only [hst, Option.some.injEq] at h
      subst h
      have := hinv (step_keeps_waiting env _ _ _ (by simp) hst hw1)
      simp [this, WaitPhase.wake]
  | created =>
    simp only [waitStep] at h
    cases hst : step env c.base Action.created with
    | none => simp [hst] at h
    | some m1 =>
      simp only [hst, Option.some.injEq] at h
      subst h
      exact hinv (step_keeps_waiting env _ _ _ (by simp) hst hw1)
  | exportProgress value =>
    simp only [waitStep] at h
    cases hst : step env c.base (Action.exportProgress value) with
    | none => simp [hst] at h
    | some m1 =>
      simp only [hst, Option.some.injEq] at h
      subst h
      exact hinv (step_keeps_waiting env _ _ _ (by simp) hst hw1)
  | exportFinished outcome =>
    simp only [waitStep] at h
    cases hst : step env c.base (Action.exportFinished outcome) with
    | none => simp [hst] at h
    | some m1 =>
      simp only [hst, Option.some.injEq] at h
      subst h
      exact hinv (step_keeps_waiting env _ _ _ (by simp) hst hw1)
  | uiRun =>
    simp only [waitStep] at h
    cases hst : step env c.base Action.uiRun with
    | none => simp [hst] at h
    | some m1 =>
      simp only [hst, Option.some.injEq] at h
      subst h
      exact hinv (step_keeps_waiting env _ _ _ (by simp) hst hw1)
  | uploadProgress value ui =>
    simp only [waitStep] at h
    cases hst : step env c.base (Action.uploadProgress value ui) with
    | none => simp [hst] at h
    | some m1 =>
      simp only [hst, Option.some.injEq] at h
      subst h
      exact hinv (step_keeps_waiting env _ _ _ (by simp) hst hw1)
  | uploadCompleted result ui =>
    simp only [waitStep] at h
    cases hst : step env c.base (Action.uploadCompleted result ui) with
    | none => simp [hst] at h
    | some m1 =>
      simp only [hst, Option.some.injEq] at h
      subst h
      exact hinv (step_keeps_waiting env _ _ _ (by simp) hst hw1)

theorem WaitInv_run (env : Env) (schedule : List Action) :
    ∀ (c c1 : WaitState), (c.base.waitingForUrls = false → c.urlsWait = WaitPhase.awake) →
      waitRun env c schedule = some c1 →
      (c1.base.waitingForUrls = false → c1.urlsWait = WaitPhase.awake) := by
  induction schedule with
  | nil =>
    intro c c1 hc h
    simp only [waitRun, Option.some.injEq] at h
    subst h
    exact hc
  | cons a rest ih =>
    intro c c1 hc h
    simp only [waitRun] at h
    cases hst : waitStep env c a with
    | none => simp [hst] at h
    | some c2 =>
      simp only [hst] at h
      exact ih c2 c1 (WaitInv_step env c a c2 hc hst) h

theorem SettleInv_step (env : Env) (c : WaitState) (a : Action) (c1 : WaitState)
    (hinv : SettleInv c) (h : waitStep env c a = some c1) : SettleInv c1 := by
  obtain ⟨h1, h2, h3, h4, h5⟩ := hinv
  have hw := WaitInv_step env c a c1 h5 h
  rcases waitStep_base env c a c1 h with ⟨hsame, _⟩ | hstep
  · refine ⟨?_, ?_, ?_, ?_, hw⟩
    · rw [hsame]; exact h1
    · rw [hsame]; exact h2
    · rw [hsame]; exact h3
    · rw [hsame]; exact h4
  · exact ⟨TokenInv_step env _ a _ h1 hstep, ValueInv_step env _ a _ h2 hstep,
      CancelledInv_step env _ a _ h3 hstep, by rw [step_isSome env _ a _ hstep]; exact h4, hw⟩

theorem ReportProgress_uiQueue_ui (env : Env) (m : State) (state : MixdownState)
    (p : Fraction) (r : ResponseResult) :
    (ReportProgress env m state p r true).uiQueue = m.uiQueue := by
  rw [ReportProgress_eq]
  simp

theorem uiRun_effect (env : Env) (m m1 : State) (h : step env m Action.uiRun = some m1) :
    m1.uiQueue.length + 1 = m.uiQueue.length ∧ m1.exportOutcome = m.exportOutcome := by
  have hs := mixdown_step_sound env m Action.uiRun m1 h
  cases hs with
  | completeSuccess rest hw hq => simp [hq, ReportProgress_uiQueue_ui]
  | completeOther result rest hw hq hres => simp [hq, ReportProgress_uiQueue_ui]
  | reportFailure c d rest hw hq hc => simp [hq, ReportProgress_uiQueue_ui]
  | messageBox rest hw hq => simp [hq]
  | progressUpdate weakThis rest hw hq => simp [hq]

theorem SettleInv_run (env : Env) (schedule : List Action) :
    ∀ (c c1 : WaitState), SettleInv c → waitRun env c schedule = some c1 → SettleInv c1 := by
  induction schedule with
  | nil =>
    intro c c1 hc h
    simp only [waitRun, Option.some.injEq] at h
    subst h
    exact hc
  | cons a rest ih =>
    intro c c1 hc h
    simp only [waitRun] at h
    cases hst : waitStep env c a with
    | none => simp [hst] at h
    | some c2 =>
      simp only [hst] at h
      exact ih c2 c1 (SettleInv_step env c a c2 hc hst) h

theorem settle_cases (c : WaitState) (o : ExportOutcome) (st : MixdownState)
    (hinv : SettleInv c) (ho : c.base.exportOutcome = some o)
    (hstate : stateAfterCancel o = some st) :
    (c.base.promiseValues.length ≤ 1 ∧ ∀ v ∈ c.base.promiseValues, v = ⟨st, default⟩) ∧
    (c.base.promiseValues = [⟨st, default⟩] ∨
      (c.base.promiseValues = [] ∧ c.base.waitingForUrls = true ∧ st = MixdownState.Cancelled) ∨
      (c.base.promiseValues = [] ∧ c.base.waitingForUrls = false ∧ c.base.uiQueue ≠ [])) := by
  obtain ⟨htok, hval, hcan, hsome, _⟩ := hinv
  have hne : o ≠ ExportOutcome.unknownException := by
    intro hu; subst hu; simp [stateAfterCancel] at hstate
  have hvals : ∀ v ∈ c.base.promiseValues, v = ⟨st, default⟩ := by
    intro v hv
    obtain ⟨o1, ho1, hcase⟩ := hval.2.2.2 hsome v hv
    rw [ho] at ho1
    have : o1 = o := (Option.some.inj ho1).symm
    subst this
    rcases hcase with ⟨h1, h2⟩ | ⟨_, h2⟩
    · rw [hstate] at h1
      cases v
      simp_all
    · exact absurd hcan.2.1 h2
  unfold TokenInv pendingResolutions at htok
  simp only [ho, reduceCtorEq, and_false, if_false, hcan.2.2, Bool.false_eq_true,
    Option.some.injEq, hne, Nat.zero_add, Nat.add_zero] at htok
  refine ⟨⟨by omega, hvals⟩, ?_⟩
  cases hp : c.base.promiseValues with
  | cons v rest =>
    left
    rw [hp] at htok hvals
    simp only [List.length_cons] at htok
    have hrest : rest = [] := List.length_eq_zero.mp (by omega)
    rw [hrest, hvals v (by simp)]
  | nil =>
    right
    rw [hp] at htok
    simp only [List.length_nil, Nat.add_zero] at htok
    by_cases hw : c.base.waitingForUrls = true
    · left
      refine ⟨rfl, hw, ?_⟩
      have hs := hval.2.1 hw
      rw [ho] at hs
      have : o = ExportOutcome.returned ExportResult.Success := Option.some.inj hs
      subst this
      simp [stateAfterCancel] at hstate
      exact hstate.symm
    · right
      have hw1 : c.base.waitingForUrls = false := by simpa using hw
      refine ⟨rfl, hw1, ?_⟩
      intro hq
      simp [resolvers, hq, hw1] at htok

theorem wait_over_cancelled (env : Env) (c : WaitState)
    (hawake : c.urlsWait = WaitPhase.awake) (hw : c.base.waitingForUrls = true)
    (hcan : c.base.mUploadCancelled = true) :
    waitRun env c [Action.urlsWaitOver]
      = some { c with
          base :=
            { ReportProgress env c.base MixdownState.Cancelled 0 default true with
              waitingForUrls := false } } := by
  simp [waitRun, waitStep, hawake, hw, step, UploadMixdown_resume, hcan]

theorem ui_settles (env : Env) (o : ExportOutcome) (st : MixdownState)
    (hstate : stateAfterCancel o = some st) :
    ∀ (n : Nat) (c : WaitState), c.base.uiQueue.length = n → SettleInv c →
      c.base.exportOutcome = some o → c.urlsWait = WaitPhase.awake →
      ∃ schedule c1, (∀ a ∈ schedule, a = Action.uiRun ∨ a = Action.urlsWaitOver) ∧
        schedule.length ≤ n + 1 ∧ waitRun env c schedule = some c1 ∧
        c1.base.promiseValues = [⟨st, default⟩] ∧ c1.base.uploads = [] := by
  intro n
  induction n with
  | zero =>
    intro c hlen hinv ho hawake
    rcases (settle_cases c o st hinv ho hstate).2 with hdone | ⟨hp, hw, hst⟩ | ⟨_, _, hq⟩
    · exact ⟨[], c, by simp, by simp, rfl, hdone, hinv.2.2.1.2.1⟩
    · refine ⟨[Action.urlsWaitOver], _, by simp, by simp,
        wait_over_cancelled env c hawake hw hinv.2.2.1.1, ?_, ?_⟩
      · simp [isTerminal, hp, hst]
      · simpa using hinv.2.2.1.2.1
    · exact absurd (List.length_eq_zero.mp hlen) hq
  | succ k ih =>
    intro c hlen hinv ho hawake
    rcases (settle_cases c o st hinv ho hstate).2 with hdone | ⟨hp, hw, hst⟩ | ⟨_, hw, hq⟩
    · exact ⟨[], c, by simp, by simp, rfl, hdone, hinv.2.2.1.2.1⟩
    · refine ⟨[Action.urlsWaitOver], _, by simp, by simp,
        wait_over_cancelled env c hawake hw hinv.2.2.1.1, ?_, ?_⟩
      · simp [isTerminal, hp, hst]
      · simpa using hinv.2.2.1.2.1
    · cases hqq : c.base.uiQueue with
      | nil => exact absurd hqq hq
      | cons cl rest =>
        obtain ⟨m1, hstep⟩ : ∃ m1, step env c.base Action.uiRun = some m1 := by
          simp [step, hw, hqq]
        have hwait : waitStep env c Action.uiRun = some { c with base := m1 } := by
          simp only [waitStep, hstep]
        obtain ⟨hl, hout⟩ := uiRun_effect env _ _ hstep
        obtain ⟨schedule, c1, hall, hle, hrun, hres, hup⟩ :=
          ih { c with base := m1 } (by simp only; omega)
            (SettleInv_step env c _ _ hinv hwait) (by simp only; rw [hout]; exact ho) hawake
        refine ⟨Action.uiRun :: schedule, c1, ?_, by simp only [List.length_cons]; omega, ?_,
          hres, hup⟩
        · intro a ha
          rcases List.mem_cons.mp ha with ha | ha
          · exact Or.inl ha
          · exact hall a ha
        · simp only [waitRun, hwait]
          exact hrun

/-- The notification of `Cancel()` can be lost: the UI thread finds the predicate
of the urls wait false, `Cancel()` stores the flag and notifies, and the UI
thread then calls `wait`. The upload is cancelled, no value was given to the
promise, and the UI thread can neither leave the wait nor run a closure. -/
theorem cancel_notification_lost :
    (waitRun env0 (WaitState.init env0) cancelInTheWindow).map
        (fun c => (c.base.mUploadCancelled, c.urlsWait, c.base.promiseValues,
          (waitStep env0 c Action.urlsWaitOver).isSome, (waitStep env0 c Action.uiRun).isSome))
      = some (true, WaitPhase.blocked, [], false, false) := by
  decide

/-- C7, amended: when the export was started and `Cancel()` is called before any
call of `SetUrls()`, `DataUploader::Upload` is never invoked and the promise is
given at most one value. Once the export task has ended, that value is
`Cancelled` when the task returned `Success`, `Cancelled` or `Stopped`, and
`Failed` when it returned `Error` or threw `ExportDiskFullError`,
`ExportErrorException` or `ExportException`; and the promise does get it: unless
the UI thread is asleep in the urls wait (or on its way to sleep) with the
notification of `Cancel()` behind it, the UI thread resolves the promise with
that value by running its posted closures and leaving the wait, in at most one
step more than there are posted closures. -/
theorem cancel_before_urls (env : Env) (pre post : List Action) (c : WaitState)
    (hexp : (State.init env).mDataExporter.isSome = true)
    (hpre : ∀ u, Action.setUrls u ∉ pre)
    (hrun : waitRun env (WaitState.init env) (pre ++ Action.cancel :: post) = some c) :
    c.base.uploads = [] ∧ c.base.uploadPending = false ∧
      c.base.promiseValues.length ≤ 1 ∧
      ∀ o st, c.base.exportOutcome = some o → stateAfterCancel o = some st →
        (∀ v ∈ c.base.promiseValues, v = ⟨st, default⟩) ∧
        (c.urlsWait = WaitPhase.awake →
          ∃ schedule c1, (∀ a ∈ schedule, a = Action.uiRun ∨ a = Action.urlsWaitOver) ∧
            schedule.length ≤ c.base.uiQueue.length + 1 ∧
            waitRun env c schedule = some c1 ∧
            c1.base.promiseValues = [⟨st, default⟩] ∧ c1.base.uploads = []) := by
  obtain ⟨c1, hrun1, hrun2⟩ := (waitRun_append env pre _ _ c).mp hrun
  simp only [waitRun] at hrun2
  cases hst : waitStep env c1 Action.cancel with
  | none => simp [hst] at hrun2
  | some c2 =>
    simp only [hst] at hrun2
    obtain ⟨taken, hsub, hbase⟩ := waitRun_base env pre _ c1 hrun1
    have hA := NoUrlsInv_run env taken (fun u hu => hpre u (hsub _ hu)) _ c1.base
      (NoUrlsInv_init env) hbase
    have htok1 := mixdown_run_invariant env TokenInv (TokenInv_step env) taken _ c1.base
      (TokenInv_init env) hbase
    have hval1 := mixdown_run_invariant env ValueInv (ValueInv_step env) taken _ c1.base
      (ValueInv_init env) hbase
    have hsome1 : c1.base.mDataExporter.isSome = true := by
      rw [isSome_run env taken _ c1.base hbase]; exact hexp
    have hw1 := WaitInv_run env pre _ c1 (fun _ => rfl) hrun1
    have hstep : step env c1.base Action.cancel = some c2.base := by
      rcases waitStep_base env c1 _ c2 hst with ⟨_, h⟩ | h
      · cases h
      · exact h
    have hB2 : CancelledInv c2.base := by
      simp only [step] at hstep
      split_ifs at hstep
      simp only [Option.some.injEq] at hstep
      rw [← hstep]
      exact ⟨by simp [hsome1], by simpa using hA.2.1, by simpa using hA.2.2⟩
    have hinv2 : SettleInv c2 :=
      ⟨TokenInv_step env _ _ _ htok1 hstep, ValueInv_step env _ _ _ hval1 hstep, hB2,
        by rw [step_isSome env _ _ _ hstep]; exact hsome1,
        WaitInv_step env c1 _ c2 hw1 hst⟩
    have hinv := SettleInv_run env post c2 c hinv2 hrun2
    refine ⟨hinv.2.2.1.2.1, hinv.2.2.1.2.2, ?_, ?_⟩
    · have htok := hinv.1
      unfold TokenInv at htok
      omega
    · intro o st ho hstate
      refine ⟨(settle_cases c o st hinv ho hstate).1.2, ?_⟩
      intro hawake
      exact ui_settles env o st hstate _ c rfl hinv ho hawake

/-- Witness for `cancel_before_urls`: the export succeeds and `Cancel()` arrives
while the UI thread stands at the urls wait; the UI thread then leaves the wait
and resolves the promise with `Cancelled`. -/
theorem cancel_before_urls_witness :
    ((State.init env0).mDataExporter.isSome = true ∧
      waitRun env0 (WaitState.init env0)
        ([Action.created, Action.exportFinished (ExportOutcome.returned ExportResult.Success),
          Action.uiRun] ++ Action.cancel :: []) = some cancelledAtTheWait ∧
      cancelledAtTheWait.urlsWait = WaitPhase.awake) ∧
    (cancelledAtTheWait.base.uploads = [] ∧
      (waitRun env0 cancelledAtTheWait [Action.urlsWaitOver]).map
          (fun c => c.base.promiseValues) = some [⟨MixdownState.Cancelled, default⟩] ∧
      ∃ schedule c1, waitRun env0 cancelledAtTheWait schedule = some c1 ∧
        c1.base.promiseValues = [⟨MixdownState.Cancelled, default⟩]) :=
  ⟨⟨by decide, by decide, rfl⟩,
    let h := cancel_before_urls env0
      [Action.created, Action.exportFinished (ExportOutcome.returned ExportResult.Success),
        Action.uiRun]
      [] cancelledAtTheWait (by decide) (by intro u hu; simp at hu) (by decide)
    ⟨h.1, by decide,
      ((h.2.2.2 _ _ rfl rfl).2 rfl).imp
        (fun _ hs => hs.imp (fun _ hc => ⟨hc.2.2.1, hc.2.2.2.1⟩))⟩⟩

end MixdownUploader

end cloud.audiocom.sync
